import Mathlib

/-!
# m_lang: tokenizer and single-pass parser/evaluator

A shallow embedding of `src/main.cpp`.

* `std::string` is a `List Char`; the character classes `isdigit`, `isalpha`,
  `isalnum`, `isspace` are those of the "C" locale.
* `exit(1)` is the `fatal` outcome; it records the variable store and the text
  written to `std::cout` at the moment the process exits.
* `std::cout << text << std::endl` appends the entry `text` to `output`.
* `std::unordered_map<std::string, std::string>` is an association list with
  unique keys.
-/

namespace MLang

/-! ## Tokens -/

inductive TokenType where
  | INT
  | FLOAT
  | BOOL
  | STRING
  | IDENTIFIER
  | EQUAL
  | SEMICOLON
  | PRINTLN
  | LEFT_BRACE
  | RIGHT_BRACE
  | LEFT_PAREN
  | RIGHT_PAREN
  | END
  deriving DecidableEq, Repr

structure Token where
  type : TokenType
  value : List Char
  deriving DecidableEq, Repr

/-- The diagnostics after which the program calls `exit(1)`. -/
inductive Error where
  | invalidCharacter (currentChar : Char)
  | incompleteEscape
  | unexpectedToken (actual expected : TokenType) (value : List Char)
  | expectedVariableType (value : List Char)
  | expectedExpression (value : List Char)
  | expectedVariableOrLiteral (value : List Char)
  | notDefined (varName : List Char)
  | nonInteger
  | nonFloat
  | nonBool
  deriving DecidableEq, Repr

/-! ## Character classes ("C" locale) -/

def isdigit (c : Char) : Bool := c.isDigit

def isalpha (c : Char) : Bool := c.isAlpha

def isalnum (c : Char) : Bool := c.isAlphanum

def isspace (c : Char) : Bool :=
  c == ' ' || c == '\t' || c == '\n' || c == '\x0b' || c == '\x0c' || c == '\r'

/-! ## Lexer -/

structure Lexer where
  input : List Char
  position : Nat
  deriving DecidableEq, Repr

/-- The unread input `input[position..]`. -/
def Lexer.rest (l : Lexer) : List Char := l.input.drop l.position

/-- The `while` loop of `readNumber`, run over the unread input; returns
`hasDot`, `result` and `position` at loop exit. -/
def readNumberLoop : List Char → Bool → List Char → Nat → Bool × List Char × Nat
  | [], hasDot, result, position => (hasDot, result, position)
  | c :: rest, hasDot, result, position =>
    if isdigit c || c == '.' then
      if c == '.' && hasDot then
        (hasDot, result, position)
      else
        readNumberLoop rest (hasDot || c == '.') (result ++ [c]) (position + 1)
    else
      (hasDot, result, position)

def readNumber (l : Lexer) : Token × Lexer :=
  match readNumberLoop l.rest false [] l.position with
  | (hasDot, result, position) =>
    (⟨if hasDot then .FLOAT else .INT, result⟩, ⟨l.input, position⟩)

/-- The `while` loop of `readIdentifier`, run over the unread input. -/
def readIdentifierLoop : List Char → List Char → Nat → List Char × Nat
  | [], result, position => (result, position)
  | c :: rest, result, position =>
    if isalnum c || c == '_' then
      readIdentifierLoop rest (result ++ [c]) (position + 1)
    else
      (result, position)

def readIdentifier (l : Lexer) : Token × Lexer :=
  match readIdentifierLoop l.rest [] l.position with
  | (result, position) =>
    let l1 : Lexer := ⟨l.input, position⟩
    if result = "println".toList then (⟨.PRINTLN, result⟩, l1)
    else if result = "int".toList then (⟨.INT, result⟩, l1)
    else if result = "float".toList then (⟨.FLOAT, result⟩, l1)
    else if result = "bool".toList then (⟨.BOOL, result⟩, l1)
    else if result = "string".toList then (⟨.STRING, result⟩, l1)
    else if result = "true".toList ∨ result = "false".toList then (⟨.BOOL, result⟩, l1)
    else (⟨.IDENTIFIER, result⟩, l1)

/-- The character appended for the escape sequence backslash + `c`. -/
def escapeChar (c : Char) : Char :=
  if c = 'n' then '\n' else if c = 't' then '\t' else c

/-- The `while` loop of `readString`, run over the unread input after the
opening quote; returns `result` and `position` at loop exit. -/
def readStringLoop : List Char → List Char → Nat → Except Error (List Char × Nat)
  | [], result, position => .ok (result, position)
  | c :: rest, result, position =>
    if c = '"' then
      .ok (result, position)
    else if c = '\\' then
      match rest with
      | [] => .error .incompleteEscape
      | e :: rest1 => readStringLoop rest1 (result ++ [escapeChar e]) (position + 2)
    else
      readStringLoop rest (result ++ [c]) (position + 1)

def readString (l : Lexer) : Except Error (Token × Lexer) :=
  match readStringLoop (l.input.drop (l.position + 1)) [] (l.position + 1) with
  | .error e => .error e
  | .ok (result, position) => .ok (⟨.STRING, result⟩, ⟨l.input, position + 1⟩)

/-- The `while` loop of `skipWhitespace`, run over the unread input. -/
def skipWhitespaceLoop : List Char → Nat → Nat
  | [], position => position
  | c :: rest, position =>
    if isspace c then skipWhitespaceLoop rest (position + 1) else position

def skipWhitespace (l : Lexer) : Lexer :=
  ⟨l.input, skipWhitespaceLoop l.rest l.position⟩

/-- The `while (position < input.size())` loop of `getNextToken`; the first
argument bounds the number of iterations still to run (every `continue`
follows a call of `skipWhitespace` that has advanced `position`). -/
def getNextTokenLoop : Nat → Lexer → Except Error (Token × Lexer)
  | 0, l => .ok (⟨.END, []⟩, l)
  | fuel + 1, l =>
    match l.rest with
    | [] => .ok (⟨.END, []⟩, l)
    | currentChar :: _ =>
      if isdigit currentChar || currentChar == '.' then .ok (readNumber l)
      else if currentChar = '=' then .ok (⟨.EQUAL, "=".toList⟩, ⟨l.input, l.position + 1⟩)
      else if currentChar = ';' then .ok (⟨.SEMICOLON, ";".toList⟩, ⟨l.input, l.position + 1⟩)
      else if currentChar = '{' then .ok (⟨.LEFT_BRACE, "\x7b".toList⟩, ⟨l.input, l.position + 1⟩)
      else if currentChar = '}' then .ok (⟨.RIGHT_BRACE, "\x7d".toList⟩, ⟨l.input, l.position + 1⟩)
      else if currentChar = '(' then .ok (⟨.LEFT_PAREN, "(".toList⟩, ⟨l.input, l.position + 1⟩)
      else if currentChar = ')' then .ok (⟨.RIGHT_PAREN, ")".toList⟩, ⟨l.input, l.position + 1⟩)
      else if currentChar = '"' then readString l
      else if isalpha currentChar then .ok (readIdentifier l)
      else if isspace currentChar then getNextTokenLoop fuel (skipWhitespace l)
      else .error (.invalidCharacter currentChar)

def getNextToken (l : Lexer) : Except Error (Token × Lexer) :=
  getNextTokenLoop (l.input.length - l.position) l

/-! ## Interpreter -/

/-- The type of the variable store `variables`,
`std::unordered_map<std::string, std::string>`. -/
abbrev Store := List (List Char × List Char)

/-- Lookup `variables.find(varName)`. -/
def find : Store → List Char → Option (List Char)
  | [], _ => none
  | (k, v) :: m, varName => if k = varName then some v else find m varName

/-- Update `variables[identifier] = value`. -/
def assign : Store → List Char → List Char → Store
  | [], identifier, value => [(identifier, value)]
  | (k, v) :: m, identifier, value =>
    if k = identifier then (k, value) :: m else (k, v) :: assign m identifier value

structure Interpreter where
  lexer : Lexer
  currentToken : Token
  /-- The member `variables`. -/
  store : Store
  /-- The entries written to `std::cout`, one per `<< text << std::endl`. -/
  output : List (List Char)
  deriving DecidableEq, Repr

/-- Either the operation returns, or the process has called `exit(1)`; a fatal
outcome records the diagnostic, the variable store `variables` and the text written to
`std::cout` at that moment. -/
inductive Outcome (α : Type) where
  | ok : α → Outcome α
  | fatal : Error → Store → List (List Char) → Outcome α
  deriving DecidableEq, Repr

def Outcome.bind {α β : Type} : Outcome α → (α → Outcome β) → Outcome β
  | .ok a, f => f a
  | .fatal e v o, _ => .fatal e v o

def isInteger : List Char → Bool
  | [] => true
  | c :: value => if !isdigit c then false else isInteger value

/-- The `for` loop of `isFloat`, carrying `hasDot`. -/
def isFloatLoop : List Char → Bool → Bool
  | [], _ => true
  | c :: value, hasDot =>
    if c = '.' then
      if hasDot then false else isFloatLoop value true
    else if !isdigit c then false
    else isFloatLoop value hasDot

def isFloat (value : List Char) : Bool := isFloatLoop value false

def isBool (value : List Char) : Bool :=
  value = "true".toList || value = "false".toList

/-- The assignment `currentToken = lexer.getNextToken()`. -/
def Interpreter.advance (I : Interpreter) : Outcome Interpreter :=
  match getNextToken I.lexer with
  | .error e => .fatal e I.store I.output
  | .ok (t, l) => .ok { I with lexer := l, currentToken := t }

/-- The method `Interpreter::match`. -/
def Interpreter.matchToken (I : Interpreter) (expectedType : TokenType) : Outcome Interpreter :=
  if I.currentToken.type = expectedType then I.advance
  else .fatal (.unexpectedToken I.currentToken.type expectedType I.currentToken.value)
    I.store I.output

def Interpreter.matchAnyType (I : Interpreter) : Outcome Interpreter :=
  if I.currentToken.type ≠ .INT ∧ I.currentToken.type ≠ .FLOAT ∧
      I.currentToken.type ≠ .BOOL ∧ I.currentToken.type ≠ .STRING then
    .fatal (.expectedVariableType I.currentToken.value) I.store I.output
  else I.advance

def Interpreter.evaluateVariable (I : Interpreter) : Outcome (List Char × Interpreter) :=
  if I.currentToken.type = .IDENTIFIER then
    match find I.store I.currentToken.value with
    | some result => I.advance.bind fun I1 => .ok (result, I1)
    | none => .fatal (.notDefined I.currentToken.value) I.store I.output
  else if I.currentToken.type = .INT ∨ I.currentToken.type = .FLOAT ∨
      I.currentToken.type = .BOOL then
    I.advance.bind fun I1 => .ok (I.currentToken.value, I1)
  else .fatal (.expectedVariableOrLiteral I.currentToken.value) I.store I.output

def Interpreter.evaluateExpression (I : Interpreter) : Outcome (List Char × Interpreter) :=
  if I.currentToken.type = .STRING then
    I.advance.bind fun I1 => .ok (I.currentToken.value, I1)
  else if I.currentToken.type = .INT ∨ I.currentToken.type = .FLOAT ∨
      I.currentToken.type = .BOOL ∨ I.currentToken.type = .IDENTIFIER then
    I.evaluateVariable
  else .fatal (.expectedExpression I.currentToken.value) I.store I.output

/-- The `println` branch of the statement loop of `parse` (lines 166-175). -/
def Interpreter.printlnStatement (I : Interpreter) : Outcome Interpreter :=
  (I.matchToken .PRINTLN).bind fun I1 =>
  (I1.matchToken .LEFT_PAREN).bind fun I2 =>
  (if I2.currentToken.type = .STRING then
      Interpreter.matchToken { I2 with output := I2.output ++ [I2.currentToken.value] } .STRING
    else
      I2.evaluateExpression.bind fun r =>
        .ok { r.2 with output := r.2.output ++ [r.1] }).bind fun I3 =>
  (I3.matchToken .RIGHT_PAREN).bind fun I4 =>
  I4.matchToken .SEMICOLON

/-- The type check and store update of a declaration with initializer
(lines 185-195). -/
def Interpreter.checkAndAssign (I : Interpreter) (variableType : TokenType)
    (identifier value : List Char) : Outcome Interpreter :=
  if variableType = .INT ∧ isInteger value = false then
    .fatal .nonInteger I.store I.output
  else if variableType = .FLOAT ∧ isFloat value = false then
    .fatal .nonFloat I.store I.output
  else if variableType = .BOOL ∧ isBool value = false then
    .fatal .nonBool I.store I.output
  else .ok { I with store := assign I.store identifier value }

/-- The declaration branch of the statement loop of `parse` (lines 177-197). -/
def Interpreter.declarationStatement (I : Interpreter) : Outcome Interpreter :=
  I.matchAnyType.bind fun I1 =>
  (I1.matchToken .IDENTIFIER).bind fun I2 =>
  (if I2.currentToken.type = .EQUAL then
      (I2.matchToken .EQUAL).bind fun I3 =>
      I3.evaluateExpression.bind fun r =>
      r.2.checkAndAssign I.currentToken.type I1.currentToken.value r.1
    else .ok I2).bind fun I4 =>
  I4.matchToken .SEMICOLON

/-- One iteration of the body of the statement loop of `parse`. -/
def Interpreter.statement (I : Interpreter) : Outcome Interpreter :=
  if I.currentToken.type = .PRINTLN then I.printlnStatement else I.declarationStatement

/-- The loop `while (currentToken.type != TokenType::RIGHT_BRACE)` of `parse`;
the first argument bounds the number of iterations, `none` means the bound was
reached. -/
def Interpreter.statements : Nat → Interpreter → Option (Outcome Interpreter)
  | 0, _ => none
  | fuel + 1, I =>
    if I.currentToken.type ≠ .RIGHT_BRACE then
      match I.statement with
      | .fatal e v o => some (.fatal e v o)
      | .ok I1 => Interpreter.statements fuel I1
    else some (.ok I)

/-- The header `int IDENTIFIER ( )` of `parse` (lines 158-161). -/
def Interpreter.header (I : Interpreter) : Outcome Interpreter :=
  (I.matchToken .INT).bind fun I1 =>
  (I1.matchToken .IDENTIFIER).bind fun I2 =>
  (I2.matchToken .LEFT_PAREN).bind fun I3 =>
  I3.matchToken .RIGHT_PAREN

/-- The method `Interpreter::parse`. The statement loop is run with the bound
`input.size() + 1`; `parse_total` shows that the bound is never reached. -/
def Interpreter.parse (I : Interpreter) : Option (Outcome Interpreter) :=
  match I.header with
  | .fatal e v o => some (.fatal e v o)
  | .ok I1 =>
    Option.map (fun r => Outcome.bind r fun I5 => I5.matchToken .END)
      (if I1.currentToken.type = .LEFT_BRACE then
        match I1.matchToken .LEFT_BRACE with
        | .fatal e v o => some (.fatal e v o)
        | .ok I2 =>
          Option.map (fun r => Outcome.bind r fun I4 => I4.matchToken .RIGHT_BRACE)
            (Interpreter.statements (I2.lexer.input.length + 1) I2)
      else some (I1.matchToken .SEMICOLON))

/-- The constructor `Interpreter(input)`: the lexer starts at position 0 and the
first token is read. -/
def Interpreter.init (input : List Char) : Outcome Interpreter :=
  match getNextToken ⟨input, 0⟩ with
  | .error e => .fatal e [] []
  | .ok (t, l) => .ok ⟨l, t, [], []⟩

/-- The part of `main` after the source text is read: construct the
interpreter, then `parse`. -/
def run (input : List Char) : Option (Outcome Interpreter) :=
  match Interpreter.init input with
  | .fatal e v o => some (.fatal e v o)
  | .ok I => I.parse

/-! ## Specification vocabulary -/

/-- The seven keywords of the language. -/
def keywords : List (List Char) :=
  ["println".toList, "int".toList, "float".toList, "bool".toList, "string".toList,
    "true".toList, "false".toList]

/-- An identifier name: a letter followed by letters, digits or `_`. -/
def isIdentifierName : List Char → Bool
  | [] => false
  | c :: cs => isalpha c && cs.all fun x => isalnum x || x == '_'

/-- The token kind that `readIdentifier` gives to the text `result`. -/
def keywordType (result : List Char) : TokenType :=
  if result = "println".toList then .PRINTLN
  else if result = "int".toList then .INT
  else if result = "float".toList then .FLOAT
  else if result = "bool".toList then .BOOL
  else if result = "string".toList then .STRING
  else if result = "true".toList ∨ result = "false".toList then .BOOL
  else .IDENTIFIER

/-- The tokens the tokenizer produces before END, and the lexical error that
stopped it, if any. -/
structure TokenStream where
  tokens : List Token
  error : Option Error
  deriving DecidableEq, Repr

/-- Repeated `getNextToken` from the lexer state `l`; the first argument bounds
the number of tokens other than END still to come (each consumes at least one
character). -/
def tokensFrom : Nat → Lexer → TokenStream
  | 0, _ => ⟨[], none⟩
  | n + 1, l =>
    match getNextToken l with
    | .error e => ⟨[], some e⟩
    | .ok (t, l1) =>
      if t.type = .END then ⟨[], none⟩
      else ⟨t :: (tokensFrom n l1).tokens, (tokensFrom n l1).error⟩

/-- The token stream of the unread input. -/
def Lexer.tokens (l : Lexer) : TokenStream := tokensFrom (l.input.length - l.position) l

/-- The token stream of a source text. -/
def tokenStream (input : List Char) : TokenStream := Lexer.tokens ⟨input, 0⟩

/-- The tokens not yet consumed by the interpreter: the lookahead token and the
token stream of the unread input. -/
def Interpreter.pending (I : Interpreter) : TokenStream :=
  if I.currentToken.type = .END then ⟨[], none⟩
  else ⟨I.currentToken :: I.lexer.tokens.tokens, I.lexer.tokens.error⟩

/-- The number of `println` keyword tokens in a list of tokens. -/
def countPrintln (ts : List Token) : Nat := ts.countP fun t => t.type = .PRINTLN

/-- The tokenizer reads the token `t` from unread input `r` and leaves `r1` unread. -/
def Lex (r : List Char) (t : Token) (r1 : List Char) : Prop :=
  ∀ l : Lexer, l.rest = r →
    ∃ l1, getNextToken l = .ok (t, l1) ∧ l1.rest = r1 ∧ l1.input = l.input

/-- The interpreter has lookahead `t`, unread input `r`, store `s` and output `o`. -/
def Interpreter.At (I : Interpreter) (t : Token) (r : List Char) (s : Store)
    (o : List (List Char)) : Prop :=
  I.currentToken = t ∧ I.lexer.rest = r ∧ I.store = s ∧ I.output = o

/-- The unread input `r` does not start with a character of class `p`. -/
def NotStart (p : Char → Bool) (r : List Char) : Prop :=
  ∀ c ∈ r.head?, p c = false

/-- The shape of the tokens of one `println` statement. -/
def IsPrintln (pre : List Token) : Prop :=
  ∃ t0 t1 t2 t3 t4 : Token, pre = [t0, t1, t2, t3, t4] ∧ t0.type = .PRINTLN ∧
    t1.type = .LEFT_PAREN ∧
    (t2.type = .IDENTIFIER ∨ t2.type = .INT ∨ t2.type = .FLOAT ∨ t2.type = .BOOL ∨
      t2.type = .STRING) ∧
    t3.type = .RIGHT_PAREN ∧ t4.type = .SEMICOLON

/-- The shape of the tokens of one declaration statement. -/
def IsDeclaration (pre : List Token) : Prop :=
  ∃ t0 t1 : Token,
    (t0.type = .INT ∨ t0.type = .FLOAT ∨ t0.type = .BOOL ∨ t0.type = .STRING) ∧
    t1.type = .IDENTIFIER ∧
    ((∃ t2 : Token, pre = [t0, t1, t2] ∧ t2.type = .SEMICOLON) ∨
      ∃ t2 t3 t4 : Token, pre = [t0, t1, t2, t3, t4] ∧ t2.type = .EQUAL ∧
        (t3.type = .IDENTIFIER ∨ t3.type = .INT ∨ t3.type = .FLOAT ∨ t3.type = .BOOL ∨
          t3.type = .STRING) ∧ t4.type = .SEMICOLON)

/-- The tokens of one statement. -/
def IsStatement (pre : List Token) : Prop := IsPrintln pre ∨ IsDeclaration pre

/-- The tokens of a sequence of statements. -/
inductive IsBody : List Token → Prop where
  | nil : IsBody []
  | cons {pre rest : List Token} : IsStatement pre → IsBody rest → IsBody (pre ++ rest)

/-- The tokens of a program as `parse` recognizes it: a header of kinds INT,
IDENTIFIER, `(`, `)` followed by a single `;` or by a block of statements in
braces. -/
def IsProgram (ts : List Token) : Prop :=
  ∃ t1 t2 t3 t4 t5 : Token, t1.type = .INT ∧ t2.type = .IDENTIFIER ∧ t3.type = .LEFT_PAREN ∧
    t4.type = .RIGHT_PAREN ∧
    ((ts = [t1, t2, t3, t4, t5] ∧ t5.type = .SEMICOLON) ∨
      ∃ (body : List Token) (t6 : Token), ts = t1 :: t2 :: t3 :: t4 :: t5 :: (body ++ [t6]) ∧
        t5.type = .LEFT_BRACE ∧ IsBody body ∧ t6.type = .RIGHT_BRACE)

/-- The text of the statement `println ( "s" ) ;` with the separator `w` after
every token. -/
def printlnText (w s : List Char) : List Char :=
  "println".toList ++ (w ++ ('(' :: (w ++ ('"' :: (s ++ ('"' :: (w ++ (')' :: (w ++
    (';' :: w))))))))))

/-- The statements `println ( "s1" ) ; ... println ( "sk" ) ;`. -/
def printlnTexts (w : List Char) : List (List Char) → List Char
  | [] => []
  | s :: ss => printlnText w s ++ printlnTexts w ss

/-- The source text `int main ( ) { println ( "s1" ) ; ... println ( "sk" ) ; }`
with the separator `w` between adjacent tokens. -/
def printlnProgram (w : List Char) (ss : List (List Char)) : List Char :=
  "int".toList ++ (w ++ ("main".toList ++ (w ++ ('(' :: (w ++ (')' :: (w ++ ('{' :: (w ++
    (printlnTexts w ss ++ ['}']))))))))))

/-- A string-literal body: read left to right, it is made of pairs backslash +
character and of single characters other than the double quote and the
backslash; so it holds no unescaped double quote and does not end in an
unpaired backslash. -/
def isLiteralBody : List Char → Bool
  | [] => true
  | c :: rest =>
    if c = '"' then false
    else if c = '\\' then
      match rest with
      | [] => false
      | _ :: rest1 => isLiteralBody rest1
    else isLiteralBody rest

/-- Escape resolution in the words of the specification: read left to right,
each pair backslash + `e` is replaced by newline when `e` is `n`, by tab when
`e` is `t` and by `e` itself otherwise; every other character is copied. -/
def resolveEscapes : List Char → List Char
  | [] => []
  | c :: rest =>
    if c = '\\' then
      match rest with
      | [] => [c]
      | e :: rest1 =>
        (if e = 'n' then '\n' else if e = 't' then '\t' else e) :: resolveEscapes rest1
    else c :: resolveEscapes rest

/-- The tokens of `n` successive calls of `getNextToken`, and the lexer state
after them. -/
def nextTokens : Nat → Lexer → Except Error (List Token × Lexer)
  | 0, l => .ok ([], l)
  | n + 1, l =>
    match getNextToken l with
    | .error e => .error e
    | .ok (t, l1) =>
      match nextTokens n l1 with
      | .error e => .error e
      | .ok (ts, l2) => .ok (t :: ts, l2)

/-- The value of the expression token `t` in the store `s`, in the words of the
specification: the text of a string, integer, float or boolean token, the
stored value of an identifier; `none` for an identifier that is not in the
store and for every other token. -/
def argumentValue (s : Store) (t : Token) : Option (List Char) :=
  if t.type = .IDENTIFIER then find s t.value
  else if t.type = .STRING ∨ t.type = .INT ∨ t.type = .FLOAT ∨ t.type = .BOOL then
    some t.value
  else none

/-- The declared kind `ty` accepts the value `v`: an INT declaration needs an
integer value, a FLOAT declaration a float value, a BOOL declaration `true` or
`false`; every other kind accepts every value. -/
def accepts (ty : TokenType) (v : List Char) : Bool :=
  (decide (ty ≠ .INT) || isInteger v) && (decide (ty ≠ .FLOAT) || isFloat v) &&
    (decide (ty ≠ .BOOL) || isBool v)

/-- The tokens `)` `;` that close a println statement: the tokens after them. -/
def closing : List Token → Option (List Token)
  | t3 :: t4 :: rest =>
    if t3.type = .RIGHT_PAREN ∧ t4.type = .SEMICOLON then some rest else none
  | _ => none

/-- One statement at the head of the token list `ts`, in the words of the
specification: the lines it writes and, if the statement is complete and
accepted, the store after it and the tokens after it. `err` says that the
token list ends where the tokenizer fails, so that no token can be read after
its last token.

* `println ( A ) ;` writes the value of `A` as soon as `A` is evaluated: a
  string literal is written when it is the lookahead, every other argument once
  the token after it has been read.
* `T id = A ;` writes nothing and stores the value of `A` under `id` if the
  kind of `T` accepts it.
* `T id ;` writes nothing and leaves the store as it is.
* Anything else writes nothing and is not a statement. -/
def readStatement (err : Bool) (s : Store) :
    List Token → List (List Char) × Option (Store × List Token)
  | t0 :: t1 :: t2 :: rest =>
    if t0.type = .PRINTLN then
      if t1.type = .LEFT_PAREN ∧ (t2.type = .STRING ∨ ¬ (rest = [] ∧ err = true)) then
        match argumentValue s t2 with
        | some v => ([v], (closing rest).map fun ts => (s, ts))
        | none => ([], none)
      else ([], none)
    else if (t0.type = .INT ∨ t0.type = .FLOAT ∨ t0.type = .BOOL ∨ t0.type = .STRING) ∧
        t1.type = .IDENTIFIER then
      if t2.type = .EQUAL then
        match rest with
        | t3 :: t4 :: rest1 =>
          match argumentValue s t3 with
          | some v =>
            if accepts t0.type v = true ∧ t4.type = .SEMICOLON then
              ([], some (assign s t1.value v, rest1))
            else ([], none)
          | none => ([], none)
        | _ => ([], none)
      else if t2.type = .SEMICOLON then ([], some (s, rest))
      else ([], none)
    else ([], none)
  | _ => ([], none)

/-- The lines written by the statements at the head of the token list, read one
after the other from the store `s` until something that is not an accepted
statement is met (the closing brace, the end of the tokens, or the statement in
which the run fails); the first argument bounds the number of statements. -/
def writtenLines (err : Bool) : Nat → Store → List Token → List (List Char)
  | 0, _, _ => []
  | n + 1, s, ts =>
    match readStatement err s ts with
    | (lines, some (s1, ts1)) => lines ++ writtenLines err n s1 ts1
    | (lines, none) => lines

/-- The output expected from a source with token stream `ts`, in the words of
the specification: nothing unless the tokens start with the header
`INT IDENTIFIER ( ) {`; after the header, the lines of the statements that are
read before the run ends, starting from the empty store. -/
def expectedOutput (ts : TokenStream) : List (List Char) :=
  match ts.tokens with
  | t1 :: t2 :: t3 :: t4 :: t5 :: body =>
    if t1.type = .INT ∧ t2.type = .IDENTIFIER ∧ t3.type = .LEFT_PAREN ∧
        t4.type = .RIGHT_PAREN ∧ t5.type = .LEFT_BRACE then
      writtenLines ts.error.isSome body.length [] body
    else []
  | _ => []

/-! ## Lexer lemmas -/

theorem Lexer.rest_nil_iff (l : Lexer) : l.rest = [] ↔ l.input.length ≤ l.position := by
  simp [Lexer.rest, List.drop_eq_nil_iff]

theorem Lexer.lt_of_rest_cons {l : Lexer} {c : Char} {r : List Char} (h : l.rest = c :: r) :
    l.position < l.input.length := by
  by_contra hn
  have h0 : l.rest = [] := (Lexer.rest_nil_iff l).2 (by omega)
  simp [h0] at h

theorem Lexer.rest_drop (l : Lexer) (k : Nat) :
    (⟨l.input, l.position + k⟩ : Lexer).rest = l.rest.drop k := by
  simp [Lexer.rest, List.drop_drop]

theorem isspace_cases {c : Char} (h : isspace c = true) :
    c = ' ' ∨ c = '\t' ∨ c = '\n' ∨ c = '\x0b' ∨ c = '\x0c' ∨ c = '\r' := by
  simpa [isspace, or_assoc] using h

theorem isspace_not_token {c : Char} (h : isspace c = true) :
    isdigit c = false ∧ c ≠ '.' ∧ c ≠ '=' ∧ c ≠ ';' ∧ c ≠ '{' ∧ c ≠ '}' ∧ c ≠ '(' ∧ c ≠ ')' ∧
      c ≠ '"' ∧ isalpha c = false := by
  rcases isspace_cases h with h | h | h | h | h | h <;> subst h <;> decide

theorem drop_length_takeWhile (p : Char → Bool) (r : List Char) :
    r.drop (r.takeWhile p).length = r.dropWhile p := by
  induction r with
  | nil => rfl
  | cons c r ih =>
    by_cases hc : p c = true
    · simp [List.takeWhile, List.dropWhile, hc, ih]
    · simp [List.takeWhile, List.dropWhile, hc]

theorem skipWhitespaceLoop_eq (r : List Char) (p : Nat) :
    skipWhitespaceLoop r p = p + (r.takeWhile isspace).length := by
  induction r generalizing p with
  | nil => rfl
  | cons c r ih =>
    by_cases hc : isspace c = true
    · simp [skipWhitespaceLoop, List.takeWhile, hc, ih]; omega
    · simp [skipWhitespaceLoop, List.takeWhile, hc]

theorem skipWhitespace_input (l : Lexer) : (skipWhitespace l).input = l.input := rfl

theorem skipWhitespace_position (l : Lexer) :
    (skipWhitespace l).position = l.position + (l.rest.takeWhile isspace).length := by
  simp [skipWhitespace, skipWhitespaceLoop_eq]

theorem skipWhitespace_rest (l : Lexer) : (skipWhitespace l).rest = l.rest.dropWhile isspace := by
  unfold skipWhitespace
  rw [skipWhitespaceLoop_eq, Lexer.rest_drop, drop_length_takeWhile]

theorem skipWhitespace_of_not_space {l : Lexer} {c : Char} {r : List Char}
    (h : l.rest = c :: r) (hc : isspace c = false) : skipWhitespace l = l := by
  cases l
  simp [skipWhitespace, skipWhitespaceLoop_eq, h, List.takeWhile, hc]

theorem skipWhitespace_of_nil {l : Lexer} (h : l.rest = []) : skipWhitespace l = l := by
  cases l
  simp [skipWhitespace, skipWhitespaceLoop_eq, h]

theorem getNextTokenLoop_nil {l : Lexer} (h : l.rest = []) (n : Nat) :
    getNextTokenLoop n l = .ok (⟨.END, []⟩, l) := by
  cases n <;> simp [getNextTokenLoop, h]

theorem getNextTokenLoop_not_space {l : Lexer} {c : Char} {r : List Char}
    (h : l.rest = c :: r) (hc : isspace c = false) (n : Nat) :
    getNextTokenLoop (n + 1) l = getNextTokenLoop 1 l := by
  simp [getNextTokenLoop, h, hc]

theorem dropWhile_head_not (p : Char → Bool) (r : List Char) (c : Char) (r1 : List Char)
    (h : r.dropWhile p = c :: r1) : p c = false := by
  induction r with
  | nil => simp at h
  | cons a r ih =>
    by_cases ha : p a = true
    · simp [List.dropWhile, ha] at h; exact ih h
    · simp [List.dropWhile, ha] at h; rw [← h.1]; simpa using ha

/-- One iteration after `skipWhitespace` decides the token. -/
theorem getNextToken_eq (l : Lexer) : getNextToken l = getNextTokenLoop 1 (skipWhitespace l) := by
  unfold getNextToken
  cases h : l.rest with
  | nil => rw [skipWhitespace_of_nil h, getNextTokenLoop_nil h, getNextTokenLoop_nil h]
  | cons c r =>
    have hlt := Lexer.lt_of_rest_cons h
    obtain ⟨n, hn⟩ : ∃ n, l.input.length - l.position = n + 1 := ⟨l.input.length - l.position - 1, by omega⟩
    rw [hn]
    by_cases hc : isspace c = true
    · obtain ⟨h1, h2, h3, h4, h5, h6, h7, h8, h9, h10⟩ := isspace_not_token hc
      have hstep : getNextTokenLoop (n + 1) l = getNextTokenLoop n (skipWhitespace l) := by
        simp [getNextTokenLoop, h, hc, h1, h2, h3, h4, h5, h6, h7, h8, h9, h10]
      rw [hstep]
      cases h2 : (skipWhitespace l).rest with
      | nil => rw [getNextTokenLoop_nil h2, getNextTokenLoop_nil h2]
      | cons c2 r2 =>
        have hc2 : isspace c2 = false := by
          rw [skipWhitespace_rest] at h2
          exact dropWhile_head_not _ _ _ _ h2
        have hlt2 := Lexer.lt_of_rest_cons h2
        have hpos := skipWhitespace_position l
        rw [h] at hpos
        simp [List.takeWhile, hc] at hpos
        rw [skipWhitespace_input] at hlt2
        obtain ⟨m, hm⟩ : ∃ m, n = m + 1 := ⟨n - 1, by omega⟩
        rw [hm]
        exact getNextTokenLoop_not_space h2 hc2 m
    · have hc1 : isspace c = false := by simpa using hc
      rw [skipWhitespace_of_not_space h hc1]
      exact getNextTokenLoop_not_space h hc1 n

theorem getNextTokenLoop_one {l : Lexer} {c : Char} {r : List Char}
    (h : l.rest = c :: r) (hc : isspace c = false) :
    getNextTokenLoop 1 l =
      if isdigit c || c == '.' then .ok (readNumber l)
      else if c = '=' then .ok (⟨.EQUAL, "=".toList⟩, ⟨l.input, l.position + 1⟩)
      else if c = ';' then .ok (⟨.SEMICOLON, ";".toList⟩, ⟨l.input, l.position + 1⟩)
      else if c = '{' then .ok (⟨.LEFT_BRACE, "\x7b".toList⟩, ⟨l.input, l.position + 1⟩)
      else if c = '}' then .ok (⟨.RIGHT_BRACE, "\x7d".toList⟩, ⟨l.input, l.position + 1⟩)
      else if c = '(' then .ok (⟨.LEFT_PAREN, "(".toList⟩, ⟨l.input, l.position + 1⟩)
      else if c = ')' then .ok (⟨.RIGHT_PAREN, ")".toList⟩, ⟨l.input, l.position + 1⟩)
      else if c = '"' then readString l
      else if isalpha c then .ok (readIdentifier l)
      else .error (.invalidCharacter c) := by
  simp [getNextTokenLoop, h, hc]

theorem readNumberLoop_position (r : List Char) (hasDot : Bool) (acc : List Char) (p : Nat) :
    p ≤ (readNumberLoop r hasDot acc p).2.2 := by
  induction r generalizing hasDot acc p with
  | nil => simp [readNumberLoop]
  | cons c r ih =>
    unfold readNumberLoop
    split_ifs
    · exact Nat.le_refl _
    · exact Nat.le_trans (Nat.le_succ p) (ih _ _ _)
    · exact Nat.le_refl _

theorem readNumberLoop_first {c : Char} (hc : (isdigit c || c == '.') = true) (r acc : List Char)
    (p : Nat) : p < (readNumberLoop (c :: r) false acc p).2.2 := by
  unfold readNumberLoop
  simp only [hc, if_true, Bool.and_false, Bool.false_eq_true, if_false]
  exact readNumberLoop_position _ _ _ _

theorem readIdentifierLoop_position (r acc : List Char) (p : Nat) :
    p ≤ (readIdentifierLoop r acc p).2 := by
  induction r generalizing acc p with
  | nil => simp [readIdentifierLoop]
  | cons c r ih =>
    unfold readIdentifierLoop
    split_ifs
    · exact Nat.le_trans (Nat.le_succ p) (ih _ _)
    · exact Nat.le_refl _

theorem isalnum_of_isalpha {c : Char} (h : isalpha c = true) : isalnum c = true := by
  simp [isalnum, Char.isAlphanum, isalpha] at *
  simp [h]

theorem readIdentifierLoop_first {c : Char} (hc : isalpha c = true) (r acc : List Char) (p : Nat) :
    p < (readIdentifierLoop (c :: r) acc p).2 := by
  unfold readIdentifierLoop
  simp only [isalnum_of_isalpha hc, Bool.true_or, if_true]
  exact readIdentifierLoop_position _ _ _

theorem readStringLoop_position (n : Nat) : ∀ (r acc : List Char) (p : Nat) (res : List Char)
    (q : Nat), r.length ≤ n → readStringLoop r acc p = .ok (res, q) → p ≤ q := by
  induction n with
  | zero =>
    intro r acc p res q hr h
    cases r with
    | nil => simp [readStringLoop] at h; omega
    | cons c r => simp at hr
  | succ n ih =>
    intro r acc p res q hr h
    cases r with
    | nil => simp [readStringLoop] at h; omega
    | cons c r =>
      unfold readStringLoop at h
      split_ifs at h with h1 h2
      · simp at h; omega
      · cases r with
        | nil => simp at h
        | cons e r1 =>
          simp only at h
          have := ih r1 _ _ _ _ (by simp at hr; omega) h
          omega
      · have := ih r _ _ _ _ (by simp at hr; omega) h
        omega

theorem readNumber_spec (l : Lexer) :
    (readNumber l).2.input = l.input ∧ l.position ≤ (readNumber l).2.position ∧
      ((readNumber l).1.type = .INT ∨ (readNumber l).1.type = .FLOAT) := by
  unfold readNumber
  refine ⟨rfl, readNumberLoop_position _ _ _ _, ?_⟩
  simp only
  split_ifs <;> simp

theorem readIdentifier_spec (l : Lexer) :
    (readIdentifier l).2.input = l.input ∧ l.position ≤ (readIdentifier l).2.position ∧
      (readIdentifier l).1.type ≠ .END := by
  unfold readIdentifier
  simp only
  refine ⟨?_, ?_, ?_⟩
  · split_ifs <;> rfl
  · have := readIdentifierLoop_position l.rest [] l.position
    split_ifs <;> exact this
  · split_ifs <;> simp

theorem readString_spec {l : Lexer} {t : Token} {l1 : Lexer} (h : readString l = .ok (t, l1)) :
    l1.input = l.input ∧ l.position < l1.position ∧ t.type = .STRING := by
  unfold readString at h
  split at h
  · simp at h
  · rename_i result position heq
    simp only [Except.ok.injEq, Prod.mk.injEq] at h
    obtain ⟨h1, h2⟩ := h
    subst h1 h2
    have := readStringLoop_position _ _ _ _ _ _ (Nat.le_refl _) heq
    exact ⟨rfl, by simp only; omega, rfl⟩

/-- Progress of the tokenizer: the input is never changed, the cursor never
moves back, a token other than END is only produced from inside the input and
moves the cursor forward, and END is only produced with the cursor at or past
the end of the input. -/
theorem getNextToken_progress {l : Lexer} {t : Token} {l1 : Lexer}
    (h : getNextToken l = .ok (t, l1)) :
    l1.input = l.input ∧ l.position ≤ l1.position ∧
      (t.type = .END → t = ⟨.END, []⟩ ∧ l1.input.length ≤ l1.position) ∧
      (t.type ≠ .END → l.position < l.input.length ∧ l.position < l1.position) := by
  rw [getNextToken_eq] at h
  have hpos := skipWhitespace_position l
  have hin := skipWhitespace_input l
  cases hr : (skipWhitespace l).rest with
  | nil =>
    rw [getNextTokenLoop_nil hr] at h
    simp only [Except.ok.injEq, Prod.mk.injEq] at h
    obtain ⟨h1, h2⟩ := h
    subst h1 h2
    have := (Lexer.rest_nil_iff _).1 hr
    refine ⟨hin, by omega, fun _ => ⟨rfl, this⟩, fun hne => absurd rfl hne⟩
  | cons c r =>
    have hc : isspace c = false := by
      rw [skipWhitespace_rest] at hr
      exact dropWhile_head_not _ _ _ _ hr
    have hlt := Lexer.lt_of_rest_cons hr
    rw [hin] at hlt
    rw [getNextTokenLoop_one hr hc] at h
    have key : l1.input = l.input ∧ (skipWhitespace l).position < l1.position ∧ t.type ≠ .END := by
      split_ifs at h with h1 h2 h3 h4 h5 h6 h7 h8 h9
      · simp only [Except.ok.injEq] at h
        have hs := readNumber_spec (skipWhitespace l)
        have hf : (skipWhitespace l).position < (readNumber (skipWhitespace l)).2.position := by
          unfold readNumber
          rw [hr]
          exact readNumberLoop_first h1 _ _ _
        rw [h] at hs hf
        refine ⟨hs.1.trans hin, hf, ?_⟩
        rcases hs.2.2 with h0 | h0 <;> simp only at h0 <;> simp [h0]
      all_goals first
        | (simp only [Except.ok.injEq, Prod.mk.injEq] at h
           obtain ⟨h1, h2⟩ := h
           subst h1 h2
           exact ⟨hin, by simp, by simp⟩)
        | skip
      · have := readString_spec h
        exact ⟨this.1.trans hin, this.2.1, by simp [this.2.2]⟩
      · simp only [Except.ok.injEq] at h
        have hs := readIdentifier_spec (skipWhitespace l)
        have hf : (skipWhitespace l).position < (readIdentifier (skipWhitespace l)).2.position := by
          have := readIdentifierLoop_first h9 r [] (skipWhitespace l).position
          unfold readIdentifier
          rw [hr]
          simp only
          split_ifs <;> exact this
        rw [h] at hs hf
        exact ⟨hs.1.trans hin, hf, hs.2.2⟩
    exact ⟨key.1, by omega, fun h0 => absurd h0 key.2.2, fun _ => ⟨by omega, by omega⟩⟩

/-! ## Token stream lemmas -/

theorem getNextToken_of_rest_nil {l : Lexer} (h : l.rest = []) :
    getNextToken l = .ok (⟨.END, []⟩, l) := by
  rw [getNextToken_eq, skipWhitespace_of_nil h, getNextTokenLoop_nil h]

theorem tokensFrom_fuel (n : Nat) : ∀ (m : Nat) (l : Lexer),
    l.input.length - l.position ≤ n → l.input.length - l.position ≤ m →
      tokensFrom n l = tokensFrom m l := by
  induction n with
  | zero =>
    intro m l hn _
    have hnil : l.rest = [] := (Lexer.rest_nil_iff l).2 (by omega)
    cases m with
    | zero => rfl
    | succ m => simp [tokensFrom, getNextToken_of_rest_nil hnil]
  | succ n ih =>
    intro m l hn hm
    cases m with
    | zero =>
      have hnil : l.rest = [] := (Lexer.rest_nil_iff l).2 (by omega)
      simp [tokensFrom, getNextToken_of_rest_nil hnil]
    | succ m =>
      unfold tokensFrom
      cases hg : getNextToken l with
      | error e => rfl
      | ok p =>
        obtain ⟨t, l1⟩ := p
        simp only
        by_cases ht : t.type = .END
        · simp [ht]
        · have hp := getNextToken_progress hg
          have hs := hp.2.2.2 ht
          rw [if_neg ht, if_neg ht, ih m l1 (by rw [hp.1]; omega) (by rw [hp.1]; omega)]

theorem Lexer.tokens_eq (l : Lexer) :
    l.tokens =
      match getNextToken l with
      | .error e => ⟨[], some e⟩
      | .ok (t, l1) =>
        if t.type = .END then ⟨[], none⟩ else ⟨t :: l1.tokens.tokens, l1.tokens.error⟩ := by
  unfold Lexer.tokens
  cases hg : getNextToken l with
  | error e =>
    rw [tokensFrom_fuel _ (l.input.length - l.position + 1) l (Nat.le_refl _) (Nat.le_succ _)]
    simp [tokensFrom, hg]
  | ok p =>
    obtain ⟨t, l1⟩ := p
    rw [tokensFrom_fuel _ (l.input.length - l.position + 1) l (Nat.le_refl _) (Nat.le_succ _)]
    simp only [tokensFrom, hg]
    by_cases ht : t.type = .END
    · simp [ht]
    · have hp := getNextToken_progress hg
      have hs := hp.2.2.2 ht
      rw [if_neg ht, if_neg ht,
        tokensFrom_fuel _ (l1.input.length - l1.position) l1 (by rw [hp.1]; omega) (Nat.le_refl _)]

theorem tokensFrom_length (n : Nat) : ∀ l : Lexer,
    (tokensFrom n l).tokens.length ≤ l.input.length - l.position := by
  induction n with
  | zero => intro l; simp [tokensFrom]
  | succ n ih =>
    intro l
    unfold tokensFrom
    cases hg : getNextToken l with
    | error e => simp
    | ok p =>
      obtain ⟨t, l1⟩ := p
      simp only
      by_cases ht : t.type = .END
      · simp [ht]
      · have hp := getNextToken_progress hg
        have hs := hp.2.2.2 ht
        have := ih l1
        rw [hp.1] at this
        rw [if_neg ht]
        simp only [List.length_cons]
        omega

theorem Lexer.tokens_length (l : Lexer) :
    l.tokens.tokens.length ≤ l.input.length - l.position :=
  tokensFrom_length _ l

theorem tokensFrom_not_END (n : Nat) : ∀ l : Lexer, ∀ t ∈ (tokensFrom n l).tokens,
    t.type ≠ .END := by
  induction n with
  | zero => intro l t ht; simp [tokensFrom] at ht
  | succ n ih =>
    intro l t ht
    unfold tokensFrom at ht
    cases hg : getNextToken l with
    | error e => simp [hg] at ht
    | ok p =>
      obtain ⟨t1, l1⟩ := p
      simp only [hg] at ht
      by_cases h1 : t1.type = .END
      · simp [h1] at ht
      · rw [if_neg h1] at ht
        simp only [List.mem_cons] at ht
        rcases ht with h | h
        · rw [h]; exact h1
        · exact ih l1 t h

/-! ## Interpreter: primitive operations -/

@[simp] theorem Outcome.bind_ok {α β : Type} (a : α) (f : α → Outcome β) :
    (Outcome.ok a).bind f = f a := rfl

@[simp] theorem Outcome.bind_fatal {α β : Type} (e : Error) (v : Store) (o : List (List Char))
    (f : α → Outcome β) : (Outcome.fatal e v o : Outcome α).bind f = .fatal e v o := rfl

theorem Outcome.bind_eq_ok {α β : Type} {x : Outcome α} {f : α → Outcome β} {b : β}
    (h : x.bind f = .ok b) : ∃ a, x = .ok a ∧ f a = .ok b := by
  cases x with
  | ok a => exact ⟨a, rfl, h⟩
  | fatal e v o => simp at h

theorem Outcome.bind_eq_fatal {α β : Type} {x : Outcome α} {f : α → Outcome β} {e : Error}
    {v : Store} {o : List (List Char)} (h : x.bind f = .fatal e v o) :
    x = .fatal e v o ∨ ∃ a, x = .ok a ∧ f a = .fatal e v o := by
  cases x with
  | ok a => exact Or.inr ⟨a, rfl, h⟩
  | fatal e1 v1 o1 => simp at h; exact Or.inl (by simp [h])

theorem advance_ok {I I1 : Interpreter} (h : I.advance = .ok I1) :
    getNextToken I.lexer = .ok (I1.currentToken, I1.lexer) ∧ I1.store = I.store ∧
      I1.output = I.output := by
  unfold Interpreter.advance at h
  split at h
  · simp at h
  · rename_i t l hg
    simp only [Outcome.ok.injEq] at h
    subst h
    exact ⟨hg, rfl, rfl⟩

theorem advance_fatal {I : Interpreter} {e : Error} {v : Store} {o : List (List Char)}
    (h : I.advance = .fatal e v o) : v = I.store ∧ o = I.output := by
  unfold Interpreter.advance at h
  split at h
  · simp only [Outcome.fatal.injEq] at h
    exact ⟨h.2.1.symm, h.2.2.symm⟩
  · simp at h

theorem advance_of_getNextToken {I : Interpreter} {t : Token} {l : Lexer}
    (h : getNextToken I.lexer = .ok (t, l)) :
    I.advance = .ok { I with lexer := l, currentToken := t } := by
  simp [Interpreter.advance, h]

/-- Consuming the lookahead token removes it from the pending tokens. -/
theorem advance_pending {I I1 : Interpreter} (h : I.advance = .ok I1)
    (hne : I.currentToken.type ≠ .END) :
    I.pending = ⟨I.currentToken :: I1.pending.tokens, I1.pending.error⟩ := by
  have hg := (advance_ok h).1
  unfold Interpreter.pending
  rw [if_neg hne, Lexer.tokens_eq I.lexer, hg]

/-- After reading a token, an END lookahead means the cursor is at or past the
end of the input. -/
theorem advance_END {I I1 : Interpreter} (h : I.advance = .ok I1)
    (hE : I1.currentToken.type = .END) :
    I1.currentToken = ⟨.END, []⟩ ∧ I1.lexer.input.length ≤ I1.lexer.position :=
  (getNextToken_progress (advance_ok h).1).2.2.1 hE

theorem advance_input {I I1 : Interpreter} (h : I.advance = .ok I1) :
    I1.lexer.input = I.lexer.input :=
  (getNextToken_progress (advance_ok h).1).1

theorem matchToken_ok {I I1 : Interpreter} {ty : TokenType} (h : I.matchToken ty = .ok I1) :
    I.currentToken.type = ty ∧ I.advance = .ok I1 := by
  unfold Interpreter.matchToken at h
  split_ifs at h with h1
  exact ⟨h1, h⟩

theorem matchToken_fatal {I : Interpreter} {ty : TokenType} {e : Error} {v : Store}
    {o : List (List Char)} (h : I.matchToken ty = .fatal e v o) : v = I.store ∧ o = I.output := by
  unfold Interpreter.matchToken at h
  split_ifs at h with h1
  · exact advance_fatal h
  · simp only [Outcome.fatal.injEq] at h
    exact ⟨h.2.1.symm, h.2.2.symm⟩

theorem matchAnyType_ok {I I1 : Interpreter} (h : I.matchAnyType = .ok I1) :
    (I.currentToken.type = .INT ∨ I.currentToken.type = .FLOAT ∨ I.currentToken.type = .BOOL ∨
      I.currentToken.type = .STRING) ∧ I.advance = .ok I1 := by
  unfold Interpreter.matchAnyType at h
  split_ifs at h with h1
  refine ⟨?_, h⟩
  by_contra hc
  simp only [not_or] at hc
  exact h1 ⟨hc.1, hc.2.1, hc.2.2.1, hc.2.2.2⟩

theorem matchAnyType_fatal {I : Interpreter} {e : Error} {v : Store}
    {o : List (List Char)} (h : I.matchAnyType = .fatal e v o) : v = I.store ∧ o = I.output := by
  unfold Interpreter.matchAnyType at h
  split_ifs at h with h1
  · simp only [Outcome.fatal.injEq] at h
    exact ⟨h.2.1.symm, h.2.2.symm⟩
  · exact advance_fatal h

theorem evaluateVariable_ok {I : Interpreter} {v : List Char} {I1 : Interpreter}
    (h : I.evaluateVariable = .ok (v, I1)) :
    I.advance = .ok I1 ∧
      ((I.currentToken.type = .IDENTIFIER ∧ find I.store I.currentToken.value = some v) ∨
        ((I.currentToken.type = .INT ∨ I.currentToken.type = .FLOAT ∨
          I.currentToken.type = .BOOL) ∧ v = I.currentToken.value)) := by
  unfold Interpreter.evaluateVariable at h
  split_ifs at h with h1 h2
  · split at h
    · rename_i result hf
      obtain ⟨a, ha, hb⟩ := Outcome.bind_eq_ok h
      simp only [Outcome.ok.injEq, Prod.mk.injEq] at hb
      obtain ⟨hb1, hb2⟩ := hb
      subst hb1 hb2
      exact ⟨ha, Or.inl ⟨h1, hf⟩⟩
    · simp at h
  · obtain ⟨a, ha, hb⟩ := Outcome.bind_eq_ok h
    simp only [Outcome.ok.injEq, Prod.mk.injEq] at hb
    obtain ⟨hb1, hb2⟩ := hb
    subst hb1 hb2
    exact ⟨ha, Or.inr ⟨h2, rfl⟩⟩

theorem evaluateVariable_fatal {I : Interpreter} {e : Error} {v : Store}
    {o : List (List Char)} (h : I.evaluateVariable = .fatal e v o) :
    v = I.store ∧ o = I.output := by
  unfold Interpreter.evaluateVariable at h
  split_ifs at h with h1 h2
  · split at h
    · rcases Outcome.bind_eq_fatal h with h3 | ⟨a, _, h3⟩
      · exact advance_fatal h3
      · simp at h3
    · simp only [Outcome.fatal.injEq] at h
      exact ⟨h.2.1.symm, h.2.2.symm⟩
  · rcases Outcome.bind_eq_fatal h with h3 | ⟨a, _, h3⟩
    · exact advance_fatal h3
    · simp at h3
  · simp only [Outcome.fatal.injEq] at h
    exact ⟨h.2.1.symm, h.2.2.symm⟩

theorem evaluateExpression_ok {I : Interpreter} {v : List Char} {I1 : Interpreter}
    (h : I.evaluateExpression = .ok (v, I1)) :
    I.advance = .ok I1 ∧
      ((I.currentToken.type = .IDENTIFIER ∧ find I.store I.currentToken.value = some v) ∨
        ((I.currentToken.type = .INT ∨ I.currentToken.type = .FLOAT ∨
          I.currentToken.type = .BOOL ∨ I.currentToken.type = .STRING) ∧
            v = I.currentToken.value)) := by
  unfold Interpreter.evaluateExpression at h
  split_ifs at h with h1 h2
  · obtain ⟨a, ha, hb⟩ := Outcome.bind_eq_ok h
    simp only [Outcome.ok.injEq, Prod.mk.injEq] at hb
    obtain ⟨hb1, hb2⟩ := hb
    subst hb1 hb2
    exact ⟨ha, Or.inr ⟨Or.inr (Or.inr (Or.inr h1)), rfl⟩⟩
  · obtain ⟨ha, hb⟩ := evaluateVariable_ok h
    refine ⟨ha, ?_⟩
    rcases hb with hb | ⟨hb, hv⟩
    · exact Or.inl hb
    · refine Or.inr ⟨?_, hv⟩
      rcases hb with hb | hb | hb
      · exact Or.inl hb
      · exact Or.inr (Or.inl hb)
      · exact Or.inr (Or.inr (Or.inl hb))

theorem evaluateExpression_fatal {I : Interpreter} {e : Error} {v : Store}
    {o : List (List Char)} (h : I.evaluateExpression = .fatal e v o) :
    v = I.store ∧ o = I.output := by
  unfold Interpreter.evaluateExpression at h
  split_ifs at h with h1 h2
  · rcases Outcome.bind_eq_fatal h with h3 | ⟨a, _, h3⟩
    · exact advance_fatal h3
    · simp at h3
  · exact evaluateVariable_fatal h
  · simp only [Outcome.fatal.injEq] at h
    exact ⟨h.2.1.symm, h.2.2.symm⟩

/-! ## Interpreter: what a successful operation consumes -/

theorem advance_step {I I1 : Interpreter} (h : I.advance = .ok I1)
    (hne : I.currentToken.type ≠ .END) :
    I.pending.tokens = I.currentToken :: I1.pending.tokens ∧
      I.pending.error = I1.pending.error ∧ I1.store = I.store ∧ I1.output = I.output ∧
      I1.lexer.input = I.lexer.input := by
  have hp := advance_pending h hne
  have ho := advance_ok h
  exact ⟨by rw [hp], by rw [hp], ho.2.1, ho.2.2, advance_input h⟩

theorem matchToken_step {I I1 : Interpreter} {ty : TokenType} (h : I.matchToken ty = .ok I1)
    (hne : ty ≠ .END) :
    I.currentToken.type = ty ∧ I.pending.tokens = I.currentToken :: I1.pending.tokens ∧
      I.pending.error = I1.pending.error ∧ I1.store = I.store ∧ I1.output = I.output ∧
      I1.lexer.input = I.lexer.input := by
  obtain ⟨h1, h2⟩ := matchToken_ok h
  exact ⟨h1, advance_step h2 (by rw [h1]; exact hne)⟩

theorem matchAnyType_step {I I1 : Interpreter} (h : I.matchAnyType = .ok I1) :
    (I.currentToken.type = .INT ∨ I.currentToken.type = .FLOAT ∨ I.currentToken.type = .BOOL ∨
      I.currentToken.type = .STRING) ∧ I.pending.tokens = I.currentToken :: I1.pending.tokens ∧
      I.pending.error = I1.pending.error ∧ I1.store = I.store ∧ I1.output = I.output ∧
      I1.lexer.input = I.lexer.input := by
  obtain ⟨h1, h2⟩ := matchAnyType_ok h
  refine ⟨h1, advance_step h2 ?_⟩
  rcases h1 with h1 | h1 | h1 | h1 <;> simp [h1]

theorem evaluateExpression_step {I : Interpreter} {v : List Char} {I1 : Interpreter}
    (h : I.evaluateExpression = .ok (v, I1)) :
    (I.currentToken.type = .IDENTIFIER ∨ I.currentToken.type = .INT ∨
      I.currentToken.type = .FLOAT ∨ I.currentToken.type = .BOOL ∨
      I.currentToken.type = .STRING) ∧ I.pending.tokens = I.currentToken :: I1.pending.tokens ∧
      I.pending.error = I1.pending.error ∧ I1.store = I.store ∧ I1.output = I.output ∧
      I1.lexer.input = I.lexer.input := by
  obtain ⟨h1, h2⟩ := evaluateExpression_ok h
  have ht : I.currentToken.type = .IDENTIFIER ∨ I.currentToken.type = .INT ∨
      I.currentToken.type = .FLOAT ∨ I.currentToken.type = .BOOL ∨
      I.currentToken.type = .STRING := by
    rcases h2 with h2 | h2
    · exact Or.inl h2.1
    · exact Or.inr h2.1
  refine ⟨ht, advance_step h1 ?_⟩
  rcases ht with h1 | h1 | h1 | h1 | h1 <;> simp [h1]

theorem printlnStatement_ok {I I5 : Interpreter} (h : I.printlnStatement = .ok I5) :
    ∃ pre, IsPrintln pre ∧ I.pending.tokens = pre ++ I5.pending.tokens ∧
      I.pending.error = I5.pending.error ∧ I5.lexer.input = I.lexer.input ∧
      (∃ v, I5.output = I.output ++ [v]) ∧ I5.store = I.store := by
  unfold Interpreter.printlnStatement at h
  obtain ⟨I1, h1, h⟩ := Outcome.bind_eq_ok h
  obtain ⟨I2, h2, h⟩ := Outcome.bind_eq_ok h
  obtain ⟨I3, h3, h⟩ := Outcome.bind_eq_ok h
  obtain ⟨I4, h4, h5⟩ := Outcome.bind_eq_ok h
  obtain ⟨a1, b1, c1, d1, e1, f1⟩ := matchToken_step h1 (by simp)
  obtain ⟨a2, b2, c2, d2, e2, f2⟩ := matchToken_step h2 (by simp)
  obtain ⟨a4, b4, c4, d4, e4, f4⟩ := matchToken_step h4 (by simp)
  obtain ⟨a5, b5, c5, d5, e5, f5⟩ := matchToken_step h5 (by simp)
  have key : (I2.currentToken.type = .IDENTIFIER ∨ I2.currentToken.type = .INT ∨
      I2.currentToken.type = .FLOAT ∨ I2.currentToken.type = .BOOL ∨
      I2.currentToken.type = .STRING) ∧
      I2.pending.tokens = I2.currentToken :: I3.pending.tokens ∧
      I2.pending.error = I3.pending.error ∧ I3.store = I2.store ∧
      (∃ v, I3.output = I2.output ++ [v]) ∧ I3.lexer.input = I2.lexer.input := by
    split_ifs at h3 with hs
    · obtain ⟨a3, b3, c3, d3, e3, f3⟩ := matchToken_step h3 (by simp)
      exact ⟨Or.inr (Or.inr (Or.inr (Or.inr hs))), b3, c3, d3, ⟨_, e3⟩, f3⟩
    · obtain ⟨r, hr, hr2⟩ := Outcome.bind_eq_ok h3
      obtain ⟨v, J⟩ := r
      obtain ⟨a3, b3, c3, d3, e3, f3⟩ := evaluateExpression_step hr
      simp only [Outcome.ok.injEq] at hr2
      subst hr2
      exact ⟨a3, b3, c3, d3, ⟨v, by simp [e3]⟩, f3⟩
  obtain ⟨a3, b3, c3, d3, ⟨v, e3⟩, f3⟩ := key
  refine ⟨[I.currentToken, I1.currentToken, I2.currentToken, I3.currentToken, I4.currentToken],
    ⟨_, _, _, _, _, rfl, a1, a2, a3, a4, a5⟩, ?_, ?_, ?_, ⟨v, ?_⟩, ?_⟩
  · simp [b1, b2, b3, b4, b5]
  · rw [c1, c2, c3, c4, c5]
  · rw [f5, f4, f3, f2, f1]
  · rw [e5, e4, e3, e2, e1]
  · rw [d5, d4, d3, d2, d1]

theorem checkAndAssign_ok {I I1 : Interpreter} {ty : TokenType} {identifier value : List Char}
    (h : I.checkAndAssign ty identifier value = .ok I1) :
    I1 = { I with store := assign I.store identifier value } := by
  unfold Interpreter.checkAndAssign at h
  split_ifs at h
  simp only [Outcome.ok.injEq] at h
  exact h.symm

theorem checkAndAssign_fatal {I : Interpreter} {ty : TokenType} {identifier value : List Char}
    {e : Error} {v : Store} {o : List (List Char)}
    (h : I.checkAndAssign ty identifier value = .fatal e v o) : v = I.store ∧ o = I.output := by
  unfold Interpreter.checkAndAssign at h
  split_ifs at h <;> simp only [Outcome.fatal.injEq] at h <;> exact ⟨h.2.1.symm, h.2.2.symm⟩

theorem declarationStatement_ok {I I5 : Interpreter} (h : I.declarationStatement = .ok I5) :
    ∃ pre, IsDeclaration pre ∧ I.pending.tokens = pre ++ I5.pending.tokens ∧
      I.pending.error = I5.pending.error ∧ I5.lexer.input = I.lexer.input ∧
      I5.output = I.output := by
  unfold Interpreter.declarationStatement at h
  obtain ⟨I1, h1, h⟩ := Outcome.bind_eq_ok h
  obtain ⟨I2, h2, h⟩ := Outcome.bind_eq_ok h
  obtain ⟨I4, h3, h5⟩ := Outcome.bind_eq_ok h
  obtain ⟨a1, b1, c1, d1, e1, f1⟩ := matchAnyType_step h1
  obtain ⟨a2, b2, c2, d2, e2, f2⟩ := matchToken_step h2 (by simp)
  obtain ⟨a5, b5, c5, d5, e5, f5⟩ := matchToken_step h5 (by simp)
  split_ifs at h3 with hs
  · obtain ⟨I3, h31, h3⟩ := Outcome.bind_eq_ok h3
    obtain ⟨r, h32, h33⟩ := Outcome.bind_eq_ok h3
    obtain ⟨v, J⟩ := r
    obtain ⟨a3, b3, c3, d3, e3, f3⟩ := matchToken_step h31 (by simp)
    obtain ⟨a4, b4, c4, d4, e4, f4⟩ := evaluateExpression_step h32
    have hJ := checkAndAssign_ok h33
    simp only at hJ
    have hp : I4.pending = J.pending := by rw [hJ]; rfl
    have ho : I4.output = J.output := by rw [hJ]
    have hi : I4.lexer = J.lexer := by rw [hJ]
    have hc : I4.currentToken = J.currentToken := by rw [hJ]
    refine ⟨[I.currentToken, I1.currentToken, I2.currentToken, I3.currentToken, I4.currentToken],
      ⟨_, _, a1, a2, Or.inr ⟨_, _, _, rfl, a3, a4, a5⟩⟩, ?_, ?_, ?_, ?_⟩
    · rw [b1, b2, b3, b4, ← hp, b5]; simp
    · rw [c1, c2, c3, c4, ← hp, c5]
    · rw [f5, hi, f4, f3, f2, f1]
    · rw [e5, ho, e4, e3, e2, e1]
  · simp only [Outcome.ok.injEq] at h3
    subst h3
    refine ⟨[I.currentToken, I1.currentToken, I2.currentToken],
      ⟨_, _, a1, a2, Or.inl ⟨_, rfl, a5⟩⟩, ?_, ?_, ?_, ?_⟩
    · simp [b1, b2, b5]
    · rw [c1, c2, c5]
    · rw [f5, f2, f1]
    · rw [e5, e2, e1]

/-! ## The statement loop -/

theorem IsPrintln.println_facts {pre : List Token} (h : IsPrintln pre) :
    pre ≠ [] ∧ countPrintln pre = 1 ∧ ∀ t ∈ pre, t.type ≠ .RIGHT_BRACE := by
  obtain ⟨t0, t1, t2, t3, t4, rfl, h0, h1, h2, h3, h4⟩ := h
  refine ⟨by simp, ?_, ?_⟩
  · have h2n : t2.type ≠ .PRINTLN := by rcases h2 with h | h | h | h | h <;> simp [h]
    simp [countPrintln, List.countP_cons, h0, h1, h2n, h3, h4]
  · intro t ht
    simp only [List.mem_cons, List.mem_singleton, List.not_mem_nil, or_false] at ht
    rcases ht with rfl | rfl | rfl | rfl | rfl
    · simp [h0]
    · simp [h1]
    · rcases h2 with h | h | h | h | h <;> simp [h]
    · simp [h3]
    · simp [h4]

theorem IsDeclaration.declaration_facts {pre : List Token} (h : IsDeclaration pre) :
    pre ≠ [] ∧ countPrintln pre = 0 ∧ ∀ t ∈ pre, t.type ≠ .RIGHT_BRACE := by
  obtain ⟨t0, t1, h0, h1, h⟩ := h
  have h0n : t0.type ≠ .PRINTLN ∧ t0.type ≠ .RIGHT_BRACE := by
    rcases h0 with h | h | h | h <;> simp [h]
  rcases h with ⟨t2, rfl, h2⟩ | ⟨t2, t3, t4, rfl, h2, h3, h4⟩
  · refine ⟨by simp, ?_, ?_⟩
    · simp [countPrintln, List.countP_cons, h0n.1, h1, h2]
    · intro t ht
      simp only [List.mem_cons, List.mem_singleton, List.not_mem_nil, or_false] at ht
      rcases ht with rfl | rfl | rfl
      · exact h0n.2
      · simp [h1]
      · simp [h2]
  · have h3n : t3.type ≠ .PRINTLN ∧ t3.type ≠ .RIGHT_BRACE := by
      rcases h3 with h | h | h | h | h <;> simp [h]
    refine ⟨by simp, ?_, ?_⟩
    · simp [countPrintln, List.countP_cons, h0n.1, h1, h2, h3n.1, h4]
    · intro t ht
      simp only [List.mem_cons, List.mem_singleton, List.not_mem_nil, or_false] at ht
      rcases ht with rfl | rfl | rfl | rfl | rfl
      · exact h0n.2
      · simp [h1]
      · simp [h2]
      · exact h3n.2
      · simp [h4]

theorem IsStatement.statement_facts {pre : List Token} (h : IsStatement pre) :
    pre ≠ [] ∧ ∀ t ∈ pre, t.type ≠ .RIGHT_BRACE := by
  rcases h with h | h
  · exact ⟨h.println_facts.1, h.println_facts.2.2⟩
  · exact ⟨h.declaration_facts.1, h.declaration_facts.2.2⟩

theorem IsBody.no_RIGHT_BRACE {body : List Token} (h : IsBody body) :
    ∀ t ∈ body, t.type ≠ .RIGHT_BRACE := by
  induction h with
  | nil => intro t ht; simp at ht
  | cons hs _ ih =>
    intro t ht
    rcases List.mem_append.1 ht with h1 | h1
    · exact hs.statement_facts.2 t h1
    · exact ih t h1

theorem countPrintln_append (a b : List Token) :
    countPrintln (a ++ b) = countPrintln a + countPrintln b := by
  simp [countPrintln, List.countP_append]

theorem statement_ok {I I1 : Interpreter} (h : I.statement = .ok I1) :
    ∃ pre, IsStatement pre ∧ I.pending.tokens = pre ++ I1.pending.tokens ∧
      I.pending.error = I1.pending.error ∧ I1.lexer.input = I.lexer.input ∧
      I1.output.length = I.output.length + countPrintln pre := by
  unfold Interpreter.statement at h
  split_ifs at h with hp
  · obtain ⟨pre, h1, h2, h3, h4, ⟨v, h5⟩, _⟩ := printlnStatement_ok h
    exact ⟨pre, Or.inl h1, h2, h3, h4, by simp [h5, h1.println_facts.2.1]⟩
  · obtain ⟨pre, h1, h2, h3, h4, h5⟩ := declarationStatement_ok h
    exact ⟨pre, Or.inr h1, h2, h3, h4, by simp [h5, h1.declaration_facts.2.1]⟩

theorem statements_ok (n : Nat) : ∀ {I I1 : Interpreter},
    Interpreter.statements n I = some (.ok I1) →
    ∃ body, IsBody body ∧ I.pending.tokens = body ++ I1.pending.tokens ∧
      I.pending.error = I1.pending.error ∧ I1.lexer.input = I.lexer.input ∧
      I1.output.length = I.output.length + countPrintln body ∧
      I1.currentToken.type = .RIGHT_BRACE := by
  induction n with
  | zero => intro I I1 h; simp [Interpreter.statements] at h
  | succ n ih =>
    intro I I1 h
    unfold Interpreter.statements at h
    split_ifs at h with hb
    · cases hs : I.statement with
      | fatal e v o => simp [hs] at h
      | ok I2 =>
        simp only [hs] at h
        obtain ⟨pre, p1, p2, p3, p4, p5⟩ := statement_ok hs
        obtain ⟨body, b1, b2, b3, b4, b5, b6⟩ := ih h
        refine ⟨pre ++ body, IsBody.cons p1 b1, ?_, ?_, ?_, ?_, b6⟩
        · rw [p2, b2, List.append_assoc]
        · rw [p3, b3]
        · rw [b4, p4]
        · rw [b5, p5, countPrintln_append]; omega
    · simp only [Option.some.injEq, Outcome.ok.injEq] at h
      subst h
      exact ⟨[], IsBody.nil, by simp, rfl, rfl, by simp [countPrintln], by simpa using hb⟩

/-- The statement loop never reaches its iteration bound when the bound exceeds
the number of pending tokens. -/
theorem statements_total (n : Nat) : ∀ I : Interpreter, I.pending.tokens.length < n →
    ∃ r, Interpreter.statements n I = some r := by
  induction n with
  | zero => intro I h; omega
  | succ n ih =>
    intro I h
    unfold Interpreter.statements
    split_ifs with hb
    · cases hs : I.statement with
      | fatal e v o => exact ⟨_, rfl⟩
      | ok I2 =>
        simp only
        obtain ⟨pre, p1, p2, _⟩ := statement_ok hs
        have hne := p1.statement_facts.1
        have hlen : 0 < pre.length := List.length_pos.2 hne
        apply ih
        rw [p2, List.length_append] at h
        omega
    · exact ⟨_, rfl⟩

/-- The result of the statement loop does not depend on the iteration bound. -/
theorem statements_fuel (n : Nat) : ∀ (m : Nat) (I : Interpreter) (r r1 : Outcome Interpreter),
    Interpreter.statements n I = some r → Interpreter.statements m I = some r1 → r = r1 := by
  induction n with
  | zero => intro m I r r1 h; simp [Interpreter.statements] at h
  | succ n ih =>
    intro m I r r1 h h1
    cases m with
    | zero => simp [Interpreter.statements] at h1
    | succ m =>
      unfold Interpreter.statements at h h1
      split_ifs at h h1 with hb
      · cases hs : I.statement with
        | fatal e v o =>
          simp only [hs, Option.some.injEq] at h h1
          rw [← h, ← h1]
        | ok I2 =>
          simp only [hs] at h h1
          exact ih m I2 r r1 h h1
      · simp only [Option.some.injEq] at h h1
        rw [← h, ← h1]

/-! ## Output on a fatal exit -/

theorem printlnStatement_fatal {I : Interpreter} {e : Error} {v : Store} {o : List (List Char)}
    (h : I.printlnStatement = .fatal e v o) :
    o = I.output ∨ (I.currentToken.type = .PRINTLN ∧ ∃ x, o = I.output ++ [x]) := by
  unfold Interpreter.printlnStatement at h
  rcases Outcome.bind_eq_fatal h with h1 | ⟨I1, h1, h⟩
  · exact Or.inl (matchToken_fatal h1).2
  obtain ⟨a1, _, _, _, e1, _⟩ := matchToken_step h1 (by simp)
  rcases Outcome.bind_eq_fatal h with h2 | ⟨I2, h2, h⟩
  · exact Or.inl (by rw [(matchToken_fatal h2).2, e1])
  obtain ⟨a2, _, _, _, e2, _⟩ := matchToken_step h2 (by simp)
  rcases Outcome.bind_eq_fatal h with h3 | ⟨I3, h3, h⟩
  · split_ifs at h3 with hs
    · exact Or.inr ⟨a1, _, by rw [(matchToken_fatal h3).2, e2, e1]⟩
    · rcases Outcome.bind_eq_fatal h3 with h4 | ⟨r, _, h4⟩
      · exact Or.inl (by rw [(evaluateExpression_fatal h4).2, e2, e1])
      · simp at h4
  have e3 : ∃ x, I3.output = I.output ++ [x] := by
    split_ifs at h3 with hs
    · obtain ⟨_, _, _, _, e3, _⟩ := matchToken_step h3 (by simp)
      exact ⟨_, by rw [e3, e2, e1]⟩
    · obtain ⟨r, hr, hr2⟩ := Outcome.bind_eq_ok h3
      obtain ⟨x, J⟩ := r
      obtain ⟨_, _, _, _, e3, _⟩ := evaluateExpression_step hr
      simp only [Outcome.ok.injEq] at hr2
      subst hr2
      exact ⟨x, by simp [e3, e2, e1]⟩
  obtain ⟨x, e3⟩ := e3
  rcases Outcome.bind_eq_fatal h with h4 | ⟨I4, h4, h5⟩
  · exact Or.inr ⟨a1, x, by rw [(matchToken_fatal h4).2, e3]⟩
  obtain ⟨_, _, _, _, e4, _⟩ := matchToken_step h4 (by simp)
  exact Or.inr ⟨a1, x, by rw [(matchToken_fatal h5).2, e4, e3]⟩

theorem declarationStatement_fatal {I : Interpreter} {e : Error} {v : Store}
    {o : List (List Char)} (h : I.declarationStatement = .fatal e v o) : o = I.output := by
  unfold Interpreter.declarationStatement at h
  rcases Outcome.bind_eq_fatal h with h1 | ⟨I1, h1, h⟩
  · exact (matchAnyType_fatal h1).2
  obtain ⟨_, _, _, d1, e1, _⟩ := matchAnyType_step h1
  rcases Outcome.bind_eq_fatal h with h2 | ⟨I2, h2, h⟩
  · rw [(matchToken_fatal h2).2, e1]
  obtain ⟨_, _, _, d2, e2, _⟩ := matchToken_step h2 (by simp)
  rcases Outcome.bind_eq_fatal h with h3 | ⟨I4, h3, h5⟩
  · split_ifs at h3 with hs
    rcases Outcome.bind_eq_fatal h3 with h4 | ⟨I3, h4, h3⟩
    · rw [(matchToken_fatal h4).2, e2, e1]
    obtain ⟨_, _, _, d3, e3, _⟩ := matchToken_step h4 (by simp)
    rcases Outcome.bind_eq_fatal h3 with h6 | ⟨r, h6, h7⟩
    · rw [(evaluateExpression_fatal h6).2, e3, e2, e1]
    obtain ⟨x, J⟩ := r
    obtain ⟨_, _, _, d4, e4, _⟩ := evaluateExpression_step h6
    rw [(checkAndAssign_fatal h7).2, e4, e3, e2, e1]
  · have := matchToken_fatal h5
    split_ifs at h3 with hs
    · obtain ⟨I3, h4, h3⟩ := Outcome.bind_eq_ok h3
      obtain ⟨_, _, _, d3, e3, _⟩ := matchToken_step h4 (by simp)
      obtain ⟨r, h6, h7⟩ := Outcome.bind_eq_ok h3
      obtain ⟨x, J⟩ := r
      obtain ⟨_, _, _, d4, e4, _⟩ := evaluateExpression_step h6
      have hJ := checkAndAssign_ok h7
      have ho : I4.output = J.output := by rw [hJ]
      rw [this.2, ho, e4, e3, e2, e1]
    · simp only [Outcome.ok.injEq] at h3
      subst h3
      rw [this.2, e2, e1]

theorem statement_fatal {I : Interpreter} {e : Error} {v : Store} {o : List (List Char)}
    (h : I.statement = .fatal e v o) :
    o.length ≤ I.output.length + countPrintln I.pending.tokens := by
  unfold Interpreter.statement at h
  split_ifs at h with hp
  · rcases printlnStatement_fatal h with h1 | ⟨_, x, h1⟩
    · rw [h1]; omega
    · have hne : I.currentToken.type ≠ .END := by simp [hp]
      have : 1 ≤ countPrintln I.pending.tokens := by
        unfold Interpreter.pending
        rw [if_neg hne]
        simp [countPrintln, List.countP_cons, hp]
      rw [h1, List.length_append]
      simp only [List.length_singleton]
      omega
  · rw [declarationStatement_fatal h]; omega

theorem statements_fatal (n : Nat) : ∀ {I : Interpreter} {e : Error} {v : Store}
    {o : List (List Char)}, Interpreter.statements n I = some (.fatal e v o) →
    o.length ≤ I.output.length + countPrintln I.pending.tokens := by
  induction n with
  | zero => intro I e v o h; simp [Interpreter.statements] at h
  | succ n ih =>
    intro I e v o h
    unfold Interpreter.statements at h
    split_ifs at h with hb
    · cases hs : I.statement with
      | fatal e1 v1 o1 =>
        simp only [hs, Option.some.injEq, Outcome.fatal.injEq] at h
        obtain ⟨rfl, rfl, rfl⟩ := h
        exact statement_fatal hs
      | ok I2 =>
        simp only [hs] at h
        obtain ⟨pre, p1, p2, p3, p4, p5⟩ := statement_ok hs
        have := ih h
        rw [p2, countPrintln_append]
        omega
    · simp at h

/-! ## parse and run -/

theorem header_ok {I I4 : Interpreter} (h : I.header = .ok I4) :
    ∃ t1 t2 t3 t4 : Token, t1.type = .INT ∧ t2.type = .IDENTIFIER ∧ t3.type = .LEFT_PAREN ∧
      t4.type = .RIGHT_PAREN ∧ I.pending.tokens = t1 :: t2 :: t3 :: t4 :: I4.pending.tokens ∧
      I.pending.error = I4.pending.error ∧ I4.store = I.store ∧ I4.output = I.output ∧
      I4.lexer.input = I.lexer.input := by
  unfold Interpreter.header at h
  obtain ⟨I1, h1, h⟩ := Outcome.bind_eq_ok h
  obtain ⟨I2, h2, h⟩ := Outcome.bind_eq_ok h
  obtain ⟨I3, h3, h4⟩ := Outcome.bind_eq_ok h
  obtain ⟨a1, b1, c1, d1, e1, f1⟩ := matchToken_step h1 (by simp)
  obtain ⟨a2, b2, c2, d2, e2, f2⟩ := matchToken_step h2 (by simp)
  obtain ⟨a3, b3, c3, d3, e3, f3⟩ := matchToken_step h3 (by simp)
  obtain ⟨a4, b4, c4, d4, e4, f4⟩ := matchToken_step h4 (by simp)
  refine ⟨_, _, _, _, a1, a2, a3, a4, ?_, ?_, ?_, ?_, ?_⟩
  · rw [b1, b2, b3, b4]
  · rw [c1, c2, c3, c4]
  · rw [d4, d3, d2, d1]
  · rw [e4, e3, e2, e1]
  · rw [f4, f3, f2, f1]

theorem header_fatal {I : Interpreter} {e : Error} {v : Store} {o : List (List Char)}
    (h : I.header = .fatal e v o) : v = I.store ∧ o = I.output := by
  unfold Interpreter.header at h
  rcases Outcome.bind_eq_fatal h with h1 | ⟨I1, h1, h⟩
  · exact matchToken_fatal h1
  obtain ⟨_, _, _, d1, e1, _⟩ := matchToken_step h1 (by simp)
  rcases Outcome.bind_eq_fatal h with h2 | ⟨I2, h2, h⟩
  · have := matchToken_fatal h2
    exact ⟨by rw [this.1, d1], by rw [this.2, e1]⟩
  obtain ⟨_, _, _, d2, e2, _⟩ := matchToken_step h2 (by simp)
  rcases Outcome.bind_eq_fatal h with h3 | ⟨I3, h3, h4⟩
  · have := matchToken_fatal h3
    exact ⟨by rw [this.1, d2, d1], by rw [this.2, e2, e1]⟩
  obtain ⟨_, _, _, d3, e3, _⟩ := matchToken_step h3 (by simp)
  have := matchToken_fatal h4
  exact ⟨by rw [this.1, d3, d2, d1], by rw [this.2, e3, e2, e1]⟩

theorem pending_length_of_advance {I I1 : Interpreter} (h : I.advance = .ok I1) :
    I1.pending.tokens.length ≤ I1.lexer.input.length := by
  unfold Interpreter.pending
  by_cases hE : I1.currentToken.type = .END
  · simp [hE]
  · rw [if_neg hE]
    have hp := getNextToken_progress (advance_ok h).1
    have hs := hp.2.2.2 hE
    have hl := Lexer.tokens_length I1.lexer
    simp only [List.length_cons]
    rw [hp.1]
    rw [hp.1] at hl
    omega

/-- A successful `match(END)` after a token was read changes nothing: the
lookahead stays END and the cursor stays at or past the end of the input. -/
theorem matchToken_END_after {J I5 I6 : Interpreter} (hJ : J.advance = .ok I5)
    (h : I5.matchToken .END = .ok I6) :
    I6 = I5 ∧ I5.currentToken = ⟨.END, []⟩ ∧ I5.lexer.input.length ≤ I5.lexer.position ∧
      I5.pending = ⟨[], none⟩ := by
  obtain ⟨hE, hadv⟩ := matchToken_ok h
  obtain ⟨hc, hlen⟩ := advance_END hJ hE
  have hnil : I5.lexer.rest = [] := (Lexer.rest_nil_iff _).2 hlen
  have hg := getNextToken_of_rest_nil hnil
  rw [advance_of_getNextToken hg] at hadv
  simp only [Outcome.ok.injEq] at hadv
  refine ⟨?_, hc, hlen, ?_⟩
  · rw [← hadv, ← hc]
  · unfold Interpreter.pending
    rw [if_pos hE]

theorem parse_total (I : Interpreter) : ∃ r, I.parse = some r := by
  unfold Interpreter.parse
  cases hh : I.header with
  | fatal e v o => exact ⟨_, rfl⟩
  | ok I1 =>
    simp only
    split_ifs with hb
    · cases hm : I1.matchToken .LEFT_BRACE with
      | fatal e v o => exact ⟨_, rfl⟩
      | ok I2 =>
        simp only
        have hlen := pending_length_of_advance (matchToken_ok hm).2
        obtain ⟨r, hr⟩ := statements_total (I2.lexer.input.length + 1) I2 (by omega)
        rw [hr]
        exact ⟨_, rfl⟩
    · exact ⟨_, rfl⟩

theorem run_total (input : List Char) : ∃ r, run input = some r := by
  unfold run
  cases Interpreter.init input with
  | fatal e v o => exact ⟨_, rfl⟩
  | ok I => exact parse_total I

theorem parse_ok {I I6 : Interpreter} (h : I.parse = some (.ok I6)) :
    IsProgram I.pending.tokens ∧ I.pending.error = none ∧
      I6.output.length = I.output.length + countPrintln I.pending.tokens ∧
      I6.currentToken = ⟨.END, []⟩ ∧ I6.lexer.input.length ≤ I6.lexer.position ∧
      I6.lexer.input = I.lexer.input := by
  unfold Interpreter.parse at h
  cases hh : I.header with
  | fatal e v o => simp [hh] at h
  | ok I1 =>
    simp only [hh] at h
    obtain ⟨t1, t2, t3, t4, a1, a2, a3, a4, hp, he, hs, ho, hi⟩ := header_ok hh
    have hc4 : countPrintln [t1, t2, t3, t4] = 0 := by
      simp [countPrintln, List.countP_cons, a1, a2, a3, a4]
    split_ifs at h with hb
    · cases hm : I1.matchToken .LEFT_BRACE with
      | fatal e v o => simp [hm] at h
      | ok I2 =>
        simp only [hm] at h
        obtain ⟨b1, b2, b3, b4, b5, b6⟩ := matchToken_step hm (by simp)
        cases hst : Interpreter.statements (I2.lexer.input.length + 1) I2 with
        | none => simp [hst] at h
        | some r =>
          simp only [hst, Option.map_some', Option.some.injEq] at h
          obtain ⟨I4, h4, h5⟩ := Outcome.bind_eq_ok h
          obtain ⟨I3, h3, h4⟩ := Outcome.bind_eq_ok h4
          subst h3
          obtain ⟨body, c1, c2, c3, c4, c5, c6⟩ := statements_ok _ hst
          obtain ⟨d1, d2, d3, d4, d5, d6⟩ := matchToken_step h4 (by simp)
          obtain ⟨e1, e2, e3, e4⟩ := matchToken_END_after (matchToken_ok h4).2 h5
          subst e1
          have htok : I.pending.tokens =
              t1 :: t2 :: t3 :: t4 :: I1.currentToken :: (body ++ [I3.currentToken]) := by
            rw [hp, b2, c2, d2, e4]
          refine ⟨⟨t1, t2, t3, t4, I1.currentToken, a1, a2, a3, a4,
            Or.inr ⟨body, I3.currentToken, htok, b1, c1, d1⟩⟩, ?_, ?_, e2, e3, ?_⟩
          · rw [he, b3, c3, d3, e4]
          · rw [d5, c5, b5, ho, htok]
            have : countPrintln (t1 :: t2 :: t3 :: t4 :: I1.currentToken ::
                (body ++ [I3.currentToken])) = countPrintln body := by
              simp [countPrintln, List.countP_cons, List.countP_append, a1, a2, a3, a4, b1, d1]
            rw [this]
          · rw [d6, c4, b6, hi]
    · simp only [Option.map_some', Option.some.injEq] at h
      obtain ⟨I2, h2, h3⟩ := Outcome.bind_eq_ok h
      obtain ⟨b1, b2, b3, b4, b5, b6⟩ := matchToken_step h2 (by simp)
      obtain ⟨e1, e2, e3, e4⟩ := matchToken_END_after (matchToken_ok h2).2 h3
      subst e1
      have htok : I.pending.tokens = [t1, t2, t3, t4, I1.currentToken] := by
        rw [hp, b2, e4]
      refine ⟨⟨t1, t2, t3, t4, I1.currentToken, a1, a2, a3, a4, Or.inl ⟨htok, b1⟩⟩,
        ?_, ?_, e2, e3, ?_⟩
      · rw [he, b3, e4]
      · rw [b5, ho, htok]
        simp [countPrintln, List.countP_cons, a1, a2, a3, a4, b1]
      · rw [b6, hi]

theorem parse_fatal {I : Interpreter} {e : Error} {v : Store} {o : List (List Char)}
    (h : I.parse = some (.fatal e v o)) :
    o.length ≤ I.output.length + countPrintln I.pending.tokens := by
  unfold Interpreter.parse at h
  cases hh : I.header with
  | fatal e1 v1 o1 =>
    simp only [hh, Option.some.injEq, Outcome.fatal.injEq] at h
    obtain ⟨rfl, rfl, rfl⟩ := h
    rw [(header_fatal hh).2]; omega
  | ok I1 =>
    simp only [hh] at h
    obtain ⟨t1, t2, t3, t4, a1, a2, a3, a4, hp, he, hs, ho, hi⟩ := header_ok hh
    have hcount : ∀ ts, countPrintln (t1 :: t2 :: t3 :: t4 :: ts) = countPrintln ts := by
      intro ts
      simp [countPrintln, List.countP_cons, a1, a2, a3, a4]
    rw [hp, hcount, ← ho]
    split_ifs at h with hb
    · cases hm : I1.matchToken .LEFT_BRACE with
      | fatal e1 v1 o1 =>
        simp only [hm, Option.map_some', Option.some.injEq, Outcome.bind_fatal,
          Outcome.fatal.injEq] at h
        obtain ⟨rfl, rfl, rfl⟩ := h
        rw [(matchToken_fatal hm).2]; omega
      | ok I2 =>
        simp only [hm] at h
        obtain ⟨b1, b2, b3, b4, b5, b6⟩ := matchToken_step hm (by simp)
        have hc1 : countPrintln I1.pending.tokens = countPrintln I2.pending.tokens := by
          rw [b2]; simp [countPrintln, List.countP_cons, b1]
        rw [hc1, ← b5]
        cases hst : Interpreter.statements (I2.lexer.input.length + 1) I2 with
        | none => simp [hst] at h
        | some r =>
          simp only [hst, Option.map_some', Option.some.injEq] at h
          cases r with
          | fatal e1 v1 o1 =>
            simp only [Outcome.bind_fatal, Outcome.fatal.injEq] at h
            obtain ⟨rfl, rfl, rfl⟩ := h
            exact statements_fatal _ hst
          | ok I3 =>
            simp only [Outcome.bind_ok] at h
            obtain ⟨body, c1, c2, c3, c4, c5, c6⟩ := statements_ok _ hst
            have hle : I3.output.length ≤
                I2.output.length + countPrintln I2.pending.tokens := by
              rw [c5, c2, countPrintln_append]; omega
            rcases Outcome.bind_eq_fatal h with h4 | ⟨I4, h4, h5⟩
            · rw [(matchToken_fatal h4).2]; exact hle
            · obtain ⟨d1, d2, d3, d4, d5, d6⟩ := matchToken_step h4 (by simp)
              rw [(matchToken_fatal h5).2, d5]; exact hle
    · simp only [Option.map_some', Option.some.injEq] at h
      rcases Outcome.bind_eq_fatal h with h2 | ⟨I2, h2, h3⟩
      · rw [(matchToken_fatal h2).2]; omega
      · obtain ⟨b1, b2, b3, b4, b5, b6⟩ := matchToken_step h2 (by simp)
        rw [(matchToken_fatal h3).2, b5]; omega

theorem init_ok {input : List Char} {I : Interpreter} (h : Interpreter.init input = .ok I) :
    I.pending = tokenStream input ∧ I.store = [] ∧ I.output = [] ∧ I.lexer.input = input := by
  unfold Interpreter.init at h
  split at h
  · simp at h
  · rename_i t l hg
    simp only [Outcome.ok.injEq] at h
    subst h
    refine ⟨?_, rfl, rfl, (getNextToken_progress hg).1⟩
    unfold tokenStream Interpreter.pending
    rw [Lexer.tokens_eq ⟨input, 0⟩, hg]

theorem init_fatal {input : List Char} {e : Error} {v : Store} {o : List (List Char)}
    (h : Interpreter.init input = .fatal e v o) : v = [] ∧ o = [] := by
  unfold Interpreter.init at h
  split at h
  · simp only [Outcome.fatal.injEq] at h
    exact ⟨h.2.1.symm, h.2.2.symm⟩
  · simp at h

/-- What a successful run says about the source's token stream and the final
state. -/
theorem run_ok {input : List Char} {I : Interpreter} (h : run input = some (.ok I)) :
    IsProgram (tokenStream input).tokens ∧ (tokenStream input).error = none ∧
      I.output.length = countPrintln (tokenStream input).tokens ∧
      I.currentToken = ⟨.END, []⟩ ∧ input.length ≤ I.lexer.position ∧
      I.lexer.input = input := by
  unfold run at h
  cases hi : Interpreter.init input with
  | fatal e v o => simp [hi] at h
  | ok I0 =>
    simp only [hi] at h
    obtain ⟨a1, a2, a3, a4⟩ := init_ok hi
    obtain ⟨b1, b2, b3, b4, b5, b6⟩ := parse_ok h
    rw [a1] at b1 b2 b3
    rw [a3] at b3
    rw [b6, a4] at b5
    exact ⟨b1, b2, by simpa using b3, b4, b5, by rw [b6, a4]⟩

theorem run_fatal {input : List Char} {e : Error} {v : Store} {o : List (List Char)}
    (h : run input = some (.fatal e v o)) :
    o.length ≤ countPrintln (tokenStream input).tokens := by
  unfold run at h
  cases hi : Interpreter.init input with
  | fatal e1 v1 o1 =>
    simp only [hi, Option.some.injEq, Outcome.fatal.injEq] at h
    obtain ⟨rfl, rfl, rfl⟩ := h
    rw [(init_fatal hi).2]; simp
  | ok I0 =>
    simp only [hi] at h
    obtain ⟨a1, a2, a3, a4⟩ := init_ok hi
    have := parse_fatal h
    rw [a1, a3] at this
    simpa using this

/-! ## Character classes -/

theorem isdigit_iff (c : Char) : isdigit c = true ↔ 48 ≤ c.toNat ∧ c.toNat ≤ 57 := by
  simp [isdigit, Char.isDigit, Char.toNat, UInt32.le_def, BitVec.le_def, UInt32.toNat]

theorem isalpha_iff (c : Char) : isalpha c = true ↔
    (65 ≤ c.toNat ∧ c.toNat ≤ 90) ∨ (97 ≤ c.toNat ∧ c.toNat ≤ 122) := by
  simp [isalpha, Char.isAlpha, Char.isUpper, Char.isLower, Char.toNat, UInt32.le_def,
    BitVec.le_def, UInt32.toNat]

theorem isalpha_not_digit {c : Char} (h : isalpha c = true) : isdigit c = false := by
  rw [isalpha_iff] at h
  have : ¬ isdigit c = true := by rw [isdigit_iff]; omega
  simpa using this

theorem isalpha_not_space {c : Char} (h : isalpha c = true) : isspace c = false := by
  by_contra hc
  have h1 := (isspace_not_token (by simpa using hc)).2.2.2.2.2.2.2.2.2
  rw [h] at h1
  exact absurd h1 (by simp)

theorem isdigit_not_space {c : Char} (h : isdigit c = true) : isspace c = false := by
  by_contra hc
  have h1 := (isspace_not_token (by simpa using hc)).1
  rw [h] at h1
  exact absurd h1 (by simp)

theorem isalpha_not_special {c : Char} (h : isalpha c = true) :
    c ≠ '.' ∧ c ≠ '=' ∧ c ≠ ';' ∧ c ≠ '{' ∧ c ≠ '}' ∧ c ≠ '(' ∧ c ≠ ')' ∧ c ≠ '"' := by
  refine ⟨?_, ?_, ?_, ?_, ?_, ?_, ?_, ?_⟩ <;> (rintro rfl; revert h; decide)

theorem isdigit_not_dot {c : Char} (h : isdigit c = true) : c ≠ '.' := by
  rintro rfl; revert h; decide

/-! ## What the tokenizer reads from a given unread input -/

theorem getNextToken_of_not_space {l : Lexer} {c : Char} {r : List Char}
    (h : l.rest = c :: r) (hc : isspace c = false) :
    getNextToken l = getNextTokenLoop 1 l := by
  rw [getNextToken_eq, skipWhitespace_of_not_space h hc]

theorem Lex.unique {r : List Char} {t t1 : Token} {r1 r2 : List Char}
    (h : Lex r t r1) (h1 : Lex r t1 r2) : t = t1 ∧ r1 = r2 := by
  obtain ⟨l1, a1, b1, _⟩ := h ⟨r, 0⟩ rfl
  obtain ⟨l2, a2, b2, _⟩ := h1 ⟨r, 0⟩ rfl
  rw [a1] at a2
  simp only [Except.ok.injEq, Prod.mk.injEq] at a2
  obtain ⟨rfl, rfl⟩ := a2
  exact ⟨rfl, by rw [← b1, ← b2]⟩

theorem Lex.space {c : Char} {r : List Char} {t : Token} {r1 : List Char}
    (hc : isspace c = true) (h : Lex r t r1) : Lex (c :: r) t r1 := by
  intro l hl
  have h2 : (⟨l.input, l.position + 1⟩ : Lexer).rest = r := by
    rw [Lexer.rest_drop, hl]; rfl
  obtain ⟨l1, a1, b1, c1⟩ := h ⟨l.input, l.position + 1⟩ h2
  refine ⟨l1, ?_, b1, c1⟩
  rw [← a1, getNextToken_eq, getNextToken_eq]
  congr 1
  unfold skipWhitespace
  rw [hl, h2]
  simp [skipWhitespaceLoop, hc]

theorem Lex.skip_ws {ws r : List Char} {t : Token} {r1 : List Char}
    (hws : ∀ c ∈ ws, isspace c = true) (h : Lex r t r1) : Lex (ws ++ r) t r1 := by
  induction ws with
  | nil => exact h
  | cons c ws ih =>
    exact Lex.space (hws c (by simp)) (ih fun x hx => hws x (by simp [hx]))

theorem Lex.END : Lex [] ⟨.END, []⟩ [] := by
  intro l hl
  exact ⟨l, getNextToken_of_rest_nil hl, hl, rfl⟩

theorem rest_succ {l : Lexer} {c : Char} {r : List Char} (h : l.rest = c :: r) :
    (⟨l.input, l.position + 1⟩ : Lexer).rest = r := by
  rw [Lexer.rest_drop, h]; rfl

theorem Lex.EQUAL (r : List Char) : Lex ('=' :: r) ⟨.EQUAL, "=".toList⟩ r := by
  intro l hl
  refine ⟨⟨l.input, l.position + 1⟩, ?_, rest_succ hl, rfl⟩
  rw [getNextToken_of_not_space hl (by decide), getNextTokenLoop_one hl (by decide)]
  rfl

theorem Lex.SEMICOLON (r : List Char) : Lex (';' :: r) ⟨.SEMICOLON, ";".toList⟩ r := by
  intro l hl
  refine ⟨⟨l.input, l.position + 1⟩, ?_, rest_succ hl, rfl⟩
  rw [getNextToken_of_not_space hl (by decide), getNextTokenLoop_one hl (by decide)]
  rfl

theorem Lex.LEFT_BRACE (r : List Char) : Lex ('{' :: r) ⟨.LEFT_BRACE, "\x7b".toList⟩ r := by
  intro l hl
  refine ⟨⟨l.input, l.position + 1⟩, ?_, rest_succ hl, rfl⟩
  rw [getNextToken_of_not_space hl (by decide), getNextTokenLoop_one hl (by decide)]
  rfl

theorem Lex.RIGHT_BRACE (r : List Char) : Lex ('}' :: r) ⟨.RIGHT_BRACE, "\x7d".toList⟩ r := by
  intro l hl
  refine ⟨⟨l.input, l.position + 1⟩, ?_, rest_succ hl, rfl⟩
  rw [getNextToken_of_not_space hl (by decide), getNextTokenLoop_one hl (by decide)]
  rfl

theorem Lex.LEFT_PAREN (r : List Char) : Lex ('(' :: r) ⟨.LEFT_PAREN, "(".toList⟩ r := by
  intro l hl
  refine ⟨⟨l.input, l.position + 1⟩, ?_, rest_succ hl, rfl⟩
  rw [getNextToken_of_not_space hl (by decide), getNextTokenLoop_one hl (by decide)]
  rfl

theorem Lex.RIGHT_PAREN (r : List Char) : Lex (')' :: r) ⟨.RIGHT_PAREN, ")".toList⟩ r := by
  intro l hl
  refine ⟨⟨l.input, l.position + 1⟩, ?_, rest_succ hl, rfl⟩
  rw [getNextToken_of_not_space hl (by decide), getNextTokenLoop_one hl (by decide)]
  rfl

theorem readIdentifier_eq (l : Lexer) :
    readIdentifier l =
      (⟨keywordType (readIdentifierLoop l.rest [] l.position).1,
          (readIdentifierLoop l.rest [] l.position).1⟩,
        ⟨l.input, (readIdentifierLoop l.rest [] l.position).2⟩) := by
  unfold readIdentifier keywordType
  simp only
  split_ifs <;> rfl

theorem readIdentifierLoop_word (w r acc : List Char) (p : Nat)
    (hw : ∀ c ∈ w, (isalnum c || c == '_') = true)
    (hr : NotStart (fun c => isalnum c || c == '_') r) :
    readIdentifierLoop (w ++ r) acc p = (acc ++ w, p + w.length) := by
  induction w generalizing acc p with
  | nil =>
    cases r with
    | nil => simp [readIdentifierLoop]
    | cons c r =>
      have : (isalnum c || c == '_') = false := hr c (by simp)
      simp only [List.nil_append, readIdentifierLoop, this]
      simp
  | cons c w ih =>
    have hc := hw c (by simp)
    show readIdentifierLoop (c :: (w ++ r)) acc p = _
    rw [readIdentifierLoop]
    simp only [hc, if_true]
    rw [ih _ _ fun x hx => hw x (by simp [hx])]
    simp only [List.append_assoc, List.singleton_append, List.length_cons, Prod.mk.injEq,
      true_and]
    omega

theorem Lex.word {c : Char} {cs r : List Char} (hc : isalpha c = true)
    (hcs : ∀ x ∈ cs, (isalnum x || x == '_') = true)
    (hr : NotStart (fun c => isalnum c || c == '_') r) :
    Lex (c :: cs ++ r) ⟨keywordType (c :: cs), c :: cs⟩ r := by
  intro l hl
  have hl1 : l.rest = c :: (cs ++ r) := hl
  have hw : ∀ x ∈ c :: cs, (isalnum x || x == '_') = true := by
    intro x hx
    rcases List.mem_cons.1 hx with rfl | hx
    · simp [isalnum_of_isalpha hc]
    · exact hcs x hx
  obtain ⟨s1, s2, s3, s4, s5, s6, s7, s8⟩ := isalpha_not_special hc
  refine ⟨⟨l.input, l.position + (c :: cs).length⟩, ?_, ?_, rfl⟩
  · rw [getNextToken_of_not_space hl1 (isalpha_not_space hc),
      getNextTokenLoop_one hl1 (isalpha_not_space hc)]
    have hcond : (isdigit c || c == '.') = false := by simp [isalpha_not_digit hc, s1]
    simp only [hcond, s2, s3, s4, s5, s6, s7, s8, hc, Bool.false_eq_true, if_false, if_true]
    rw [readIdentifier_eq, hl, readIdentifierLoop_word _ _ _ _ hw hr]
    simp
  · rw [Lexer.rest_drop, hl]
    exact List.drop_left _ _

theorem readNumberLoop_digits (d r acc : List Char) (p : Nat)
    (hd : ∀ c ∈ d, isdigit c = true)
    (hr : NotStart (fun c => isdigit c || c == '.') r) :
    readNumberLoop (d ++ r) false acc p = (false, acc ++ d, p + d.length) := by
  induction d generalizing acc p with
  | nil =>
    cases r with
    | nil => simp [readNumberLoop]
    | cons c r =>
      have : (isdigit c || c == '.') = false := hr c (by simp)
      simp only [List.nil_append, readNumberLoop, this]
      simp
  | cons c d ih =>
    have hc := hd c (by simp)
    have hdot : (c == '.') = false := by simpa using isdigit_not_dot hc
    show readNumberLoop (c :: (d ++ r)) false acc p = _
    rw [readNumberLoop]
    simp only [hc, hdot, Bool.true_or, if_true, Bool.and_false, Bool.false_eq_true, if_false,
      Bool.or_false]
    rw [ih _ _ fun x hx => hd x (by simp [hx])]
    simp only [List.append_assoc, List.singleton_append, List.length_cons, Prod.mk.injEq,
      true_and]
    omega

theorem Lex.digits {c : Char} {cs r : List Char} (hc : isdigit c = true)
    (hcs : ∀ x ∈ cs, isdigit x = true)
    (hr : NotStart (fun c => isdigit c || c == '.') r) :
    Lex (c :: cs ++ r) ⟨.INT, c :: cs⟩ r := by
  intro l hl
  have hl1 : l.rest = c :: (cs ++ r) := hl
  have hd : ∀ x ∈ c :: cs, isdigit x = true := by
    intro x hx
    rcases List.mem_cons.1 hx with rfl | hx
    · exact hc
    · exact hcs x hx
  refine ⟨⟨l.input, l.position + (c :: cs).length⟩, ?_, ?_, rfl⟩
  · rw [getNextToken_of_not_space hl1 (isdigit_not_space hc),
      getNextTokenLoop_one hl1 (isdigit_not_space hc)]
    simp only [hc, Bool.true_or, if_true]
    unfold readNumber
    rw [hl, readNumberLoop_digits _ _ _ _ hd hr]
    simp
  · rw [Lexer.rest_drop, hl]
    exact List.drop_left _ _

theorem readStringLoop_plain (s r acc : List Char) (p : Nat)
    (hs : ∀ c ∈ s, c ≠ '"' ∧ c ≠ '\\') :
    readStringLoop (s ++ '"' :: r) acc p = .ok (acc ++ s, p + s.length) := by
  induction s generalizing acc p with
  | nil =>
    show readStringLoop ('"' :: r) acc p = _
    unfold readStringLoop
    simp
  | cons c s ih =>
    obtain ⟨h1, h2⟩ := hs c (by simp)
    show readStringLoop (c :: (s ++ '"' :: r)) acc p = _
    unfold readStringLoop
    simp only [h1, h2, if_false]
    rw [ih _ _ fun x hx => hs x (by simp [hx])]
    simp only [List.append_assoc, List.singleton_append, List.length_cons, Except.ok.injEq,
      Prod.mk.injEq, true_and]
    omega

theorem Lex.string {s r : List Char} (hs : ∀ c ∈ s, c ≠ '"' ∧ c ≠ '\\') :
    Lex ('"' :: (s ++ '"' :: r)) ⟨.STRING, s⟩ r := by
  intro l hl
  refine ⟨⟨l.input, l.position + 1 + s.length + 1⟩, ?_, ?_, rfl⟩
  · rw [getNextToken_of_not_space hl (by decide), getNextTokenLoop_one hl (by decide)]
    have hd : l.input.drop (l.position + 1) = s ++ '"' :: r := rest_succ hl
    simp only [readString, hd, readStringLoop_plain _ _ _ _ hs]
    rfl
  · have : l.position + 1 + s.length + 1 = l.position + (1 + s.length + 1) := by omega
    rw [this, Lexer.rest_drop, hl]
    have h2 : '"' :: (s ++ '"' :: r) = ('"' :: (s ++ ['"'])) ++ r := by simp
    rw [h2]
    exact List.drop_left' (by simp; omega)

/-! ## Running the interpreter on a known unread input -/

theorem Interpreter.At.advance {I : Interpreter} {t t1 : Token} {r r1 : List Char} {s : Store}
    {o : List (List Char)} (h : I.At t r s o) (hl : Lex r t1 r1) :
    ∃ I1, I.advance = .ok I1 ∧ I1.At t1 r1 s o := by
  obtain ⟨hc, hr, hs, ho⟩ := h
  obtain ⟨l1, a1, b1, _⟩ := hl I.lexer hr
  exact ⟨_, advance_of_getNextToken a1, rfl, b1, hs, ho⟩

theorem Interpreter.At.matchToken {I : Interpreter} {t t1 : Token} {r r1 : List Char} {s : Store}
    {o : List (List Char)} (h : I.At t r s o) (ty : TokenType) (ht : t.type = ty)
    (hl : Lex r t1 r1) : ∃ I1, I.matchToken ty = .ok I1 ∧ I1.At t1 r1 s o := by
  obtain ⟨I1, a1, b1⟩ := h.advance hl
  refine ⟨I1, ?_, b1⟩
  unfold Interpreter.matchToken
  rw [h.1, if_pos ht, a1]

theorem Interpreter.At.matchAnyType {I : Interpreter} {t t1 : Token} {r r1 : List Char} {s : Store}
    {o : List (List Char)} (h : I.At t r s o)
    (ht : t.type = .INT ∨ t.type = .FLOAT ∨ t.type = .BOOL ∨ t.type = .STRING)
    (hl : Lex r t1 r1) : ∃ I1, I.matchAnyType = .ok I1 ∧ I1.At t1 r1 s o := by
  obtain ⟨I1, a1, b1⟩ := h.advance hl
  refine ⟨I1, ?_, b1⟩
  unfold Interpreter.matchAnyType
  rw [h.1, if_neg, a1]
  rcases ht with ht | ht | ht | ht <;> simp [ht]

theorem Interpreter.At.evaluateExpression_literal {I : Interpreter} {t t1 : Token} {r r1 : List Char}
    {s : Store} {o : List (List Char)} (h : I.At t r s o)
    (ht : t.type = .INT ∨ t.type = .FLOAT ∨ t.type = .BOOL ∨ t.type = .STRING)
    (hl : Lex r t1 r1) : ∃ I1, I.evaluateExpression = .ok (t.value, I1) ∧ I1.At t1 r1 s o := by
  obtain ⟨I1, a1, b1⟩ := h.advance hl
  refine ⟨I1, ?_, b1⟩
  unfold Interpreter.evaluateExpression Interpreter.evaluateVariable
  rw [h.1]
  rcases ht with ht | ht | ht | ht <;> simp [ht, a1]

theorem Interpreter.At.evaluateExpression_variable {I : Interpreter} {t t1 : Token} {r r1 : List Char}
    {s : Store} {o : List (List Char)} {v : List Char} (h : I.At t r s o)
    (ht : t.type = .IDENTIFIER) (hv : find s t.value = some v)
    (hl : Lex r t1 r1) : ∃ I1, I.evaluateExpression = .ok (v, I1) ∧ I1.At t1 r1 s o := by
  obtain ⟨I1, a1, b1⟩ := h.advance hl
  refine ⟨I1, ?_, b1⟩
  unfold Interpreter.evaluateExpression Interpreter.evaluateVariable
  rw [h.1, h.2.2.1]
  simp [ht, hv, a1]

theorem Interpreter.At.println_string {I : Interpreter} {t0 t1 t2 t3 t4 t5 : Token}
    {r0 r1 r2 r3 r4 r5 : List Char} {s : Store} {o : List (List Char)}
    (h : I.At t0 r0 s o) (h0 : t0.type = .PRINTLN)
    (l1 : Lex r0 t1 r1) (h1 : t1.type = .LEFT_PAREN)
    (l2 : Lex r1 t2 r2) (h2 : t2.type = .STRING)
    (l3 : Lex r2 t3 r3) (h3 : t3.type = .RIGHT_PAREN)
    (l4 : Lex r3 t4 r4) (h4 : t4.type = .SEMICOLON) (l5 : Lex r4 t5 r5) :
    ∃ I5, I.statement = .ok I5 ∧ I5.At t5 r5 s (o ++ [t2.value]) := by
  obtain ⟨I1, a1, b1⟩ := h.matchToken .PRINTLN h0 l1
  obtain ⟨I2, a2, b2⟩ := b1.matchToken .LEFT_PAREN h1 l2
  have b2o : Interpreter.At { I2 with output := I2.output ++ [I2.currentToken.value] }
      t2 r2 s (o ++ [t2.value]) := ⟨b2.1, b2.2.1, b2.2.2.1, by simp [b2.2.2.2, b2.1]⟩
  obtain ⟨I3, a3, b3⟩ := b2o.matchToken .STRING h2 l3
  obtain ⟨I4, a4, b4⟩ := b3.matchToken .RIGHT_PAREN h3 l4
  obtain ⟨I5, a5, b5⟩ := b4.matchToken .SEMICOLON h4 l5
  refine ⟨I5, ?_, b5⟩
  unfold Interpreter.statement Interpreter.printlnStatement
  rw [h.1, if_pos h0, a1, Outcome.bind_ok, a2, Outcome.bind_ok, b2.1, if_pos h2]
  rw [b2.1] at a3
  rw [a3, Outcome.bind_ok, a4, Outcome.bind_ok, a5]

theorem Interpreter.At.println_variable {I : Interpreter} {t0 t1 t2 t3 t4 t5 : Token}
    {r0 r1 r2 r3 r4 r5 : List Char} {s : Store} {o : List (List Char)} {v : List Char}
    (h : I.At t0 r0 s o) (h0 : t0.type = .PRINTLN)
    (l1 : Lex r0 t1 r1) (h1 : t1.type = .LEFT_PAREN)
    (l2 : Lex r1 t2 r2) (h2 : t2.type = .IDENTIFIER) (hv : find s t2.value = some v)
    (l3 : Lex r2 t3 r3) (h3 : t3.type = .RIGHT_PAREN)
    (l4 : Lex r3 t4 r4) (h4 : t4.type = .SEMICOLON) (l5 : Lex r4 t5 r5) :
    ∃ I5, I.statement = .ok I5 ∧ I5.At t5 r5 s (o ++ [v]) := by
  obtain ⟨I1, a1, b1⟩ := h.matchToken .PRINTLN h0 l1
  obtain ⟨I2, a2, b2⟩ := b1.matchToken .LEFT_PAREN h1 l2
  obtain ⟨J, a3, b3⟩ := b2.evaluateExpression_variable h2 hv l3
  have b3o : Interpreter.At { J with output := J.output ++ [v] } t3 r3 s (o ++ [v]) :=
    ⟨b3.1, b3.2.1, b3.2.2.1, by simp [b3.2.2.2]⟩
  obtain ⟨I4, a4, b4⟩ := b3o.matchToken .RIGHT_PAREN h3 l4
  obtain ⟨I5, a5, b5⟩ := b4.matchToken .SEMICOLON h4 l5
  refine ⟨I5, ?_, b5⟩
  unfold Interpreter.statement Interpreter.printlnStatement
  have hns : ¬ I2.currentToken.type = .STRING := by rw [b2.1, h2]; simp
  rw [h.1, if_pos h0, a1, Outcome.bind_ok, a2, Outcome.bind_ok, if_neg hns, a3]
  simp only [Outcome.bind_ok]
  rw [a4, Outcome.bind_ok, a5]

theorem Interpreter.At.declaration {I : Interpreter} {t0 t1 t2 t3 t4 t5 : Token}
    {r0 r1 r2 r3 r4 r5 : List Char} {s : Store} {o : List (List Char)}
    (h : I.At t0 r0 s o)
    (h0 : t0.type = .INT ∨ t0.type = .FLOAT ∨ t0.type = .BOOL ∨ t0.type = .STRING)
    (l1 : Lex r0 t1 r1) (h1 : t1.type = .IDENTIFIER)
    (l2 : Lex r1 t2 r2) (h2 : t2.type = .EQUAL)
    (l3 : Lex r2 t3 r3)
    (h3 : t3.type = .INT ∨ t3.type = .FLOAT ∨ t3.type = .BOOL ∨ t3.type = .STRING)
    (hI : t0.type = .INT → isInteger t3.value = true)
    (hF : t0.type = .FLOAT → isFloat t3.value = true)
    (hB : t0.type = .BOOL → isBool t3.value = true)
    (l4 : Lex r3 t4 r4) (h4 : t4.type = .SEMICOLON) (l5 : Lex r4 t5 r5) :
    ∃ I5, I.statement = .ok I5 ∧ I5.At t5 r5 (assign s t1.value t3.value) o := by
  obtain ⟨I1, a1, b1⟩ := h.matchAnyType h0 l1
  obtain ⟨I2, a2, b2⟩ := b1.matchToken .IDENTIFIER h1 l2
  obtain ⟨I3, a3, b3⟩ := b2.matchToken .EQUAL h2 l3
  obtain ⟨J, a4, b4⟩ := b3.evaluateExpression_literal h3 l4
  have b4s : Interpreter.At { J with store := assign J.store t1.value t3.value }
      t4 r4 (assign s t1.value t3.value) o := ⟨b4.1, b4.2.1, by simp [b4.2.2.1], b4.2.2.2⟩
  obtain ⟨I5, a5, b5⟩ := b4s.matchToken .SEMICOLON h4 l5
  refine ⟨I5, ?_, b5⟩
  have hnp : ¬ I.currentToken.type = .PRINTLN := by
    rw [h.1]; rcases h0 with h0 | h0 | h0 | h0 <;> simp [h0]
  have hchk : J.checkAndAssign t0.type t1.value t3.value =
      .ok { J with store := assign J.store t1.value t3.value } := by
    unfold Interpreter.checkAndAssign
    rw [if_neg, if_neg, if_neg]
    · rintro ⟨hb, hb2⟩; rw [hB hb] at hb2; simp at hb2
    · rintro ⟨hb, hb2⟩; rw [hF hb] at hb2; simp at hb2
    · rintro ⟨hb, hb2⟩; rw [hI hb] at hb2; simp at hb2
  unfold Interpreter.statement Interpreter.declarationStatement
  rw [if_neg hnp, a1, Outcome.bind_ok, a2, Outcome.bind_ok, b2.1, if_pos h2, a3, Outcome.bind_ok,
    a4, Outcome.bind_ok]
  simp only
  rw [h.1, b1.1, hchk, Outcome.bind_ok, a5]

theorem statements_step {I I1 : Interpreter} {n : Nat} {r : Outcome Interpreter}
    (hb : I.currentToken.type ≠ .RIGHT_BRACE) (hs : I.statement = .ok I1)
    (h : Interpreter.statements n I1 = some r) : Interpreter.statements (n + 1) I = some r := by
  unfold Interpreter.statements
  rw [if_pos hb, hs]
  exact h

theorem statements_done {I : Interpreter} (n : Nat)
    (hb : I.currentToken.type = .RIGHT_BRACE) :
    Interpreter.statements (n + 1) I = some (.ok I) := by
  unfold Interpreter.statements
  rw [if_neg (by simpa using hb)]

theorem Interpreter.At.init {input : List Char} {t : Token} {r : List Char} (hl : Lex input t r) :
    ∃ I, Interpreter.init input = .ok I ∧ I.At t r [] [] := by
  obtain ⟨l1, a1, b1, _⟩ := hl ⟨input, 0⟩ rfl
  refine ⟨⟨l1, t, [], []⟩, ?_, rfl, b1, rfl, rfl⟩
  unfold Interpreter.init
  rw [a1]

/-- Running a program whose header, body and closing tokens are known. -/
theorem run_block {input : List Char} {t1 t2 t3 t4 t5 t6 : Token}
    {r1 r2 r3 r4 r5 r6 : List Char} {n : Nat} {s : Store} {o : List (List Char)}
    (l1 : Lex input t1 r1) (h1 : t1.type = .INT)
    (l2 : Lex r1 t2 r2) (h2 : t2.type = .IDENTIFIER)
    (l3 : Lex r2 t3 r3) (h3 : t3.type = .LEFT_PAREN)
    (l4 : Lex r3 t4 r4) (h4 : t4.type = .RIGHT_PAREN)
    (l5 : Lex r4 t5 r5) (h5 : t5.type = .LEFT_BRACE)
    (l6 : Lex r5 t6 r6)
    (hbody : ∀ I : Interpreter, I.At t6 r6 [] [] →
      ∃ I1, Interpreter.statements n I = some (.ok I1) ∧
        I1.currentToken.type = .RIGHT_BRACE ∧ I1.lexer.rest = [] ∧ I1.store = s ∧
        I1.output = o) :
    ∃ I, run input = some (.ok I) ∧ I.currentToken = ⟨.END, []⟩ ∧ I.lexer.rest = [] ∧
      I.store = s ∧ I.output = o := by
  obtain ⟨I0, a0, b0⟩ := Interpreter.At.init l1
  obtain ⟨I1, a1, b1⟩ := b0.matchToken .INT h1 l2
  obtain ⟨I2, a2, b2⟩ := b1.matchToken .IDENTIFIER h2 l3
  obtain ⟨I3, a3, b3⟩ := b2.matchToken .LEFT_PAREN h3 l4
  obtain ⟨I4, a4, b4⟩ := b3.matchToken .RIGHT_PAREN h4 l5
  obtain ⟨I5, a5, b5⟩ := b4.matchToken .LEFT_BRACE h5 l6
  obtain ⟨I6, a6, c1, c2, c3, c4⟩ := hbody I5 b5
  have b6 : I6.At I6.currentToken [] s o := ⟨rfl, c2, c3, c4⟩
  obtain ⟨I7, a7, b7⟩ := b6.matchToken .RIGHT_BRACE c1 Lex.END
  obtain ⟨I8, a8, b8⟩ := b7.matchToken .END rfl Lex.END
  have hlen := pending_length_of_advance (matchToken_ok a5).2
  obtain ⟨r, hr⟩ := statements_total (I5.lexer.input.length + 1) I5 (by omega)
  have hrr := statements_fuel _ _ _ _ _ a6 hr
  subst hrr
  refine ⟨I8, ?_, b8⟩
  have hh : I0.header = .ok I4 := by
    unfold Interpreter.header
    rw [a1, Outcome.bind_ok, a2, Outcome.bind_ok, a3, Outcome.bind_ok, a4]
  unfold run Interpreter.parse
  rw [a0]
  simp only [hh]
  rw [b4.1, if_pos h5]
  simp only [a5, hr, Option.map_some', Outcome.bind_ok, a7, a8]

/-! ## Reading the words of the language -/

theorem NotStart.nil (p : Char → Bool) : NotStart p [] := by
  intro c hc; simp at hc

theorem NotStart.cons {p : Char → Bool} {c : Char} (h : p c = false) (r : List Char) :
    NotStart p (c :: r) := by
  intro x hx
  simp only [List.head?_cons, Option.mem_def, Option.some.injEq] at hx
  rw [← hx]; exact h

theorem NotStart.of_ws {p : Char → Bool} {ws r : List Char} (hp : ∀ c, isspace c = true → p c = false)
    (hws : ∀ c ∈ ws, isspace c = true) (hr : NotStart p r) : NotStart p (ws ++ r) := by
  cases ws with
  | nil => exact hr
  | cons c ws => exact NotStart.cons (hp c (hws c (by simp))) _

theorem isspace_not_word {c : Char} (h : isspace c = true) :
    (isalnum c || c == '_') = false := by
  rcases isspace_cases h with h | h | h | h | h | h <;> subst h <;> decide

theorem isspace_not_number {c : Char} (h : isspace c = true) :
    (isdigit c || c == '.') = false := by
  rcases isspace_cases h with h | h | h | h | h | h <;> subst h <;> decide

theorem Lex.kw_int {r : List Char} (hr : NotStart (fun c => isalnum c || c == '_') r) :
    Lex ('i' :: 'n' :: 't' :: r) ⟨.INT, "int".toList⟩ r :=
  @Lex.word 'i' ['n', 't'] r (by decide) (by decide) hr

theorem Lex.kw_string {r : List Char} (hr : NotStart (fun c => isalnum c || c == '_') r) :
    Lex ('s' :: 't' :: 'r' :: 'i' :: 'n' :: 'g' :: r) ⟨.STRING, "string".toList⟩ r :=
  @Lex.word 's' ['t', 'r', 'i', 'n', 'g'] r (by decide) (by decide) hr

theorem Lex.kw_println {r : List Char} (hr : NotStart (fun c => isalnum c || c == '_') r) :
    Lex ('p' :: 'r' :: 'i' :: 'n' :: 't' :: 'l' :: 'n' :: r) ⟨.PRINTLN, "println".toList⟩ r :=
  @Lex.word 'p' ['r', 'i', 'n', 't', 'l', 'n'] r (by decide) (by decide) hr

theorem Lex.main {r : List Char} (hr : NotStart (fun c => isalnum c || c == '_') r) :
    Lex ('m' :: 'a' :: 'i' :: 'n' :: r) ⟨.IDENTIFIER, "main".toList⟩ r :=
  @Lex.word 'm' ['a', 'i', 'n'] r (by decide) (by decide) hr

theorem keywordType_of_not_keyword {n : List Char} (hk : n ∉ keywords) :
    keywordType n = .IDENTIFIER := by
  simp only [keywords, List.mem_cons, List.mem_singleton, List.not_mem_nil, or_false,
    not_or] at hk
  obtain ⟨h1, h2, h3, h4, h5, h6, h7⟩ := hk
  unfold keywordType
  rw [if_neg h1, if_neg h2, if_neg h3, if_neg h4, if_neg h5, if_neg]
  rintro (h | h)
  · exact h6 h
  · exact h7 h

theorem Lex.identifier {n r : List Char} (hn : isIdentifierName n = true) (hk : n ∉ keywords)
    (hr : NotStart (fun c => isalnum c || c == '_') r) :
    Lex (n ++ r) ⟨.IDENTIFIER, n⟩ r := by
  cases n with
  | nil => simp [isIdentifierName] at hn
  | cons c cs =>
    simp only [isIdentifierName, Bool.and_eq_true, List.all_eq_true] at hn
    have := Lex.word hn.1 hn.2 hr
    rw [keywordType_of_not_keyword hk] at this
    exact this

theorem Lex.int_literal {d r : List Char} (hd : d ≠ []) (hall : ∀ c ∈ d, isdigit c = true)
    (hr : NotStart (fun c => isdigit c || c == '.') r) : Lex (d ++ r) ⟨.INT, d⟩ r := by
  cases d with
  | nil => exact absurd rfl hd
  | cons c cs =>
    exact Lex.digits (hall c (by simp)) (fun x hx => hall x (by simp [hx])) hr

theorem isInteger_of_digits {d : List Char} (hall : ∀ c ∈ d, isdigit c = true) :
    isInteger d = true := by
  induction d with
  | nil => rfl
  | cons c d ih =>
    simp only [isInteger, hall c (by simp), Bool.not_true, Bool.false_eq_true, if_false]
    exact ih fun x hx => hall x (by simp [hx])

theorem find_assign_self (m : Store) (k v : List Char) : find (assign m k v) k = some v := by
  induction m with
  | nil => simp [assign, find]
  | cons a m ih =>
    obtain ⟨k1, v1⟩ := a
    by_cases h : k1 = k
    · simp [assign, find, h]
    · simp [assign, find, h, ih]

/-- Running a program in the declaration-only form. -/
theorem run_declaration_only {input : List Char} {t1 t2 t3 t4 t5 : Token}
    {r1 r2 r3 r4 : List Char}
    (l1 : Lex input t1 r1) (h1 : t1.type = .INT)
    (l2 : Lex r1 t2 r2) (h2 : t2.type = .IDENTIFIER)
    (l3 : Lex r2 t3 r3) (h3 : t3.type = .LEFT_PAREN)
    (l4 : Lex r3 t4 r4) (h4 : t4.type = .RIGHT_PAREN)
    (l5 : Lex r4 t5 []) (h5 : t5.type = .SEMICOLON) :
    ∃ I, run input = some (.ok I) ∧ I.currentToken = ⟨.END, []⟩ ∧ I.lexer.rest = [] ∧
      I.store = [] ∧ I.output = [] := by
  obtain ⟨I0, a0, b0⟩ := Interpreter.At.init l1
  obtain ⟨I1, a1, b1⟩ := b0.matchToken .INT h1 l2
  obtain ⟨I2, a2, b2⟩ := b1.matchToken .IDENTIFIER h2 l3
  obtain ⟨I3, a3, b3⟩ := b2.matchToken .LEFT_PAREN h3 l4
  obtain ⟨I4, a4, b4⟩ := b3.matchToken .RIGHT_PAREN h4 l5
  obtain ⟨I5, a5, b5⟩ := b4.matchToken .SEMICOLON h5 Lex.END
  obtain ⟨I6, a6, b6⟩ := b5.matchToken .END rfl Lex.END
  refine ⟨I6, ?_, b6⟩
  have hh : I0.header = .ok I4 := by
    unfold Interpreter.header
    rw [a1, Outcome.bind_ok, a2, Outcome.bind_ok, a3, Outcome.bind_ok, a4]
  have hnb : ¬ I4.currentToken.type = .LEFT_BRACE := by rw [b4.1, h5]; simp
  unfold run Interpreter.parse
  rw [a0]
  simp only [hh]
  rw [if_neg hnb]
  simp only [a5, Option.map_some', Outcome.bind_ok, a6]

/-- Running a program that starts with the text `int main() { `. -/
theorem run_main {body : List Char} {t6 : Token} {r6 : List Char} {n : Nat} {s : Store}
    {o : List (List Char)} (l6 : Lex body t6 r6)
    (hbody : ∀ I : Interpreter, I.At t6 r6 [] [] →
      ∃ I1, Interpreter.statements n I = some (.ok I1) ∧
        I1.currentToken.type = .RIGHT_BRACE ∧ I1.lexer.rest = [] ∧ I1.store = s ∧
        I1.output = o) :
    ∃ I, run ("int main() \x7b ".toList ++ body) = some (.ok I) ∧
      I.currentToken = ⟨.END, []⟩ ∧ I.lexer.rest = [] ∧ I.store = s ∧ I.output = o := by
  have l1 : Lex ("int main() \x7b ".toList ++ body) ⟨.INT, "int".toList⟩
      (" main() \x7b ".toList ++ body) := Lex.kw_int (NotStart.cons (by decide) _)
  have l2 : Lex (" main() \x7b ".toList ++ body) ⟨.IDENTIFIER, "main".toList⟩
      ("() \x7b ".toList ++ body) := Lex.space (by decide) (Lex.main (NotStart.cons (by decide) _))
  have l3 : Lex ("() \x7b ".toList ++ body) ⟨.LEFT_PAREN, "(".toList⟩
      (") \x7b ".toList ++ body) := Lex.LEFT_PAREN _
  have l4 : Lex (") \x7b ".toList ++ body) ⟨.RIGHT_PAREN, ")".toList⟩
      (" \x7b ".toList ++ body) := Lex.RIGHT_PAREN _
  have l5 : Lex (" \x7b ".toList ++ body) ⟨.LEFT_BRACE, "\x7b".toList⟩
      (' ' :: body) := Lex.space (by decide) (Lex.LEFT_BRACE _)
  exact run_block l1 rfl l2 rfl l3 rfl l4 rfl l5 rfl (Lex.space (by decide) l6) hbody

theorem declare_int_print_body {n d : List Char} (hn : isIdentifierName n = true)
    (hk : n ∉ keywords) (hd : d ≠ []) (hall : ∀ c ∈ d, isdigit c = true)
    (I : Interpreter)
    (h : I.At ⟨.INT, "int".toList⟩
      (' ' :: (n ++ (" = ".toList ++ (d ++ ("; println(".toList ++ (n ++ "); \x7d".toList))))))
      [] []) :
    ∃ I1, Interpreter.statements 3 I = some (.ok I1) ∧
      I1.currentToken.type = .RIGHT_BRACE ∧ I1.lexer.rest = [] ∧
      I1.store = [(n, d)] ∧ I1.output = [d] := by
  have l1 : Lex (' ' :: (n ++ (" = ".toList ++ (d ++ ("; println(".toList ++
      (n ++ "); \x7d".toList))))))
      ⟨.IDENTIFIER, n⟩ (" = ".toList ++ (d ++ ("; println(".toList ++ (n ++ "); \x7d".toList)))) :=
    Lex.space (by decide) (Lex.identifier hn hk (NotStart.cons (by decide) _))
  have l2 : Lex (" = ".toList ++ (d ++ ("; println(".toList ++ (n ++ "); \x7d".toList))))
      ⟨.EQUAL, "=".toList⟩ (' ' :: (d ++ ("; println(".toList ++ (n ++ "); \x7d".toList)))) :=
    Lex.space (by decide) (Lex.EQUAL _)
  have l3 : Lex (' ' :: (d ++ ("; println(".toList ++ (n ++ "); \x7d".toList))))
      ⟨.INT, d⟩ ("; println(".toList ++ (n ++ "); \x7d".toList)) :=
    Lex.space (by decide) (Lex.int_literal hd hall (NotStart.cons (by decide) _))
  have l4 : Lex ("; println(".toList ++ (n ++ "); \x7d".toList))
      ⟨.SEMICOLON, ";".toList⟩ (" println(".toList ++ (n ++ "); \x7d".toList)) :=
    Lex.SEMICOLON _
  have l5 : Lex (" println(".toList ++ (n ++ "); \x7d".toList))
      ⟨.PRINTLN, "println".toList⟩ ('(' :: (n ++ "); \x7d".toList)) :=
    Lex.space (by decide) (Lex.kw_println (NotStart.cons (by decide) _))
  have l6 : Lex ('(' :: (n ++ "); \x7d".toList)) ⟨.LEFT_PAREN, "(".toList⟩
      (n ++ "); \x7d".toList) := Lex.LEFT_PAREN _
  have l7 : Lex (n ++ "); \x7d".toList) ⟨.IDENTIFIER, n⟩ ("); \x7d".toList) :=
    Lex.identifier hn hk (NotStart.cons (by decide) _)
  have l8 : Lex ("); \x7d".toList) ⟨.RIGHT_PAREN, ")".toList⟩ ("; \x7d".toList) :=
    Lex.RIGHT_PAREN _
  have l9 : Lex ("; \x7d".toList) ⟨.SEMICOLON, ";".toList⟩ (" \x7d".toList) := Lex.SEMICOLON _
  have l10 : Lex (" \x7d".toList) ⟨.RIGHT_BRACE, "\x7d".toList⟩ [] :=
    Lex.space (by decide) (Lex.RIGHT_BRACE _)
  obtain ⟨I1, a1, b1⟩ := h.declaration (Or.inl rfl) l1 rfl l2 rfl l3 (Or.inl rfl)
    (fun _ => isInteger_of_digits hall) (fun hc => absurd hc (by decide))
    (fun hc => absurd hc (by decide)) l4 rfl l5
  obtain ⟨I2, a2, b2⟩ := b1.println_variable rfl l6 rfl l7 rfl (find_assign_self _ _ _)
    l8 rfl l9 rfl l10
  refine ⟨I2, ?_, by rw [b2.1], b2.2.1, b2.2.2.1, b2.2.2.2⟩
  refine statements_step (by rw [h.1]; decide) a1 (statements_step (by rw [b1.1]; decide) a2
    (statements_done 0 (by rw [b2.1])))

theorem declare_string_print_body {n s : List Char} (hn : isIdentifierName n = true)
    (hk : n ∉ keywords) (hs : ∀ c ∈ s, c ≠ '"' ∧ c ≠ '\\')
    (I : Interpreter)
    (h : I.At ⟨.STRING, "string".toList⟩
      (' ' :: (n ++ (" = ".toList ++ ('"' :: (s ++ ("\"; println(".toList ++
        (n ++ "); \x7d".toList)))))))
      [] []) :
    ∃ I1, Interpreter.statements 3 I = some (.ok I1) ∧
      I1.currentToken.type = .RIGHT_BRACE ∧ I1.lexer.rest = [] ∧
      I1.store = [(n, s)] ∧ I1.output = [s] := by
  have l1 : Lex (' ' :: (n ++ (" = ".toList ++ ('"' :: (s ++ ("\"; println(".toList ++
      (n ++ "); \x7d".toList)))))))
      ⟨.IDENTIFIER, n⟩
      (" = ".toList ++ ('"' :: (s ++ ("\"; println(".toList ++ (n ++ "); \x7d".toList))))) :=
    Lex.space (by decide) (Lex.identifier hn hk (NotStart.cons (by decide) _))
  have l2 : Lex (" = ".toList ++ ('"' :: (s ++ ("\"; println(".toList ++
      (n ++ "); \x7d".toList)))))
      ⟨.EQUAL, "=".toList⟩
      (' ' :: '"' :: (s ++ ("\"; println(".toList ++ (n ++ "); \x7d".toList)))) :=
    Lex.space (by decide) (Lex.EQUAL _)
  have l3 : Lex (' ' :: '"' :: (s ++ ("\"; println(".toList ++ (n ++ "); \x7d".toList))))
      ⟨.STRING, s⟩ ("; println(".toList ++ (n ++ "); \x7d".toList)) :=
    Lex.space (by decide) (Lex.string hs)
  have l4 : Lex ("; println(".toList ++ (n ++ "); \x7d".toList))
      ⟨.SEMICOLON, ";".toList⟩ (" println(".toList ++ (n ++ "); \x7d".toList)) :=
    Lex.SEMICOLON _
  have l5 : Lex (" println(".toList ++ (n ++ "); \x7d".toList))
      ⟨.PRINTLN, "println".toList⟩ ('(' :: (n ++ "); \x7d".toList)) :=
    Lex.space (by decide) (Lex.kw_println (NotStart.cons (by decide) _))
  have l6 : Lex ('(' :: (n ++ "); \x7d".toList)) ⟨.LEFT_PAREN, "(".toList⟩
      (n ++ "); \x7d".toList) := Lex.LEFT_PAREN _
  have l7 : Lex (n ++ "); \x7d".toList) ⟨.IDENTIFIER, n⟩ ("); \x7d".toList) :=
    Lex.identifier hn hk (NotStart.cons (by decide) _)
  have l8 : Lex ("); \x7d".toList) ⟨.RIGHT_PAREN, ")".toList⟩ ("; \x7d".toList) :=
    Lex.RIGHT_PAREN _
  have l9 : Lex ("; \x7d".toList) ⟨.SEMICOLON, ";".toList⟩ (" \x7d".toList) := Lex.SEMICOLON _
  have l10 : Lex (" \x7d".toList) ⟨.RIGHT_BRACE, "\x7d".toList⟩ [] :=
    Lex.space (by decide) (Lex.RIGHT_BRACE _)
  obtain ⟨I1, a1, b1⟩ := h.declaration (Or.inr (Or.inr (Or.inr rfl))) l1 rfl l2 rfl l3
    (Or.inr (Or.inr (Or.inr rfl)))
    (fun hc => absurd hc (by decide)) (fun hc => absurd hc (by decide))
    (fun hc => absurd hc (by decide)) l4 rfl l5
  obtain ⟨I2, a2, b2⟩ := b1.println_variable rfl l6 rfl l7 rfl (find_assign_self _ _ _)
    l8 rfl l9 rfl l10
  refine ⟨I2, ?_, by rw [b2.1], b2.2.1, b2.2.2.1, b2.2.2.2⟩
  refine statements_step (by rw [h.1]; decide) a1 (statements_step (by rw [b1.1]; decide) a2
    (statements_done 0 (by rw [b2.1])))

/-- Claim C1: declaring a variable with an initializer and then printing it outputs
exactly the initializer's value. For every identifier `n` that is not a keyword,
(a) for every non-empty string `d` of decimal digits the source
`int main() { int n = d; println(n); }` is parsed successfully and the output is
exactly the one line `d`; (b) for every string `s` without a double quote or a
backslash the source `int main() { string n = "s"; println(n); }` is parsed
successfully and the output is exactly the one line `s`. -/
theorem C1_declare_then_print (n d s : List Char) (hn : isIdentifierName n = true)
    (hk : n ∉ keywords) :
    (d ≠ [] → (∀ c ∈ d, isdigit c = true) →
      ∃ I, run ("int main() \x7b ".toList ++ ("int ".toList ++ (n ++ (" = ".toList ++ (d ++
        ("; println(".toList ++ (n ++ "); \x7d".toList))))))) = some (.ok I) ∧
        I.output = [d]) ∧
    ((∀ c ∈ s, c ≠ '"' ∧ c ≠ '\\') →
      ∃ I, run ("int main() \x7b ".toList ++ ("string ".toList ++ (n ++ (" = \"".toList ++ (s ++
        ("\"; println(".toList ++ (n ++ "); \x7d".toList))))))) = some (.ok I) ∧
        I.output = [s]) := by
  refine ⟨fun hd hall => ?_, fun hs => ?_⟩
  · obtain ⟨I, h1, _, _, _, h2⟩ := run_main (Lex.kw_int (NotStart.cons (by decide) _))
      (declare_int_print_body hn hk hd hall)
    exact ⟨I, h1, h2⟩
  · obtain ⟨I, h1, _, _, _, h2⟩ := run_main (Lex.kw_string (NotStart.cons (by decide) _))
      (declare_string_print_body hn hk hs)
    exact ⟨I, h1, h2⟩

/-- Witness for C1: the scenarios `int x = 5` and `string s = "hi"`. -/
theorem C1_declare_then_print_witness :
    (∃ I, run "int main() \x7b int x = 5; println(x); \x7d".toList = some (.ok I) ∧
      I.output = ["5".toList]) ∧
    (∃ I, run "int main() \x7b string s = \"hi\"; println(s); \x7d".toList = some (.ok I) ∧
      I.output = ["hi".toList]) :=
  ⟨(C1_declare_then_print "x".toList "5".toList [] (by decide) (by decide)).1 (by decide)
      (by decide),
    (C1_declare_then_print "s".toList [] "hi".toList (by decide) (by decide)).2 (by decide)⟩

theorem NotStart.of_ws_ne {p : Char → Bool} (ws : List Char) {r : List Char} (hne : ws ≠ [])
    (hws : ∀ c ∈ ws, isspace c = true)
    (hp : ∀ c, isspace c = true → p c = false) : NotStart p (ws ++ r) := by
  cases ws with
  | nil => exact absurd rfl hne
  | cons c ws => exact NotStart.cons (hp c (hws c (by simp))) _

theorem printlnText_append (w s X : List Char) :
    printlnText w s ++ X =
      'p' :: 'r' :: 'i' :: 'n' :: 't' :: 'l' :: 'n' :: (w ++ ('(' :: (w ++ ('"' :: (s ++
        ('"' :: (w ++ (')' :: (w ++ (';' :: (w ++ X))))))))))) := by
  have e : "println".toList = ['p', 'r', 'i', 'n', 't', 'l', 'n'] := rfl
  simp [printlnText, e]

theorem lex_printlnTexts_exists {w : List Char} (hw : ∀ c ∈ w, isspace c = true)
    (ss : List (List Char)) : ∃ t r, Lex (printlnTexts w ss ++ ['}']) t r := by
  cases ss with
  | nil => exact ⟨_, _, Lex.RIGHT_BRACE []⟩
  | cons s ss =>
    have e : printlnTexts w (s :: ss) ++ ['}'] =
        printlnText w s ++ (printlnTexts w ss ++ ['}']) := by
      simp [printlnTexts]
    rw [e, printlnText_append]
    exact ⟨_, _, Lex.kw_println
      (NotStart.of_ws (fun c hc => isspace_not_word hc) hw (NotStart.cons (by decide) _))⟩

theorem printlnTexts_statements {w : List Char} (hw : ∀ c ∈ w, isspace c = true) :
    ∀ (ss : List (List Char)), (∀ s ∈ ss, ∀ c ∈ s, c ≠ '"' ∧ c ≠ '\\') →
    ∀ (I : Interpreter) (t : Token) (r : List Char) (o : List (List Char)),
      Lex (printlnTexts w ss ++ ['}']) t r → I.At t r [] o →
      ∃ I1, Interpreter.statements (ss.length + 1) I = some (.ok I1) ∧
        I1.currentToken.type = .RIGHT_BRACE ∧ I1.lexer.rest = [] ∧ I1.store = [] ∧
        I1.output = o ++ ss := by
  intro ss
  induction ss with
  | nil =>
    intro _ I t r o hl hAt
    obtain ⟨rfl, rfl⟩ := Lex.unique hl (Lex.RIGHT_BRACE [])
    exact ⟨I, statements_done 0 (by rw [hAt.1]), by rw [hAt.1], hAt.2.1, hAt.2.2.1,
      by simp [hAt.2.2.2]⟩
  | cons s ss ih =>
    intro hss I t r o hl hAt
    have hs := hss s (by simp)
    obtain ⟨t5, r5, l5⟩ := lex_printlnTexts_exists hw ss
    have e : printlnTexts w (s :: ss) ++ ['}'] =
        printlnText w s ++ (printlnTexts w ss ++ ['}']) := by
      simp [printlnTexts]
    rw [e, printlnText_append] at hl
    obtain ⟨rfl, rfl⟩ := Lex.unique hl (Lex.kw_println
      (NotStart.of_ws (fun c hc => isspace_not_word hc) hw (NotStart.cons (by decide) _)))
    have l1 : Lex (w ++ ('(' :: (w ++ ('"' :: (s ++ ('"' :: (w ++ (')' :: (w ++ (';' ::
        (w ++ (printlnTexts w ss ++ ['}']))))))))))))
        ⟨.LEFT_PAREN, "(".toList⟩ _ := Lex.skip_ws hw (Lex.LEFT_PAREN _)
    have l2 : Lex (w ++ ('"' :: (s ++ ('"' :: (w ++ (')' :: (w ++ (';' ::
        (w ++ (printlnTexts w ss ++ ['}']))))))))))
        ⟨.STRING, s⟩ _ := Lex.skip_ws hw (Lex.string hs)
    have l3 : Lex (w ++ (')' :: (w ++ (';' :: (w ++ (printlnTexts w ss ++ ['}']))))))
        ⟨.RIGHT_PAREN, ")".toList⟩ _ := Lex.skip_ws hw (Lex.RIGHT_PAREN _)
    have l4 : Lex (w ++ (';' :: (w ++ (printlnTexts w ss ++ ['}']))))
        ⟨.SEMICOLON, ";".toList⟩ _ := Lex.skip_ws hw (Lex.SEMICOLON _)
    have l6 : Lex (w ++ (printlnTexts w ss ++ ['}'])) t5 r5 := Lex.skip_ws hw l5
    obtain ⟨I5, a5, b5⟩ := hAt.println_string rfl l1 rfl l2 rfl l3 rfl l4 rfl l6
    obtain ⟨I6, a6, c1, c2, c3, c4⟩ :=
      ih (fun x hx => hss x (by simp [hx])) I5 t5 r5 (o ++ [s]) l5 b5
    refine ⟨I6, statements_step (by rw [hAt.1]; decide) a5 a6, c1, c2, c3, ?_⟩
    rw [c4]; simp

/-- Claim C2: for every list of strings `s1..sk` without a double quote or a
backslash, and every non-empty whitespace separator `w`, the source
`int main ( ) { println ( "s1" ) ; ... println ( "sk" ) ; }` with `w` between
adjacent tokens is parsed with no error, every token through end-of-input is
consumed (the lookahead is END and the cursor is at or past the end of the
input), and the output is exactly the lines `s1, ..., sk` in that order. -/
theorem C2_println_program (w : List Char) (ss : List (List Char)) (hne : w ≠ [])
    (hw : ∀ c ∈ w, isspace c = true) (hss : ∀ s ∈ ss, ∀ c ∈ s, c ≠ '"' ∧ c ≠ '\\') :
    ∃ I, run (printlnProgram w ss) = some (.ok I) ∧ I.currentToken = ⟨.END, []⟩ ∧
      (printlnProgram w ss).length ≤ I.lexer.position ∧
      (tokenStream (printlnProgram w ss)).error = none ∧ I.output = ss := by
  obtain ⟨t6, r6, l6⟩ := lex_printlnTexts_exists hw ss
  have l1 : Lex (printlnProgram w ss) ⟨.INT, "int".toList⟩
      (w ++ ("main".toList ++ (w ++ ('(' :: (w ++ (')' :: (w ++ ('{' :: (w ++
        (printlnTexts w ss ++ ['}'])))))))))) :=
    Lex.kw_int (NotStart.of_ws_ne w hne hw (fun c hc => isspace_not_word hc))
  have l2 : Lex (w ++ ("main".toList ++ (w ++ ('(' :: (w ++ (')' :: (w ++ ('{' :: (w ++
      (printlnTexts w ss ++ ['}']))))))))))
      ⟨.IDENTIFIER, "main".toList⟩ _ :=
    Lex.skip_ws hw (Lex.main (NotStart.of_ws_ne w hne hw (fun c hc => isspace_not_word hc)))
  have l3 : Lex (w ++ ('(' :: (w ++ (')' :: (w ++ ('{' :: (w ++
      (printlnTexts w ss ++ ['}']))))))))
      ⟨.LEFT_PAREN, "(".toList⟩ _ := Lex.skip_ws hw (Lex.LEFT_PAREN _)
  have l4 : Lex (w ++ (')' :: (w ++ ('{' :: (w ++ (printlnTexts w ss ++ ['}']))))))
      ⟨.RIGHT_PAREN, ")".toList⟩ _ := Lex.skip_ws hw (Lex.RIGHT_PAREN _)
  have l5 : Lex (w ++ ('{' :: (w ++ (printlnTexts w ss ++ ['}']))))
      ⟨.LEFT_BRACE, "\x7b".toList⟩ _ := Lex.skip_ws hw (Lex.LEFT_BRACE _)
  have l7 : Lex (w ++ (printlnTexts w ss ++ ['}'])) t6 r6 := Lex.skip_ws hw l6
  obtain ⟨I, h1, h2, _, _, h5⟩ := run_block l1 rfl l2 rfl l3 rfl l4 rfl l5 rfl l7
    (fun J hJ => printlnTexts_statements hw ss hss J t6 r6 [] l6 hJ)
  obtain ⟨_, k2, _, _, k5, _⟩ := run_ok h1
  exact ⟨I, h1, h2, k5, k2, by simpa using h5⟩

/-- Witness for C2: two `println` statements separated by single spaces. -/
theorem C2_println_program_witness :
    ∃ I, run "int main ( ) \x7b println ( \"a\" ) ; println ( \"b\" ) ; \x7d".toList =
        some (.ok I) ∧ I.currentToken = ⟨.END, []⟩ ∧
      "int main ( ) \x7b println ( \"a\" ) ; println ( \"b\" ) ; \x7d".toList.length ≤
        I.lexer.position ∧
      (tokenStream
        "int main ( ) \x7b println ( \"a\" ) ; println ( \"b\" ) ; \x7d".toList).error = none ∧
      I.output = ["a".toList, "b".toList] :=
  C2_println_program " ".toList ["a".toList, "b".toList] (by decide) (by decide) (by decide)

/-- Claim C9: the declaration-only form runs nothing. For every identifier `n` that
is not a keyword, and any whitespace between the tokens (at least one
whitespace character between `int` and `n`, which is what makes them two
tokens), the source `int n ( ) ;` is parsed successfully, writes no output and
leaves the variable store empty. -/
theorem C9_declaration_only (n w1 w2 w3 w4 : List Char) (hn : isIdentifierName n = true)
    (hk : n ∉ keywords) (hne : w1 ≠ [])
    (h1 : ∀ c ∈ w1, isspace c = true) (h2 : ∀ c ∈ w2, isspace c = true)
    (h3 : ∀ c ∈ w3, isspace c = true) (h4 : ∀ c ∈ w4, isspace c = true) :
    ∃ I, run ("int".toList ++ (w1 ++ (n ++ (w2 ++ ('(' :: (w3 ++ (')' :: (w4 ++ [';']))))))))
        = some (.ok I) ∧ I.output = [] ∧ I.store = [] := by
  have l1 : Lex ("int".toList ++ (w1 ++ (n ++ (w2 ++ ('(' :: (w3 ++ (')' :: (w4 ++ [';']))))))))
      ⟨.INT, "int".toList⟩ (w1 ++ (n ++ (w2 ++ ('(' :: (w3 ++ (')' :: (w4 ++ [';']))))))) :=
    Lex.kw_int (NotStart.of_ws_ne w1 hne h1 (fun c hc => isspace_not_word hc))
  have l2 : Lex (w1 ++ (n ++ (w2 ++ ('(' :: (w3 ++ (')' :: (w4 ++ [';'])))))))
      ⟨.IDENTIFIER, n⟩ _ :=
    Lex.skip_ws h1 (Lex.identifier hn hk
      (NotStart.of_ws (fun c hc => isspace_not_word hc) h2 (NotStart.cons (by decide) _)))
  have l3 : Lex (w2 ++ ('(' :: (w3 ++ (')' :: (w4 ++ [';'])))))
      ⟨.LEFT_PAREN, "(".toList⟩ _ := Lex.skip_ws h2 (Lex.LEFT_PAREN _)
  have l4 : Lex (w3 ++ (')' :: (w4 ++ [';'])))
      ⟨.RIGHT_PAREN, ")".toList⟩ _ := Lex.skip_ws h3 (Lex.RIGHT_PAREN _)
  have l5 : Lex (w4 ++ [';']) ⟨.SEMICOLON, ";".toList⟩ [] := Lex.skip_ws h4 (Lex.SEMICOLON _)
  obtain ⟨I, a1, _, _, a4, a5⟩ := run_declaration_only l1 rfl l2 rfl l3 rfl l4 rfl l5 rfl
  exact ⟨I, a1, a5, a4⟩

/-- Witness for C9: the scenario `int main();`. -/
theorem C9_declaration_only_witness :
    ∃ I, run "int main();".toList = some (.ok I) ∧ I.output = [] ∧ I.store = [] :=
  C9_declaration_only "main".toList " ".toList [] [] [] (by decide) (by decide) (by decide)
    (by decide) (by decide) (by decide) (by decide)

/-! ## Integer-kind tokens -/

theorem readNumberLoop_INT (r : List Char) : ∀ (hasDot : Bool) (acc : List Char) (p : Nat),
    (readNumberLoop r hasDot acc p).1 = false →
      hasDot = false ∧ ∃ d, (readNumberLoop r hasDot acc p).2.1 = acc ++ d ∧
        ∀ c ∈ d, isdigit c = true := by
  induction r with
  | nil =>
    intro hasDot acc p h
    simp only [readNumberLoop] at h
    exact ⟨h, [], by simp [readNumberLoop], by simp⟩
  | cons c r ih =>
    intro hasDot acc p h
    rw [readNumberLoop] at h ⊢
    split_ifs at h ⊢ with h1 h2
    · exact ⟨h, [], by simp, by simp⟩
    · obtain ⟨a1, d, a2, a3⟩ := ih _ _ _ h
      simp only [Bool.or_eq_false_iff, beq_eq_false_iff_ne, ne_eq] at a1
      have hc : isdigit c = true := by
        simp only [Bool.or_eq_true, beq_iff_eq] at h1
        rcases h1 with h1 | h1
        · exact h1
        · exact absurd h1 a1.2
      refine ⟨a1.1, c :: d, by rw [a2]; simp, ?_⟩
      intro x hx
      rcases List.mem_cons.1 hx with rfl | hx
      · exact hc
      · exact a3 x hx
    · exact ⟨h, [], by simp, by simp⟩

theorem keywordType_INT {w : List Char} (h : keywordType w = .INT) : w = "int".toList := by
  unfold keywordType at h
  split_ifs at h with h1 h2
  exact h2

/-- A token of kind INT is the keyword `int` or a non-empty string of digits. -/
theorem getNextToken_INT {l : Lexer} {t : Token} {l1 : Lexer}
    (h : getNextToken l = .ok (t, l1)) (ht : t.type = .INT) :
    t.value = "int".toList ∨ (t.value ≠ [] ∧ ∀ c ∈ t.value, isdigit c = true) := by
  rw [getNextToken_eq] at h
  cases hr : (skipWhitespace l).rest with
  | nil =>
    rw [getNextTokenLoop_nil hr] at h
    simp only [Except.ok.injEq, Prod.mk.injEq] at h
    rw [← h.1] at ht
    simp at ht
  | cons c r =>
    have hc : isspace c = false := by
      rw [skipWhitespace_rest] at hr
      exact dropWhile_head_not _ _ _ _ hr
    rw [getNextTokenLoop_one hr hc] at h
    split_ifs at h with h1 h2 h3 h4 h5 h6 h7 h8 h9
    · simp only [Except.ok.injEq] at h
      unfold readNumber at h
      rw [hr] at h
      simp only [Prod.mk.injEq] at h
      obtain ⟨h, _⟩ := h
      have hdot : (readNumberLoop (c :: r) false [] (skipWhitespace l).position).1 = false := by
        by_contra hd
        simp only [Bool.not_eq_false] at hd
        rw [← h, hd] at ht
        simp at ht
      rw [readNumberLoop] at hdot h
      simp only [h1, if_true, Bool.and_false, Bool.false_eq_true, if_false, Bool.false_or,
        List.nil_append] at hdot h
      obtain ⟨a1, d, a2, a3⟩ := readNumberLoop_INT _ _ _ _ hdot
      have hcd : isdigit c = true := by
        simp only [Bool.or_eq_true, beq_iff_eq] at h1
        rcases h1 with h1 | h1
        · exact h1
        · simp [h1] at a1
      right
      rw [← h]
      simp only
      rw [a2]
      refine ⟨by simp, ?_⟩
      intro x hx
      simp only [List.singleton_append, List.mem_cons] at hx
      rcases hx with rfl | hx
      · exact hcd
      · exact a3 x hx
    all_goals first
      | (simp only [Except.ok.injEq, Prod.mk.injEq] at h
         rw [← h.1] at ht
         simp at ht)
      | skip
    · rw [(readString_spec h).2.2] at ht
      simp at ht
    · simp only [Except.ok.injEq] at h
      rw [readIdentifier_eq] at h
      simp only [Prod.mk.injEq] at h
      rw [← h.1] at ht ⊢
      exact Or.inl (keywordType_INT ht)

theorem tokensFrom_mem (n : Nat) : ∀ (l : Lexer) (t : Token), t ∈ (tokensFrom n l).tokens →
    ∃ l1 l2, getNextToken l1 = .ok (t, l2) := by
  induction n with
  | zero => intro l t ht; simp [tokensFrom] at ht
  | succ n ih =>
    intro l t ht
    unfold tokensFrom at ht
    cases hg : getNextToken l with
    | error e => simp [hg] at ht
    | ok p =>
      obtain ⟨t1, l1⟩ := p
      simp only [hg] at ht
      by_cases h1 : t1.type = .END
      · simp [h1] at ht
      · rw [if_neg h1] at ht
        simp only [List.mem_cons] at ht
        rcases ht with h | h
        · exact ⟨l, l1, by rw [hg, h]⟩
        · exact ih l1 t h

theorem tokenStream_INT {input : List Char} {t : Token}
    (hm : t ∈ (tokenStream input).tokens) (ht : t.type = .INT) :
    t.value = "int".toList ∨ (t.value ≠ [] ∧ ∀ c ∈ t.value, isdigit c = true) := by
  obtain ⟨l1, l2, hg⟩ := tokensFrom_mem _ _ _ hm
  exact getNextToken_INT hg ht

/-! ## No recognized program is a proper prefix of another -/

theorem IsProgram.prefix_free {ts extra : List Token} (h1 : IsProgram ts)
    (h2 : IsProgram (ts ++ extra)) : extra = [] := by
  obtain ⟨t1, t2, t3, t4, t5, _, _, _, _, h1⟩ := h1
  obtain ⟨u1, u2, u3, u4, u5, _, _, _, _, h2⟩ := h2
  rcases h1 with ⟨rfl, ht5⟩ | ⟨body, t6, rfl, ht5, hb, ht6⟩
  · rcases h2 with ⟨h2, _⟩ | ⟨body1, u6, h2, hu5, _, _⟩
    · simp only [List.cons_append, List.nil_append, List.cons.injEq] at h2
      exact h2.2.2.2.2.2
    · simp only [List.cons_append, List.nil_append, List.cons.injEq] at h2
      obtain ⟨_, _, _, _, h5, _⟩ := h2
      rw [h5, hu5] at ht5
      simp at ht5
  · rcases h2 with ⟨h2, _⟩ | ⟨body1, u6, h2, hu5, hb1, hu6⟩
    · have := congrArg List.length h2
      simp at this
    · simp only [List.cons_append, List.cons.injEq] at h2
      obtain ⟨_, _, _, _, _, h6⟩ := h2
      by_contra hne
      obtain ⟨e1, x, rfl⟩ : ∃ e1 x, extra = e1 ++ [x] :=
        ⟨extra.dropLast, extra.getLast hne, (List.dropLast_append_getLast hne).symm⟩
      have h7 : (body ++ [t6] ++ e1) ++ [x] = body1 ++ [u6] := by
        rw [← h6]; simp
      have h8 := List.append_inj_left' h7 rfl
      have hmem : t6 ∈ body1 := by rw [← h8]; simp
      exact hb1.no_RIGHT_BRACE t6 hmem ht6

theorem isInteger_false_of_non_digit {value : List Char}
    (h : ∃ c ∈ value, isdigit c = false) : isInteger value = false := by
  induction value with
  | nil => obtain ⟨c, hc, _⟩ := h; simp at hc
  | cons a value ih =>
    by_cases ha : isdigit a = true
    · simp only [isInteger, ha, Bool.not_true, Bool.false_eq_true, if_false]
      obtain ⟨c, hc, hd⟩ := h
      rcases List.mem_cons.1 hc with rfl | hc
      · rw [ha] at hd; simp at hd
      · exact ih ⟨c, hc, hd⟩
    · simp [isInteger, ha]

/-- Claim C3: whenever the current token is an identifier, `evaluateExpression`
(through `evaluateVariable`) looks the name up in the variable store. If the
name is a key, it returns the stored value and advances to the next token
(the call of the tokenizer; with the token `t` read, the result is the stored
value and the state with lookahead `t`). If the name is not a key, it ends in
the fatal error "variable not defined", with store and output untouched, and
returns no value. Hence `int main() { bool b = maybe; }` ends in that fatal
error with no output. -/
theorem C3_undefined_variable (I : Interpreter) (hI : I.currentToken.type = .IDENTIFIER) :
    (∀ v, find I.store I.currentToken.value = some v →
      I.evaluateExpression = I.advance.bind fun I1 => .ok (v, I1)) ∧
    (∀ v t l, find I.store I.currentToken.value = some v → getNextToken I.lexer = .ok (t, l) →
      I.evaluateExpression = .ok (v, { I with lexer := l, currentToken := t })) ∧
    (find I.store I.currentToken.value = none →
      I.evaluateExpression = .fatal (.notDefined I.currentToken.value) I.store I.output ∧
        ∀ r, I.evaluateExpression ≠ .ok r) ∧
    run "int main() \x7b bool b = maybe; \x7d".toList =
      some (.fatal (.notDefined "maybe".toList) [] []) := by
  have hs : ¬ I.currentToken.type = .STRING := by rw [hI]; simp
  have key : ∀ v, find I.store I.currentToken.value = some v →
      I.evaluateExpression = I.advance.bind fun I1 => .ok (v, I1) := by
    intro v hv
    unfold Interpreter.evaluateExpression Interpreter.evaluateVariable
    simp [hI, hv]
  have key2 : find I.store I.currentToken.value = none →
      I.evaluateExpression = .fatal (.notDefined I.currentToken.value) I.store I.output := by
    intro hv
    unfold Interpreter.evaluateExpression Interpreter.evaluateVariable
    simp [hI, hv]
  refine ⟨key, ?_, ?_, by rfl⟩
  · intro v t l hv hg
    rw [key v hv, advance_of_getNextToken hg]
    rfl
  · intro hv
    refine ⟨key2 hv, ?_⟩
    intro r hr
    rw [key2 hv] at hr
    simp at hr

/-- Witness for C3: the identifier `x` with the stored value `7`. -/
theorem C3_undefined_variable_witness :
    Interpreter.evaluateExpression
        ⟨⟨"x;".toList, 1⟩, ⟨.IDENTIFIER, "x".toList⟩, [("x".toList, "7".toList)], []⟩ =
      .ok ("7".toList,
        ⟨⟨"x;".toList, 2⟩, ⟨.SEMICOLON, ";".toList⟩, [("x".toList, "7".toList)], []⟩) :=
  (C3_undefined_variable
    ⟨⟨"x;".toList, 1⟩, ⟨.IDENTIFIER, "x".toList⟩, [("x".toList, "7".toList)], []⟩ rfl).2.1
    "7".toList ⟨.SEMICOLON, ";".toList⟩ ⟨"x;".toList, 2⟩ rfl rfl

/-- Claim C4: for every store and every declaration statement whose declared type
is int and whose initializer evaluates to a string with at least one character
that is not a decimal digit, the statement is rejected with the fatal
"non-integer" error; the store recorded at the exit is the store before the
statement (the assignment never reaches it), so an identifier that was not in
the store before is absent from lookups. -/
theorem C4_int_type_mismatch (I I1 I2 I3 J : Interpreter) (value : List Char)
    (hty : I.currentToken.type = .INT)
    (h1 : I.matchAnyType = .ok I1) (h2 : I1.matchToken .IDENTIFIER = .ok I2)
    (heq : I2.currentToken.type = .EQUAL) (h3 : I2.matchToken .EQUAL = .ok I3)
    (h4 : I3.evaluateExpression = .ok (value, J))
    (hv : ∃ c ∈ value, isdigit c = false) :
    I.statement = .fatal .nonInteger I.store I.output ∧
      ∀ (e : Error) (s : Store) (o : List (List Char)), I.statement = .fatal e s o →
        s = I.store ∧ (find I.store I1.currentToken.value = none →
          find s I1.currentToken.value = none) := by
  obtain ⟨_, _, _, d1, e1, _⟩ := matchAnyType_step h1
  obtain ⟨_, _, _, d2, e2, _⟩ := matchToken_step h2 (by simp)
  obtain ⟨_, _, _, d3, e3, _⟩ := matchToken_step h3 (by simp)
  obtain ⟨_, _, _, d4, e4, _⟩ := evaluateExpression_step h4
  have hnp : ¬ I.currentToken.type = .PRINTLN := by rw [hty]; simp
  have key : I.statement = .fatal .nonInteger I.store I.output := by
    unfold Interpreter.statement Interpreter.declarationStatement
    rw [if_neg hnp, h1, Outcome.bind_ok, h2, Outcome.bind_ok, if_pos heq, h3, Outcome.bind_ok, h4,
      Outcome.bind_ok]
    simp only
    unfold Interpreter.checkAndAssign
    rw [if_pos ⟨hty, isInteger_false_of_non_digit hv⟩, Outcome.bind_fatal, d4, d3, d2, d1, e4, e3,
      e2, e1]
  refine ⟨key, ?_⟩
  intro e s o h
  rw [key] at h
  simp only [Outcome.fatal.injEq] at h
  obtain ⟨_, rfl, _⟩ := h
  exact ⟨rfl, fun h => h⟩

/-- Witness for C4: the statement `int x = 12.5;`. -/
theorem C4_int_type_mismatch_witness :
    Interpreter.statement ⟨⟨"int x = 12.5;".toList, 3⟩, ⟨.INT, "int".toList⟩, [], []⟩ =
      .fatal .nonInteger [] [] :=
  (C4_int_type_mismatch
    ⟨⟨"int x = 12.5;".toList, 3⟩, ⟨.INT, "int".toList⟩, [], []⟩
    ⟨⟨"int x = 12.5;".toList, 5⟩, ⟨.IDENTIFIER, "x".toList⟩, [], []⟩
    ⟨⟨"int x = 12.5;".toList, 7⟩, ⟨.EQUAL, "=".toList⟩, [], []⟩
    ⟨⟨"int x = 12.5;".toList, 12⟩, ⟨.FLOAT, "12.5".toList⟩, [], []⟩
    ⟨⟨"int x = 12.5;".toList, 13⟩, ⟨.SEMICOLON, ";".toList⟩, [], []⟩
    "12.5".toList rfl rfl rfl rfl rfl rfl ⟨'.', by decide, by decide⟩).1

/-- Counterexample to C5 as stated: a bool declaration is accepted although its
initializer is a string literal, and although it is an identifier. -/
theorem C5_bool_declaration_counterexample :
    run "int main() \x7b bool b = \"true\"; \x7d".toList =
        some (.ok ⟨⟨"int main() \x7b bool b = \"true\"; \x7d".toList, 31⟩, ⟨.END, []⟩,
          [("b".toList, "true".toList)], []⟩) ∧
      run "int main() \x7b string s = \"false\"; bool b = s; \x7d".toList =
        some (.ok ⟨⟨"int main() \x7b string s = \"false\"; bool b = s; \x7d".toList, 46⟩,
          ⟨.END, []⟩, [("s".toList, "false".toList), ("b".toList, "false".toList)], []⟩) :=
  ⟨by rfl, by rfl⟩

/-- Claim C5 (amended): a bool declaration `bool id = E;` is accepted only if the
value of the initializer is exactly `true` or `false`: `E` is a literal or
string literal with that text, or an identifier whose stored value is that
text. Every other initializer, whether an identifier (in the store or not) or
a literal, is rejected with a fatal error that leaves store and output as
they were. -/
theorem C5_bool_declaration (I I1 I2 I3 : Interpreter)
    (hty : I.currentToken.type = .BOOL)
    (h1 : I.matchAnyType = .ok I1) (h2 : I1.matchToken .IDENTIFIER = .ok I2)
    (heq : I2.currentToken.type = .EQUAL) (h3 : I2.matchToken .EQUAL = .ok I3) :
    (∀ I5, I.statement = .ok I5 →
      (I3.currentToken.type ≠ .IDENTIFIER ∧ isBool I3.currentToken.value = true) ∨
      (I3.currentToken.type = .IDENTIFIER ∧
        ∃ v, find I.store I3.currentToken.value = some v ∧ isBool v = true)) ∧
    ((I3.currentToken.type ≠ .IDENTIFIER → isBool I3.currentToken.value = false) →
      (I3.currentToken.type = .IDENTIFIER →
        ∀ v, find I.store I3.currentToken.value = some v → isBool v = false) →
      ∃ e, I.statement = .fatal e I.store I.output) := by
  obtain ⟨_, _, _, d1, e1, _⟩ := matchAnyType_step h1
  obtain ⟨_, _, _, d2, e2, _⟩ := matchToken_step h2 (by simp)
  obtain ⟨_, _, _, d3, e3, _⟩ := matchToken_step h3 (by simp)
  have hst : I3.store = I.store := by rw [d3, d2, d1]
  have hout : I3.output = I.output := by rw [e3, e2, e1]
  have hnp : ¬ I.currentToken.type = .PRINTLN := by rw [hty]; simp
  have hunf : I.statement =
      (I3.evaluateExpression.bind fun r =>
        r.2.checkAndAssign .BOOL I1.currentToken.value r.1).bind
          fun I4 => I4.matchToken .SEMICOLON := by
    unfold Interpreter.statement Interpreter.declarationStatement
    rw [if_neg hnp, h1, Outcome.bind_ok, h2, Outcome.bind_ok, if_pos heq, h3, Outcome.bind_ok, hty]
  have hval : ∀ v J, I3.evaluateExpression = .ok (v, J) →
      (I3.currentToken.type ≠ .IDENTIFIER ∧ v = I3.currentToken.value) ∨
      (I3.currentToken.type = .IDENTIFIER ∧ find I.store I3.currentToken.value = some v) := by
    intro v J hJ
    rcases (evaluateExpression_ok hJ).2 with ⟨a, b⟩ | ⟨a, b⟩
    · exact Or.inr ⟨a, by rw [← hst]; exact b⟩
    · refine Or.inl ⟨?_, b⟩
      rcases a with a | a | a | a <;> simp [a]
  refine ⟨?_, ?_⟩
  · intro I5 h5
    rw [hunf] at h5
    obtain ⟨I4, h4, _⟩ := Outcome.bind_eq_ok h5
    obtain ⟨r, hr, hc⟩ := Outcome.bind_eq_ok h4
    obtain ⟨v, J⟩ := r
    have hb : isBool v = true := by
      unfold Interpreter.checkAndAssign at hc
      by_contra hb
      simp only [Bool.not_eq_true] at hb
      simp [hb] at hc
    rcases hval v J hr with ⟨a, b⟩ | ⟨a, b⟩
    · exact Or.inl ⟨a, by rw [← b]; exact hb⟩
    · exact Or.inr ⟨a, v, b, hb⟩
  · intro hlit hid
    rw [hunf]
    cases hr : I3.evaluateExpression with
    | fatal e s o =>
      obtain ⟨rfl, rfl⟩ := evaluateExpression_fatal hr
      exact ⟨e, by simp [hst, hout]⟩
    | ok r =>
      obtain ⟨v, J⟩ := r
      obtain ⟨_, _, _, d4, e4, _⟩ := evaluateExpression_step hr
      have hb : isBool v = false := by
        rcases hval v J hr with ⟨a, b⟩ | ⟨a, b⟩
        · rw [b]; exact hlit a
        · exact hid a v b
      refine ⟨.nonBool, ?_⟩
      simp only [Outcome.bind_ok]
      unfold Interpreter.checkAndAssign
      simp [hb, d4, e4, hst, hout]

/-- Witness for C5: the statement `bool b = 5;` is rejected. -/
theorem C5_bool_declaration_witness :
    ∃ e, Interpreter.statement ⟨⟨"bool b = 5;".toList, 4⟩, ⟨.BOOL, "bool".toList⟩, [], []⟩ =
      .fatal e [] [] :=
  (C5_bool_declaration
    ⟨⟨"bool b = 5;".toList, 4⟩, ⟨.BOOL, "bool".toList⟩, [], []⟩
    ⟨⟨"bool b = 5;".toList, 6⟩, ⟨.IDENTIFIER, "b".toList⟩, [], []⟩
    ⟨⟨"bool b = 5;".toList, 8⟩, ⟨.EQUAL, "=".toList⟩, [], []⟩
    ⟨⟨"bool b = 5;".toList, 10⟩, ⟨.INT, "5".toList⟩, [], []⟩
    rfl rfl rfl rfl rfl).2 (fun _ => by decide) (fun h => absurd h (by decide))

/-- Counterexample to C7 as stated: the source `5 main();` is parsed
successfully, and its first token is the integer literal `5`, not the keyword
`int`. -/
theorem C7_program_shape_counterexample :
    run "5 main();".toList = some (.ok ⟨⟨"5 main();".toList, 9⟩, ⟨.END, []⟩, [], []⟩) ∧
      (tokenStream "5 main();".toList).tokens.head? = some ⟨.INT, "5".toList⟩ :=
  ⟨by rfl, by rfl⟩

/-- Claim C7 (amended): for every source on which parse succeeds, the token stream
starts with a token of kind INT, which is the keyword `int` or an integer
literal (a non-empty string of digits), then an identifier, `(` and `)`,
followed by either a single `;` or a block: `{`, the tokens of a sequence of
statements, and `}`. -/
theorem C7_program_shape (input : List Char) (I : Interpreter)
    (h : run input = some (.ok I)) :
    ∃ (t1 t2 t3 t4 t5 : Token) (rest : List Token),
      (tokenStream input).tokens = t1 :: t2 :: t3 :: t4 :: t5 :: rest ∧
      t1.type = .INT ∧
      (t1.value = "int".toList ∨ (t1.value ≠ [] ∧ ∀ c ∈ t1.value, isdigit c = true)) ∧
      t2.type = .IDENTIFIER ∧ t3.type = .LEFT_PAREN ∧ t4.type = .RIGHT_PAREN ∧
      ((t5.type = .SEMICOLON ∧ rest = []) ∨
        (t5.type = .LEFT_BRACE ∧ ∃ (body : List Token) (t6 : Token),
          rest = body ++ [t6] ∧ IsBody body ∧ t6.type = .RIGHT_BRACE)) := by
  obtain ⟨⟨t1, t2, t3, t4, t5, a1, a2, a3, a4, hshape⟩, _⟩ := run_ok h
  rcases hshape with ⟨hts, h5⟩ | ⟨body, t6, hts, h5, hb, h6⟩
  · exact ⟨t1, t2, t3, t4, t5, [], hts, a1, tokenStream_INT (by rw [hts]; simp) a1, a2, a3, a4,
      Or.inl ⟨h5, rfl⟩⟩
  · exact ⟨t1, t2, t3, t4, t5, body ++ [t6], hts, a1, tokenStream_INT (by rw [hts]; simp) a1,
      a2, a3, a4, Or.inr ⟨h5, body, t6, rfl, hb, h6⟩⟩

/-- Witness for C7: the source `int main();`. -/
theorem C7_program_shape_witness :
    ∃ (t1 t2 t3 t4 t5 : Token) (rest : List Token),
      (tokenStream "int main();".toList).tokens = t1 :: t2 :: t3 :: t4 :: t5 :: rest ∧
      t1.type = .INT ∧
      (t1.value = "int".toList ∨ (t1.value ≠ [] ∧ ∀ c ∈ t1.value, isdigit c = true)) ∧
      t2.type = .IDENTIFIER ∧ t3.type = .LEFT_PAREN ∧ t4.type = .RIGHT_PAREN ∧
      ((t5.type = .SEMICOLON ∧ rest = []) ∨
        (t5.type = .LEFT_BRACE ∧ ∃ (body : List Token) (t6 : Token),
          rest = body ++ [t6] ∧ IsBody body ∧ t6.type = .RIGHT_BRACE)) :=
  C7_program_shape "int main();".toList ⟨⟨"int main();".toList, 11⟩, ⟨.END, []⟩, [], []⟩ (by rfl)

/-- Claim C8: trailing tokens are fatal. Whenever parse succeeds on a source, the
lookahead token at the end is END, the cursor is at or past the end of the
input and the tokenizer produces END again; and for every source whose token
stream is the token stream of a successfully parsed program followed by at
least one more token, the run ends in a fatal error, as for `int main(); x`
and `int main() {} ;`. -/
theorem C8_trailing_tokens :
    (∀ (input : List Char) (I : Interpreter), run input = some (.ok I) →
      I.currentToken = ⟨.END, []⟩ ∧ I.lexer.input = input ∧ input.length ≤ I.lexer.position ∧
        getNextToken I.lexer = .ok (⟨.END, []⟩, I.lexer)) ∧
    (∀ (p src : List Char) (I : Interpreter) (extra : List Token), run p = some (.ok I) →
      (tokenStream src).tokens = (tokenStream p).tokens ++ extra → extra ≠ [] →
        ∃ e s o, run src = some (.fatal e s o)) ∧
    run "int main(); x".toList =
      some (.fatal (.unexpectedToken .IDENTIFIER .END "x".toList) [] []) ∧
    run "int main() \x7b\x7d ;".toList =
      some (.fatal (.unexpectedToken .SEMICOLON .END ";".toList) [] []) := by
  refine ⟨?_, ?_, by rfl, by rfl⟩
  · intro input I h
    obtain ⟨_, _, _, h4, h5, h6⟩ := run_ok h
    refine ⟨h4, h6, h5, ?_⟩
    exact getNextToken_of_rest_nil ((Lexer.rest_nil_iff _).2 (by rw [h6]; exact h5))
  · intro p src I extra hp hts hne
    obtain ⟨r, hr⟩ := run_total src
    cases r with
    | fatal e s o => exact ⟨e, s, o, hr⟩
    | ok J =>
      exfalso
      have h1 := (run_ok hp).1
      have h2 := (run_ok hr).1
      rw [hts] at h2
      exact hne (IsProgram.prefix_free h1 h2)

/-- Witness for C8: the program `int main();` followed by the token `x`. -/
theorem C8_trailing_tokens_witness :
    ∃ e s o, run "int main(); x".toList = some (.fatal e s o) :=
  C8_trailing_tokens.2.1 "int main();".toList "int main(); x".toList
    ⟨⟨"int main();".toList, 11⟩, ⟨.END, []⟩, [], []⟩ [⟨.IDENTIFIER, "x".toList⟩]
    (by rfl) (by rfl) (by simp)

/-- Claim C10: each `println` statement emits exactly one line. For every source on
which parse succeeds, the tokenizer reads the whole source without a lexical
error, and the number of output entries written equals the number of
`println` keyword tokens in the source's token stream. -/
theorem C10_println_count (input : List Char) (I : Interpreter)
    (h : run input = some (.ok I)) :
    (tokenStream input).error = none ∧
      I.output.length = countPrintln (tokenStream input).tokens := by
  obtain ⟨_, h2, h3, _⟩ := run_ok h
  exact ⟨h2, h3⟩

/-- Witness for C10: one `println` statement, one line. -/
theorem C10_println_count_witness :
    (tokenStream "int main() \x7b println(\"a\"); \x7d".toList).error = none ∧
      ["a".toList].length =
        countPrintln (tokenStream "int main() \x7b println(\"a\"); \x7d".toList).tokens :=
  C10_println_count "int main() \x7b println(\"a\"); \x7d".toList
    ⟨⟨"int main() \x7b println(\"a\"); \x7d".toList, 28⟩, ⟨.END, []⟩, [], ["a".toList]⟩ (by rfl)

/-! ## String literals -/

theorem escapeChar_eq (e : Char) :
    escapeChar e = if e = 'n' then '\n' else if e = 't' then '\t' else e := rfl

theorem readStringLoop_plain_step {c : Char} (h1 : c ≠ '"') (h2 : c ≠ '\\')
    (rest acc : List Char) (p : Nat) :
    readStringLoop (c :: rest) acc p = readStringLoop rest (acc ++ [c]) (p + 1) := by
  conv_lhs => unfold readStringLoop
  simp only [h1, h2, if_false]

theorem readStringLoop_escape_step (e : Char) (rest acc : List Char) (p : Nat) :
    readStringLoop ('\\' :: e :: rest) acc p =
      readStringLoop rest (acc ++ [escapeChar e]) (p + 2) := by
  conv_lhs => unfold readStringLoop
  simp

theorem resolveEscapes_plain_step {c : Char} (h2 : c ≠ '\\') (rest : List Char) :
    resolveEscapes (c :: rest) = c :: resolveEscapes rest := by
  conv_lhs => unfold resolveEscapes
  simp only [h2, if_false]

theorem resolveEscapes_escape_step (e : Char) (rest : List Char) :
    resolveEscapes ('\\' :: e :: rest) = escapeChar e :: resolveEscapes rest := by
  conv_lhs => unfold resolveEscapes
  simp [escapeChar_eq]

/-- The loop of `readString` over a literal body resolves its escapes and then
goes on with what follows the body. -/
theorem readStringLoop_body (n : Nat) : ∀ (b tail acc : List Char) (p : Nat),
    b.length ≤ n → isLiteralBody b = true →
      readStringLoop (b ++ tail) acc p =
        readStringLoop tail (acc ++ resolveEscapes b) (p + b.length) := by
  induction n with
  | zero =>
    intro b tail acc p hn _
    have : b = [] := List.length_eq_zero.1 (Nat.le_zero.1 hn)
    subst this
    simp [resolveEscapes]
  | succ n ih =>
    intro b tail acc p hn hb
    cases b with
    | nil => simp [resolveEscapes]
    | cons c b =>
      unfold isLiteralBody at hb
      split_ifs at hb with h1 h2
      · cases b with
        | nil => simp at hb
        | cons e b1 =>
          simp only at hb
          subst h2
          show readStringLoop ('\\' :: e :: (b1 ++ tail)) acc p = _
          rw [readStringLoop_escape_step, ih b1 tail _ _ (by simp at hn; omega) hb,
            resolveEscapes_escape_step]
          have e2 : p + 2 + b1.length = p + ('\\' :: e :: b1).length := by
            simp only [List.length_cons]; omega
          rw [e2, List.append_assoc, List.singleton_append]
      · show readStringLoop (c :: (b ++ tail)) acc p = _
        rw [readStringLoop_plain_step h1 h2, ih b tail _ _ (by simp at hn; omega) hb,
          resolveEscapes_plain_step h2]
        have e2 : p + 1 + b.length = p + (c :: b).length := by
          simp only [List.length_cons]; omega
        rw [e2, List.append_assoc, List.singleton_append]

/-- Every text splits into a literal body and what stops the scan: the end of
the input, a closing double quote, or a backslash that is the last character. -/
theorem literalBody_split (n : Nat) : ∀ r : List Char, r.length ≤ n →
    ∃ b tail, r = b ++ tail ∧ isLiteralBody b = true ∧
      (tail = [] ∨ tail = ['\\'] ∨ ∃ r1, tail = '"' :: r1) := by
  induction n with
  | zero =>
    intro r hn
    have : r = [] := List.length_eq_zero.1 (Nat.le_zero.1 hn)
    exact ⟨[], [], by simp [this], rfl, Or.inl rfl⟩
  | succ n ih =>
    intro r hn
    cases r with
    | nil => exact ⟨[], [], rfl, rfl, Or.inl rfl⟩
    | cons c r =>
      by_cases h1 : c = '"'
      · exact ⟨[], c :: r, rfl, rfl, Or.inr (Or.inr ⟨r, by rw [h1]⟩)⟩
      · by_cases h2 : c = '\\'
        · cases r with
          | nil => exact ⟨[], [c], rfl, rfl, Or.inr (Or.inl (by rw [h2]))⟩
          | cons e r1 =>
            obtain ⟨b, tail, hr, hb, ht⟩ := ih r1 (by simp at hn; omega)
            refine ⟨c :: e :: b, tail, by rw [hr]; rfl, ?_, ht⟩
            unfold isLiteralBody
            simp [h1, h2, hb]
        · obtain ⟨b, tail, hr, hb, ht⟩ := ih r (by simp at hn; omega)
          refine ⟨c :: b, tail, by rw [hr]; rfl, ?_, ht⟩
          unfold isLiteralBody
          simp [h1, h2, hb]

theorem readStringLoop_closed {b r : List Char} (hb : isLiteralBody b = true)
    (acc : List Char) (p : Nat) :
    readStringLoop (b ++ '"' :: r) acc p = .ok (acc ++ resolveEscapes b, p + b.length) := by
  rw [readStringLoop_body _ b _ acc p (Nat.le_refl _) hb]
  unfold readStringLoop
  simp

theorem readStringLoop_open {b : List Char} (hb : isLiteralBody b = true)
    (acc : List Char) (p : Nat) :
    readStringLoop b acc p = .ok (acc ++ resolveEscapes b, p + b.length) := by
  have := readStringLoop_body _ b [] acc p (Nat.le_refl _) hb
  rw [List.append_nil] at this
  rw [this]
  unfold readStringLoop
  rfl

theorem readStringLoop_backslash {b : List Char} (hb : isLiteralBody b = true)
    (acc : List Char) (p : Nat) :
    readStringLoop (b ++ ['\\']) acc p = .error .incompleteEscape := by
  rw [readStringLoop_body _ b _ acc p (Nat.le_refl _) hb]
  unfold readStringLoop
  simp

/-- The loop of `readString` fails exactly when the scan of the literal reaches
a backslash that is the last character of the input. -/
theorem readStringLoop_error_iff (r acc : List Char) (p : Nat) :
    (∃ e, readStringLoop r acc p = .error e) ↔
      ∃ b, isLiteralBody b = true ∧ r = b ++ ['\\'] := by
  constructor
  · rintro ⟨e, he⟩
    obtain ⟨b, tail, hr, hb, ht⟩ := literalBody_split _ r (Nat.le_refl _)
    rcases ht with rfl | rfl | ⟨r1, rfl⟩
    · rw [hr, List.append_nil, readStringLoop_open hb] at he
      simp at he
    · exact ⟨b, hb, hr⟩
    · rw [hr, readStringLoop_closed hb] at he
      simp at he
  · rintro ⟨b, hb, rfl⟩
    exact ⟨_, readStringLoop_backslash hb acc p⟩

theorem getNextToken_quote {l : Lexer} {r : List Char} (h : l.rest = '"' :: r) :
    getNextToken l = readString l := by
  rw [getNextToken_of_not_space h (by decide), getNextTokenLoop_one h (by decide)]
  rfl

theorem Lexer.length_of_rest {l : Lexer} {r : List Char} (h : l.rest = r) (hne : r ≠ []) :
    l.input.length = l.position + r.length := by
  have h1 : (l.input.drop l.position).length = r.length := by
    unfold Lexer.rest at h; rw [h]
  rw [List.length_drop] at h1
  have h2 : 0 < r.length := List.length_pos.2 hne
  omega

/-- Claim C11: string-literal escape resolution. For every input in which the
cursor is on an opening double quote and the literal body `b` is closed by a
double quote (the body holds no unescaped double quote and no unpaired
backslash), the tokenizer returns a string-literal token whose text is `b`
with each pair backslash + c replaced by newline for `n`, by tab for `t` and
by c itself otherwise, every other character copied unchanged; the cursor is
left immediately after the closing quote. -/
theorem C11_string_escapes (l : Lexer) (b r : List Char)
    (h : l.rest = '"' :: (b ++ '"' :: r)) (hb : isLiteralBody b = true) :
    getNextToken l =
        .ok (⟨.STRING, resolveEscapes b⟩, ⟨l.input, l.position + b.length + 2⟩) ∧
      Lexer.rest ⟨l.input, l.position + b.length + 2⟩ = r ∧
      resolveEscapes "a\\nb\\tc\\\"d\\\\e\\qf".toList = "a\nb\tc\"d\\eqf".toList := by
  refine ⟨?_, ?_, by rfl⟩
  · rw [getNextToken_quote h]
    have hd : l.input.drop (l.position + 1) = b ++ '"' :: r := rest_succ h
    simp only [readString, hd, readStringLoop_closed hb]
    simp only [List.nil_append, Except.ok.injEq, Prod.mk.injEq, Lexer.mk.injEq, true_and]
    omega
  · rw [Nat.add_assoc, Lexer.rest_drop, h]
    have h2 : '"' :: (b ++ '"' :: r) = ('"' :: (b ++ ['"'])) ++ r := by simp
    rw [h2]
    exact List.drop_left' (by simp)

/-- Witness for C11: the literal `"a\nb"` followed by `;`. -/
theorem C11_string_escapes_witness :
    getNextToken ⟨"\"a\\nb\";".toList, 0⟩ =
      .ok (⟨.STRING, "a\nb".toList⟩, ⟨"\"a\\nb\";".toList, 6⟩) :=
  (C11_string_escapes ⟨"\"a\\nb\";".toList, 0⟩ "a\\nb".toList ";".toList (by rfl) (by rfl)).1

/-- Claim C20: an unterminated string literal is not an error. For every input
in which the cursor is on an opening double quote, no unescaped double quote
follows before the end of the input and the input does not end in an unpaired
backslash (the remainder `b` is a literal body), the tokenizer returns a
string-literal token whose text is the escape-resolved remainder of the
input, and every later call returns END; so `"abc` yields the string literal
`abc` and then END. -/
theorem C20_unterminated_string (l : Lexer) (b : List Char)
    (h : l.rest = '"' :: b) (hb : isLiteralBody b = true) :
    getNextToken l = .ok (⟨.STRING, resolveEscapes b⟩, ⟨l.input, l.input.length + 1⟩) ∧
      (∀ n, getNextToken ⟨l.input, l.input.length + 1 + n⟩ =
        .ok (⟨.END, []⟩, ⟨l.input, l.input.length + 1 + n⟩)) ∧
      getNextToken ⟨"\"abc".toList, 0⟩ = .ok (⟨.STRING, "abc".toList⟩, ⟨"\"abc".toList, 5⟩) ∧
      getNextToken ⟨"\"abc".toList, 5⟩ = .ok (⟨.END, []⟩, ⟨"\"abc".toList, 5⟩) := by
  refine ⟨?_, ?_, by rfl, by rfl⟩
  · rw [getNextToken_quote h]
    have hd : l.input.drop (l.position + 1) = b := rest_succ h
    have hlen := Lexer.length_of_rest h (by simp)
    simp only [readString, hd, readStringLoop_open hb]
    simp only [List.nil_append, Except.ok.injEq, Prod.mk.injEq, Lexer.mk.injEq, true_and]
    simp only [List.length_cons] at hlen
    omega
  · intro n
    exact getNextToken_of_rest_nil ((Lexer.rest_nil_iff _).2 (by simp only; omega))

/-- Witness for C20: the input `"ab\"` whose last quote is escaped. -/
theorem C20_unterminated_string_witness :
    getNextToken ⟨"\"ab\\\"".toList, 0⟩ =
      .ok (⟨.STRING, "ab\"".toList⟩, ⟨"\"ab\\\"".toList, 6⟩) :=
  (C20_unterminated_string ⟨"\"ab\\\"".toList, 0⟩ "ab\\\"".toList (by rfl) (by rfl)).1

/-! ## Numeric literals -/

/-- What the loop of `readNumber` consumes: a prefix `t` of digits and dots
with at most one dot in all, stopped by the end of the input, by a character
that is neither digit nor dot, or by a second dot. -/
theorem readNumberLoop_spec (r : List Char) : ∀ (hasDot : Bool) (acc : List Char) (p : Nat),
    ∃ t r1, r = t ++ r1 ∧
      readNumberLoop r hasDot acc p = (hasDot || decide ('.' ∈ t), acc ++ t, p + t.length) ∧
      (∀ c ∈ t, isdigit c = true ∨ c = '.') ∧
      t.count '.' + (if hasDot = true then 1 else 0) ≤ 1 ∧
      (r1 = [] ∨ ∃ c r2, r1 = c :: r2 ∧
        ((isdigit c || c == '.') = false ∨
          (c = '.' ∧ (hasDot || decide ('.' ∈ t)) = true))) := by
  induction r with
  | nil =>
    intro hasDot acc p
    refine ⟨[], [], rfl, by simp [readNumberLoop], by simp, ?_, Or.inl rfl⟩
    cases hasDot <;> simp
  | cons c r ih =>
    intro hasDot acc p
    by_cases h1 : (isdigit c || c == '.') = true
    · by_cases h2 : (c == '.' && hasDot) = true
      · simp only [Bool.and_eq_true, beq_iff_eq] at h2
        refine ⟨[], c :: r, rfl, ?_, by simp, ?_, Or.inr ⟨c, r, rfl, Or.inr ⟨h2.1, by simp [h2.2]⟩⟩⟩
        · rw [readNumberLoop]
          simp [h1, h2.1, h2.2]
        · simp [h2.2]
      · obtain ⟨t, r1, hr, hres, hall, hcount, hstop⟩ := ih (hasDot || c == '.') (acc ++ [c]) (p + 1)
        have hor : ((hasDot || c == '.') || decide ('.' ∈ t)) =
            (hasDot || decide ('.' ∈ c :: t)) := by
          by_cases hc : c = '.'
          · subst hc; simp
          · have hne : (c == '.') = false := by simpa using hc
            have hne2 : ¬ '.' = c := fun h => hc h.symm
            rw [hne, Bool.or_false]
            simp [hne2]
        refine ⟨c :: t, r1, by rw [hr]; rfl, ?_, ?_, ?_, ?_⟩
        · rw [readNumberLoop]
          simp only [h1, h2, if_true, Bool.false_eq_true, if_false]
          rw [hres, hor]
          simp only [List.append_assoc, List.singleton_append, List.length_cons, Prod.mk.injEq,
            true_and]
          omega
        · intro x hx
          rcases List.mem_cons.1 hx with rfl | hx
          · simp only [Bool.or_eq_true, beq_iff_eq] at h1
            exact h1
          · exact hall x hx
        · by_cases hc : c = '.'
          · subst hc
            have hd : hasDot = false := by
              cases hasDot
              · rfl
              · simp at h2
            subst hd
            simp only [Bool.false_or, beq_self_eq_true, if_true] at hcount
            simp only [List.count_cons_self, Bool.false_eq_true, if_false]
            omega
          · have hne : (c == '.') = false := by simpa using hc
            rw [hne, Bool.or_false] at hcount
            rw [List.count_cons_of_ne (fun h => hc h.symm)]
            exact hcount
        · rw [hor] at hstop
          exact hstop
    · simp only [Bool.not_eq_true] at h1
      refine ⟨[], c :: r, rfl, ?_, by simp, ?_, Or.inr ⟨c, r, rfl, Or.inl h1⟩⟩
      · rw [readNumberLoop]
        simp [h1]
      · cases hasDot <;> simp

/-- The text read by `readNumber` is the longest prefix of digits and dots
with at most one dot. -/
theorem number_prefix_longest {rest t r1 : List Char} (hr : rest = t ++ r1)
    (hstop : r1 = [] ∨ ∃ c r2, r1 = c :: r2 ∧
      ((isdigit c || c == '.') = false ∨ (c = '.' ∧ '.' ∈ t)))
    (t1 : List Char) (hp : t1 <+: rest) (hall : ∀ x ∈ t1, isdigit x = true ∨ x = '.')
    (hcount : t1.count '.' ≤ 1) : t1.length ≤ t.length := by
  by_contra hlt
  have hle : t.length ≤ t1.length := by omega
  have htp : t <+: t1 := List.prefix_of_prefix_length_le (by rw [hr]; exact List.prefix_append _ _)
    hp hle
  obtain ⟨s, hs⟩ := htp
  subst hs
  rw [hr] at hp
  have hs1 : s <+: r1 := (List.prefix_append_right_inj t).1 hp
  have hsne : s ≠ [] := by
    intro h0
    rw [h0] at hlt
    simp at hlt
  rcases hstop with h0 | ⟨c, r2, hc, hstop⟩
  · rw [h0] at hs1
    exact hsne (List.prefix_nil.1 hs1)
  · cases s with
    | nil => exact hsne rfl
    | cons x s1 =>
      rw [hc] at hs1
      obtain ⟨hx, _⟩ := List.cons_prefix_cons.1 hs1
      subst hx
      rcases hstop with h1 | ⟨h1, h2⟩
      · have := hall x (by simp)
        rcases this with h3 | h3
        · simp [h3] at h1
        · simp [h3] at h1
      · subst h1
        have h3 : 1 ≤ t.count '.' := List.count_pos_iff.2 h2
        rw [List.count_append, List.count_cons_self] at hcount
        omega

theorem getNextToken_number {l : Lexer} {c : Char} {r : List Char} (h : l.rest = c :: r)
    (hc : isdigit c = true ∨ c = '.') :
    ∃ t r1, l.rest = t ++ r1 ∧
      getNextToken l =
        .ok (⟨if '.' ∈ t then .FLOAT else .INT, t⟩, ⟨l.input, l.position + t.length⟩) ∧
      t ≠ [] ∧ (∀ x ∈ t, isdigit x = true ∨ x = '.') ∧ t.count '.' ≤ 1 ∧
      (r1 = [] ∨ ∃ c1 r2, r1 = c1 :: r2 ∧
        ((isdigit c1 || c1 == '.') = false ∨ (c1 = '.' ∧ '.' ∈ t))) := by
  have hcb : (isdigit c || c == '.') = true := by
    rcases hc with hc | hc <;> simp [hc]
  have hsp : isspace c = false := by
    rcases hc with hc | hc
    · exact isdigit_not_space hc
    · subst hc; decide
  obtain ⟨t, r1, hr, hres, hall, hcount, hstop⟩ := readNumberLoop_spec l.rest false [] l.position
  refine ⟨t, r1, hr, ?_, ?_, hall, by simpa using hcount, ?_⟩
  · rw [getNextToken_of_not_space h hsp, getNextTokenLoop_one h hsp]
    simp only [hcb, if_true]
    unfold readNumber
    rw [hres]
    simp only [Bool.false_or, decide_eq_true_eq, List.nil_append]
  · intro h0
    subst h0
    rw [h, List.nil_append] at hr
    rcases hstop with h1 | ⟨c1, r2, h1, h2⟩
    · rw [h1] at hr; simp at hr
    · rw [h1] at hr
      simp only [List.cons.injEq] at hr
      rw [← hr.1] at h2
      rcases h2 with h2 | h2
      · rw [hcb] at h2; simp at h2
      · simp at h2
  · rcases hstop with h1 | ⟨c1, r2, h1, h2⟩
    · exact Or.inl h1
    · refine Or.inr ⟨c1, r2, h1, ?_⟩
      rcases h2 with h2 | h2
      · exact Or.inl h2
      · exact Or.inr ⟨h2.1, by simpa using h2.2⟩

/-- Claim C12: numeric-literal lexing. For every input whose character at the
cursor is a decimal digit or a dot, the tokenizer returns a token whose text
`t` is the longest prefix of the remaining input that consists only of digits
and dots and contains at most one dot; its kind is FLOAT if `t` contains a dot
and INT otherwise; the cursor advances by exactly the length of `t`. A second
dot is not consumed: it is the first character of the text of the next token,
as in `1.2.3`, which yields the float `1.2` and then the float `.3`. -/
theorem C12_numeric_literal (l : Lexer) (c : Char) (r : List Char) (h : l.rest = c :: r)
    (hc : isdigit c = true ∨ c = '.') :
    ∃ t r1, l.rest = t ++ r1 ∧
      getNextToken l =
        .ok (⟨if '.' ∈ t then .FLOAT else .INT, t⟩, ⟨l.input, l.position + t.length⟩) ∧
      (∀ x ∈ t, isdigit x = true ∨ x = '.') ∧ t.count '.' ≤ 1 ∧
      (∀ t1, t1 <+: l.rest → (∀ x ∈ t1, isdigit x = true ∨ x = '.') → t1.count '.' ≤ 1 →
        t1.length ≤ t.length) ∧
      (∀ r2, r1 = '.' :: r2 → ∃ t2 l2,
        getNextToken ⟨l.input, l.position + t.length⟩ = .ok (⟨.FLOAT, '.' :: t2⟩, l2)) ∧
      getNextToken ⟨"1.2.3".toList, 0⟩ = .ok (⟨.FLOAT, "1.2".toList⟩, ⟨"1.2.3".toList, 3⟩) ∧
      getNextToken ⟨"1.2.3".toList, 3⟩ = .ok (⟨.FLOAT, ".3".toList⟩, ⟨"1.2.3".toList, 5⟩) := by
  obtain ⟨t, r1, hr, hg, hne, hall, hcount, hstop⟩ := getNextToken_number h hc
  refine ⟨t, r1, hr, hg, hall, hcount, number_prefix_longest hr hstop, ?_, by rfl, by rfl⟩
  intro r2 hr2
  have hrest : Lexer.rest ⟨l.input, l.position + t.length⟩ = '.' :: r2 := by
    rw [Lexer.rest_drop, hr, List.drop_left, hr2]
  obtain ⟨t2, r3, hr3, hg2, hne2, _, _, _⟩ := getNextToken_number hrest (Or.inr rfl)
  cases t2 with
  | nil => exact absurd rfl hne2
  | cons x t3 =>
    rw [hrest] at hr3
    simp only [List.cons_append, List.cons.injEq] at hr3
    obtain ⟨hx, _⟩ := hr3
    subst hx
    refine ⟨t3, ⟨l.input, l.position + t.length + ('.' :: t3).length⟩, ?_⟩
    rw [hg2]
    simp

/-- Witness for C12: the literal `12.5` followed by `;`. -/
theorem C12_numeric_literal_witness :
    ∃ t r1, Lexer.rest ⟨"12.5;".toList, 0⟩ = t ++ r1 ∧
      getNextToken ⟨"12.5;".toList, 0⟩ =
        .ok (⟨if '.' ∈ t then .FLOAT else .INT, t⟩, ⟨"12.5;".toList, 0 + t.length⟩) ∧
      (∀ x ∈ t, isdigit x = true ∨ x = '.') ∧ t.count '.' ≤ 1 :=
  match C12_numeric_literal ⟨"12.5;".toList, 0⟩ '1' "2.5;".toList (by rfl) (Or.inl (by decide))
    with
  | ⟨t, r1, h1, h2, h3, h4, _⟩ => ⟨t, r1, h1, h2, h3, h4⟩

/-! ## Identifiers and keywords -/

theorem readIdentifierLoop_takeWhile (r acc : List Char) (p : Nat) :
    readIdentifierLoop r acc p =
      (acc ++ r.takeWhile (fun x => isalnum x || x == '_'),
        p + (r.takeWhile (fun x => isalnum x || x == '_')).length) := by
  induction r generalizing acc p with
  | nil => simp [readIdentifierLoop]
  | cons c r ih =>
    rw [readIdentifierLoop]
    by_cases hc : (isalnum c || c == '_') = true
    · simp only [hc, if_true, List.takeWhile_cons_of_pos]
      rw [ih]
      simp only [List.append_assoc, List.singleton_append, List.length_cons, Prod.mk.injEq,
        true_and]
      omega
    · simp only [hc, Bool.false_eq_true, if_false]
      have : List.takeWhile (fun x => isalnum x || x == '_') (c :: r) = [] :=
        List.takeWhile_cons_of_neg hc
      rw [this]
      simp

theorem takeWhile_longest (p : Char → Bool) : ∀ (r w1 : List Char), w1 <+: r →
    (∀ x ∈ w1, p x = true) → w1.length ≤ (r.takeWhile p).length := by
  intro r
  induction r with
  | nil =>
    intro w1 hp _
    rw [List.prefix_nil.1 hp]
    simp
  | cons c r ih =>
    intro w1 hp hall
    cases w1 with
    | nil => simp
    | cons x w2 =>
      obtain ⟨hx, hp2⟩ := List.cons_prefix_cons.1 hp
      subst hx
      have hx := hall x (by simp)
      rw [List.takeWhile_cons_of_pos hx]
      simp only [List.length_cons, Nat.add_le_add_iff_right]
      exact ih w2 hp2 fun y hy => hall y (by simp [hy])

theorem getNextToken_word {l : Lexer} {c : Char} {r : List Char} (h : l.rest = c :: r)
    (hc : isalpha c = true) :
    getNextToken l =
      .ok (⟨keywordType (l.rest.takeWhile fun x => isalnum x || x == '_'),
          l.rest.takeWhile fun x => isalnum x || x == '_'⟩,
        ⟨l.input, l.position + (l.rest.takeWhile fun x => isalnum x || x == '_').length⟩) := by
  obtain ⟨s1, s2, s3, s4, s5, s6, s7, s8⟩ := isalpha_not_special hc
  have hcond : (isdigit c || c == '.') = false := by simp [isalpha_not_digit hc, s1]
  rw [getNextToken_of_not_space h (isalpha_not_space hc),
    getNextTokenLoop_one h (isalpha_not_space hc)]
  simp only [hcond, s2, s3, s4, s5, s6, s7, s8, hc, Bool.false_eq_true, if_false, if_true]
  rw [readIdentifier_eq, readIdentifierLoop_takeWhile]
  simp

/-- Claim C13: identifier and keyword lexing. For every input whose character
at the cursor is alphabetic, the tokenizer returns a token whose text `w` is
the longest prefix of the remaining input made of alphanumeric characters and
`_`, advances the cursor by the length of `w`, and classifies it as PRINTLN
for `println`, as INT, FLOAT, BOOL, STRING for `int`, `float`, `bool`,
`string`, as BOOL for `true` and `false`, and as IDENTIFIER for every other
`w`; the match is exact and case-sensitive, so `Int`, `printlnx` and `true_`
are identifiers. -/
theorem C13_identifier_keyword (l : Lexer) (c : Char) (r : List Char) (h : l.rest = c :: r)
    (hc : isalpha c = true) :
    ∃ (w r1 : List Char) (ty : TokenType), l.rest = w ++ r1 ∧
      getNextToken l = .ok (⟨ty, w⟩, ⟨l.input, l.position + w.length⟩) ∧
      (∀ x ∈ w, isalnum x = true ∨ x = '_') ∧
      (∀ w1, w1 <+: l.rest → (∀ x ∈ w1, isalnum x = true ∨ x = '_') →
        w1.length ≤ w.length) ∧
      (w = "println".toList → ty = .PRINTLN) ∧ (w = "int".toList → ty = .INT) ∧
      (w = "float".toList → ty = .FLOAT) ∧ (w = "bool".toList → ty = .BOOL) ∧
      (w = "string".toList → ty = .STRING) ∧
      (w = "true".toList ∨ w = "false".toList → ty = .BOOL) ∧
      (w ∉ keywords → ty = .IDENTIFIER) ∧
      getNextToken ⟨"Int x".toList, 0⟩ =
        .ok (⟨.IDENTIFIER, "Int".toList⟩, ⟨"Int x".toList, 3⟩) ∧
      getNextToken ⟨"printlnx(".toList, 0⟩ =
        .ok (⟨.IDENTIFIER, "printlnx".toList⟩, ⟨"printlnx(".toList, 8⟩) ∧
      getNextToken ⟨"true_;".toList, 0⟩ =
        .ok (⟨.IDENTIFIER, "true_".toList⟩, ⟨"true_;".toList, 5⟩) := by
  refine ⟨l.rest.takeWhile fun x => isalnum x || x == '_',
    l.rest.dropWhile fun x => isalnum x || x == '_', _,
    (List.takeWhile_append_dropWhile _ _).symm, getNextToken_word h hc, ?_, ?_, ?_, ?_, ?_, ?_,
    ?_, ?_, ?_, by rfl, by rfl, by rfl⟩
  · intro x hx
    have := List.mem_takeWhile_imp hx
    simpa using this
  · intro w1 hp hall
    exact takeWhile_longest _ _ w1 hp fun x hx => by simpa using hall x hx
  · intro hw; rw [hw]; rfl
  · intro hw; rw [hw]; rfl
  · intro hw; rw [hw]; rfl
  · intro hw; rw [hw]; rfl
  · intro hw; rw [hw]; rfl
  · rintro (hw | hw) <;> rw [hw] <;> rfl
  · exact keywordType_of_not_keyword

/-- Witness for C13: the keyword `println` followed by `(`. -/
theorem C13_identifier_keyword_witness :
    ∃ (w r1 : List Char) (ty : TokenType), Lexer.rest ⟨"println(".toList, 0⟩ = w ++ r1 ∧
      getNextToken ⟨"println(".toList, 0⟩ = .ok (⟨ty, w⟩, ⟨"println(".toList, 0 + w.length⟩) ∧
      (w = "println".toList → ty = .PRINTLN) :=
  match C13_identifier_keyword ⟨"println(".toList, 0⟩ 'p' "rintln(".toList (by rfl) (by decide)
    with
  | ⟨w, r1, ty, h1, h2, _, _, h5, _⟩ => ⟨w, r1, ty, h1, h2, h5⟩

/-! ## The type validators -/

theorem isInteger_iff (v : List Char) : isInteger v = true ↔ ∀ c ∈ v, isdigit c = true := by
  induction v with
  | nil => simp [isInteger]
  | cons a v ih =>
    by_cases ha : isdigit a = true
    · simp [isInteger, ha, ih]
    · simp [isInteger, ha]

theorem isFloatLoop_iff (v : List Char) : ∀ hasDot : Bool,
    isFloatLoop v hasDot = true ↔
      (∀ c ∈ v, isdigit c = true ∨ c = '.') ∧
        v.count '.' + (if hasDot = true then 1 else 0) ≤ 1 := by
  induction v with
  | nil => intro hasDot; cases hasDot <;> simp [isFloatLoop]
  | cons a v ih =>
    intro hasDot
    rw [isFloatLoop]
    by_cases ha : a = '.'
    · subst ha
      cases hasDot
      · simp only [if_true, Bool.false_eq_true, if_false, ih true, List.mem_cons,
          forall_eq_or_imp, or_true, true_and, List.count_cons_self, Nat.add_zero]
      · simp
    · have hne : ¬ '.' = a := fun h => ha h.symm
      by_cases hd : isdigit a = true
      · simp only [ha, if_false, hd, Bool.not_true, Bool.false_eq_true, ih hasDot, List.mem_cons,
          forall_eq_or_imp, true_or, true_and, List.count_cons_of_ne hne]
      · simp [ha, hd]

/-- Claim C15: float validation equals its stated definition. For every string
`v`, the float check accepts `v` if and only if every character of `v` is a
decimal digit or a dot and `v` contains at most one dot; a declaration with
declared type float is accepted exactly for the values the check accepts, so
for `5`, `1.5`, `.` and the empty string, and it is rejected for `1.2.3`,
`true` and `1a`. -/
theorem C15_float_validation :
    (∀ v : List Char, isFloat v = true ↔
      (∀ c ∈ v, isdigit c = true ∨ c = '.') ∧ v.count '.' ≤ 1) ∧
    (∀ (I : Interpreter) (id v : List Char), isFloat v = true →
      I.checkAndAssign .FLOAT id v = .ok { I with store := assign I.store id v }) ∧
    (∀ (I : Interpreter) (id v : List Char), isFloat v = false →
      I.checkAndAssign .FLOAT id v = .fatal .nonFloat I.store I.output) ∧
    isFloat "5".toList = true ∧ isFloat "1.5".toList = true ∧ isFloat ".".toList = true ∧
    isFloat [] = true ∧ isFloat "1.2.3".toList = false ∧ isFloat "true".toList = false ∧
    isFloat "1a".toList = false := by
  refine ⟨?_, ?_, ?_, by decide, by decide, by decide, by decide, by decide, by decide,
    by decide⟩
  · intro v
    unfold isFloat
    rw [isFloatLoop_iff]
    simp
  · intro I id v hv
    unfold Interpreter.checkAndAssign
    simp [hv]
  · intro I id v hv
    unfold Interpreter.checkAndAssign
    simp [hv]

/-- Claim C19: the numeric literals of the tokenizer agree with the type
validators. For every token produced by the tokenizer when the first
character after whitespace is a digit or a dot, the float check accepts its
text, the integer check accepts its text if and only if its kind is INT, and
its kind is INT exactly when the text contains no dot. Therefore the check of
a declaration `int id = L;` passes exactly when `L` contains no dot, and the
check of `float id = L;` passes for every numeric literal `L`. -/
theorem C19_literals_validate (l : Lexer) (c : Char) (r : List Char) (t : Token) (l1 : Lexer)
    (h : l.rest.dropWhile isspace = c :: r) (hc : isdigit c = true ∨ c = '.')
    (hg : getNextToken l = .ok (t, l1)) :
    isFloat t.value = true ∧ (isInteger t.value = true ↔ t.type = .INT) ∧
      (t.type = .INT ↔ '.' ∉ t.value) ∧ (t.type = .INT ∨ t.type = .FLOAT) ∧
      (∀ (I : Interpreter) (id : List Char),
        I.checkAndAssign .FLOAT id t.value = .ok { I with store := assign I.store id t.value }) ∧
      (∀ (I : Interpreter) (id : List Char), '.' ∉ t.value →
        I.checkAndAssign .INT id t.value = .ok { I with store := assign I.store id t.value }) ∧
      (∀ (I : Interpreter) (id : List Char), '.' ∈ t.value →
        I.checkAndAssign .INT id t.value = .fatal .nonInteger I.store I.output) := by
  have hrest : (skipWhitespace l).rest = c :: r := by rw [skipWhitespace_rest, h]
  have hg2 : getNextToken (skipWhitespace l) = .ok (t, l1) := by
    have hsp : isspace c = false := dropWhile_head_not _ _ _ _ h
    rw [getNextToken_of_not_space hrest hsp]
    rw [getNextToken_eq] at hg
    exact hg
  obtain ⟨w, r1, hr, hgw, hne, hall, hcount, _⟩ := getNextToken_number hrest hc
  rw [hgw] at hg2
  simp only [Except.ok.injEq, Prod.mk.injEq] at hg2
  obtain ⟨ht, _⟩ := hg2
  subst ht
  simp only
  have hF : isFloat w = true := by
    unfold isFloat
    rw [isFloatLoop_iff]
    exact ⟨hall, by simpa using hcount⟩
  have hI : isInteger w = true ↔ '.' ∉ w := by
    rw [isInteger_iff]
    constructor
    · intro hd hm
      exact isdigit_not_dot (hd _ hm) rfl
    · intro hnd x hx
      rcases hall x hx with h1 | h1
      · exact h1
      · subst h1; exact absurd hx hnd
  have hty : (if '.' ∈ w then TokenType.FLOAT else TokenType.INT) = .INT ↔ '.' ∉ w := by
    by_cases hd : '.' ∈ w <;> simp [hd]
  refine ⟨hF, by rw [hI, hty], hty, ?_, ?_, ?_, ?_⟩
  · by_cases hd : '.' ∈ w <;> simp [hd]
  · intro I id
    unfold Interpreter.checkAndAssign
    simp [hF]
  · intro I id hd
    unfold Interpreter.checkAndAssign
    simp [hI.2 hd]
  · intro I id hd
    have hIf : isInteger w = false := by
      by_contra hc2
      simp only [Bool.not_eq_false] at hc2
      exact hI.1 hc2 hd
    unfold Interpreter.checkAndAssign
    simp [hIf]

/-- Witness for C19: the float literal `12.5` after a blank. -/
theorem C19_literals_validate_witness :
    isFloat "12.5".toList = true ∧ (isInteger "12.5".toList = true ↔ TokenType.FLOAT = .INT) :=
  match C19_literals_validate ⟨" 12.5;".toList, 0⟩ '1' "2.5;".toList ⟨.FLOAT, "12.5".toList⟩
    ⟨" 12.5;".toList, 5⟩ (by rfl) (Or.inl (by decide)) (by rfl) with
  | ⟨h1, h2, _⟩ => ⟨h1, h2⟩

/-! ## The store under declarations -/

theorem find_assign_other (m : Store) (id v k : List Char) (hk : k ≠ id) :
    find (assign m id v) k = find m k := by
  have hk2 : ¬ id = k := fun h => hk h.symm
  induction m with
  | nil => simp [assign, find, hk2]
  | cons a m ih =>
    obtain ⟨k1, v1⟩ := a
    by_cases h : k1 = id
    · subst h
      simp [assign, find, hk2]
    · by_cases h2 : k1 = k
      · subst h2
        simp [assign, find, h]
      · simp [assign, find, h, h2, ih]

theorem Interpreter.At.declaration_plain {I : Interpreter} {t0 t1 t2 t3 : Token}
    {r0 r1 r2 r3 : List Char} {s : Store} {o : List (List Char)}
    (h : I.At t0 r0 s o)
    (h0 : t0.type = .INT ∨ t0.type = .FLOAT ∨ t0.type = .BOOL ∨ t0.type = .STRING)
    (l1 : Lex r0 t1 r1) (h1 : t1.type = .IDENTIFIER)
    (l2 : Lex r1 t2 r2) (h2 : t2.type = .SEMICOLON) (l3 : Lex r2 t3 r3) :
    ∃ I3, I.statement = .ok I3 ∧ I3.At t3 r3 s o := by
  obtain ⟨I1, a1, b1⟩ := h.matchAnyType h0 l1
  obtain ⟨I2, a2, b2⟩ := b1.matchToken .IDENTIFIER h1 l2
  obtain ⟨I3, a3, b3⟩ := b2.matchToken .SEMICOLON h2 l3
  refine ⟨I3, ?_, b3⟩
  have hnp : ¬ I.currentToken.type = .PRINTLN := by
    rw [h.1]; rcases h0 with h0 | h0 | h0 | h0 <;> simp [h0]
  have hne : ¬ I2.currentToken.type = .EQUAL := by rw [b2.1, h2]; simp
  unfold Interpreter.statement Interpreter.declarationStatement
  rw [if_neg hnp, a1, Outcome.bind_ok, a2, Outcome.bind_ok, if_neg hne, Outcome.bind_ok, a3]

theorem Interpreter.At.println_undefined {I : Interpreter} {t0 t1 t2 : Token}
    {r0 r1 r2 : List Char} {s : Store} {o : List (List Char)}
    (h : I.At t0 r0 s o) (h0 : t0.type = .PRINTLN)
    (l1 : Lex r0 t1 r1) (h1 : t1.type = .LEFT_PAREN)
    (l2 : Lex r1 t2 r2) (h2 : t2.type = .IDENTIFIER) (hv : find s t2.value = none) :
    I.statement = .fatal (.notDefined t2.value) s o := by
  obtain ⟨I1, a1, b1⟩ := h.matchToken .PRINTLN h0 l1
  obtain ⟨I2, a2, b2⟩ := b1.matchToken .LEFT_PAREN h1 l2
  have hns : ¬ I2.currentToken.type = .STRING := by rw [b2.1, h2]; simp
  have hid : I2.currentToken.type = .IDENTIFIER := by rw [b2.1, h2]
  have hf : find I2.store I2.currentToken.value = none := by rw [b2.2.2.1, b2.1]; exact hv
  have hev : I2.evaluateExpression = .fatal (.notDefined t2.value) s o := by
    have e1 := b2.1
    have e2 := b2.2.2.1
    have e3 := b2.2.2.2
    unfold Interpreter.evaluateExpression Interpreter.evaluateVariable
    rw [e1, e2, e3]
    simp [h2, hv]
  unfold Interpreter.statement Interpreter.printlnStatement
  rw [h.1, if_pos h0, a1, Outcome.bind_ok, a2, Outcome.bind_ok, if_neg hns, hev]
  rfl

/-- Running a program that starts with `int main() {` and whose statement loop
ends in a fatal error. -/
theorem run_main_fatal {body : List Char} {t6 : Token} {r6 : List Char} {n : Nat}
    {e : Error} {s : Store} {o : List (List Char)} (l6 : Lex body t6 r6)
    (hbody : ∀ I : Interpreter, I.At t6 r6 [] [] →
      Interpreter.statements n I = some (.fatal e s o)) :
    run ("int main() \x7b ".toList ++ body) = some (.fatal e s o) := by
  have l1 : Lex ("int main() \x7b ".toList ++ body) ⟨.INT, "int".toList⟩
      (" main() \x7b ".toList ++ body) := Lex.kw_int (NotStart.cons (by decide) _)
  have l2 : Lex (" main() \x7b ".toList ++ body) ⟨.IDENTIFIER, "main".toList⟩
      ("() \x7b ".toList ++ body) := Lex.space (by decide) (Lex.main (NotStart.cons (by decide) _))
  have l3 : Lex ("() \x7b ".toList ++ body) ⟨.LEFT_PAREN, "(".toList⟩
      (") \x7b ".toList ++ body) := Lex.LEFT_PAREN _
  have l4 : Lex (") \x7b ".toList ++ body) ⟨.RIGHT_PAREN, ")".toList⟩
      (" \x7b ".toList ++ body) := Lex.RIGHT_PAREN _
  have l5 : Lex (" \x7b ".toList ++ body) ⟨.LEFT_BRACE, "\x7b".toList⟩
      (' ' :: body) := Lex.space (by decide) (Lex.LEFT_BRACE _)
  obtain ⟨I0, a0, b0⟩ := Interpreter.At.init l1
  obtain ⟨I1, a1, b1⟩ := b0.matchToken .INT rfl l2
  obtain ⟨I2, a2, b2⟩ := b1.matchToken .IDENTIFIER rfl l3
  obtain ⟨I3, a3, b3⟩ := b2.matchToken .LEFT_PAREN rfl l4
  obtain ⟨I4, a4, b4⟩ := b3.matchToken .RIGHT_PAREN rfl l5
  obtain ⟨I5, a5, b5⟩ := b4.matchToken .LEFT_BRACE rfl (Lex.space (by decide) l6)
  have a6 := hbody I5 b5
  have hlen := pending_length_of_advance (matchToken_ok a5).2
  obtain ⟨r, hr⟩ := statements_total (I5.lexer.input.length + 1) I5 (by omega)
  have hrr := statements_fuel _ _ _ _ _ a6 hr
  subst hrr
  have hh : I0.header = .ok I4 := by
    unfold Interpreter.header
    rw [a1, Outcome.bind_ok, a2, Outcome.bind_ok, a3, Outcome.bind_ok, a4]
  have hb : I4.currentToken.type = .LEFT_BRACE := by rw [b4.1]
  unfold run Interpreter.parse
  rw [a0]
  simp only [hh]
  rw [if_pos hb]
  simp only [a5, hr, Option.map_some', Outcome.bind_fatal]

theorem redeclare_body (I : Interpreter)
    (h : I.At ⟨.INT, "int".toList⟩ " x = 1; string x = \"a\"; println(x); \x7d".toList [] []) :
    ∃ I1, Interpreter.statements 4 I = some (.ok I1) ∧
      I1.currentToken.type = .RIGHT_BRACE ∧ I1.lexer.rest = [] ∧
      I1.store = [("x".toList, "a".toList)] ∧ I1.output = ["a".toList] := by
  have l1 : Lex " x = 1; string x = \"a\"; println(x); \x7d".toList ⟨.IDENTIFIER, "x".toList⟩
      " = 1; string x = \"a\"; println(x); \x7d".toList :=
    Lex.space (by decide) (@Lex.word 'x' [] _ (by decide) (by decide)
      (NotStart.cons (by decide) _))
  have l2 : Lex " = 1; string x = \"a\"; println(x); \x7d".toList ⟨.EQUAL, "=".toList⟩
      " 1; string x = \"a\"; println(x); \x7d".toList := Lex.space (by decide) (Lex.EQUAL _)
  have l3 : Lex " 1; string x = \"a\"; println(x); \x7d".toList ⟨.INT, "1".toList⟩
      "; string x = \"a\"; println(x); \x7d".toList :=
    Lex.space (by decide) (@Lex.digits '1' [] _ (by decide) (by decide)
      (NotStart.cons (by decide) _))
  have l4 : Lex "; string x = \"a\"; println(x); \x7d".toList ⟨.SEMICOLON, ";".toList⟩
      " string x = \"a\"; println(x); \x7d".toList := Lex.SEMICOLON _
  have l5 : Lex " string x = \"a\"; println(x); \x7d".toList ⟨.STRING, "string".toList⟩
      " x = \"a\"; println(x); \x7d".toList :=
    Lex.space (by decide) (Lex.kw_string (NotStart.cons (by decide) _))
  have l6 : Lex " x = \"a\"; println(x); \x7d".toList ⟨.IDENTIFIER, "x".toList⟩
      " = \"a\"; println(x); \x7d".toList :=
    Lex.space (by decide) (@Lex.word 'x' [] _ (by decide) (by decide)
      (NotStart.cons (by decide) _))
  have l7 : Lex " = \"a\"; println(x); \x7d".toList ⟨.EQUAL, "=".toList⟩
      " \"a\"; println(x); \x7d".toList := Lex.space (by decide) (Lex.EQUAL _)
  have l8 : Lex " \"a\"; println(x); \x7d".toList ⟨.STRING, "a".toList⟩
      "; println(x); \x7d".toList :=
    Lex.space (by decide) (@Lex.string "a".toList _ (by decide))
  have l9 : Lex "; println(x); \x7d".toList ⟨.SEMICOLON, ";".toList⟩
      " println(x); \x7d".toList := Lex.SEMICOLON _
  have l10 : Lex " println(x); \x7d".toList ⟨.PRINTLN, "println".toList⟩ "(x); \x7d".toList :=
    Lex.space (by decide) (Lex.kw_println (NotStart.cons (by decide) _))
  have l11 : Lex "(x); \x7d".toList ⟨.LEFT_PAREN, "(".toList⟩ "x); \x7d".toList :=
    Lex.LEFT_PAREN _
  have l12 : Lex "x); \x7d".toList ⟨.IDENTIFIER, "x".toList⟩ "); \x7d".toList :=
    @Lex.word 'x' [] _ (by decide) (by decide) (NotStart.cons (by decide) _)
  have l13 : Lex "); \x7d".toList ⟨.RIGHT_PAREN, ")".toList⟩ "; \x7d".toList :=
    Lex.RIGHT_PAREN _
  have l14 : Lex "; \x7d".toList ⟨.SEMICOLON, ";".toList⟩ " \x7d".toList := Lex.SEMICOLON _
  have l15 : Lex " \x7d".toList ⟨.RIGHT_BRACE, "\x7d".toList⟩ [] :=
    Lex.space (by decide) (Lex.RIGHT_BRACE _)
  obtain ⟨I1, a1, b1⟩ := h.declaration (Or.inl rfl) l1 rfl l2 rfl l3 (Or.inl rfl)
    (fun _ => by decide) (fun hc => absurd hc (by decide)) (fun hc => absurd hc (by decide))
    l4 rfl l5
  obtain ⟨I2, a2, b2⟩ := b1.declaration (Or.inr (Or.inr (Or.inr rfl))) l6 rfl l7 rfl l8
    (Or.inr (Or.inr (Or.inr rfl))) (fun hc => absurd hc (by decide))
    (fun hc => absurd hc (by decide)) (fun hc => absurd hc (by decide)) l9 rfl l10
  obtain ⟨I3, a3, b3⟩ := b2.println_variable rfl l11 rfl l12 rfl (find_assign_self _ _ _)
    l13 rfl l14 rfl l15
  refine ⟨I3, ?_, by rw [b3.1], b3.2.1, ?_, b3.2.2.2⟩
  · exact statements_step (by rw [h.1]; decide) a1 (statements_step (by rw [b1.1]; decide) a2
      (statements_step (by rw [b2.1]; decide) a3 (statements_done 0 (by rw [b3.1]))))
  · rw [b3.2.2.1]
    decide

theorem undeclared_print_body (I : Interpreter)
    (h : I.At ⟨.INT, "int".toList⟩ " x; println(x); \x7d".toList [] []) :
    Interpreter.statements 2 I = some (.fatal (.notDefined "x".toList) [] []) := by
  have l1 : Lex " x; println(x); \x7d".toList ⟨.IDENTIFIER, "x".toList⟩
      "; println(x); \x7d".toList :=
    Lex.space (by decide) (@Lex.word 'x' [] _ (by decide) (by decide)
      (NotStart.cons (by decide) _))
  have l2 : Lex "; println(x); \x7d".toList ⟨.SEMICOLON, ";".toList⟩
      " println(x); \x7d".toList := Lex.SEMICOLON _
  have l3 : Lex " println(x); \x7d".toList ⟨.PRINTLN, "println".toList⟩ "(x); \x7d".toList :=
    Lex.space (by decide) (Lex.kw_println (NotStart.cons (by decide) _))
  have l4 : Lex "(x); \x7d".toList ⟨.LEFT_PAREN, "(".toList⟩ "x); \x7d".toList :=
    Lex.LEFT_PAREN _
  have l5 : Lex "x); \x7d".toList ⟨.IDENTIFIER, "x".toList⟩ "); \x7d".toList :=
    @Lex.word 'x' [] _ (by decide) (by decide) (NotStart.cons (by decide) _)
  obtain ⟨I1, a1, b1⟩ := h.declaration_plain (Or.inl rfl) l1 rfl l2 rfl l3
  have a2 := b1.println_undefined rfl l4 rfl l5 rfl (by rfl)
  have hb1 : I1.currentToken.type ≠ .RIGHT_BRACE := by rw [b1.1]; decide
  have hstep : Interpreter.statements 1 I1 = some (.fatal (.notDefined "x".toList) [] []) := by
    unfold Interpreter.statements
    rw [if_pos hb1, a2]
  exact statements_step (by rw [h.1]; decide) a1 hstep

/-- Claim C16: store update and frame of a declaration with initializer. For
every store, identifier `id` and declaration statement `T id = E;` whose
evaluated value `v` passes the check of `T`, the statement goes on to match
the `;` with the store updated, and when it returns, the store maps `id` to
`v` and every other identifier as before, whether or not `id` was in the
store and whatever type it was declared with; so
`int main() { int x = 1; string x = "a"; println(x); }` succeeds and prints
exactly the line `a`. -/
theorem C16_store_update (I I1 I2 I3 J : Interpreter) (v : List Char)
    (h1 : I.matchAnyType = .ok I1) (h2 : I1.matchToken .IDENTIFIER = .ok I2)
    (heq : I2.currentToken.type = .EQUAL) (h3 : I2.matchToken .EQUAL = .ok I3)
    (h4 : I3.evaluateExpression = .ok (v, J))
    (hI : I.currentToken.type = .INT → isInteger v = true)
    (hF : I.currentToken.type = .FLOAT → isFloat v = true)
    (hB : I.currentToken.type = .BOOL → isBool v = true) :
    I.statement =
        Interpreter.matchToken { J with store := assign I.store I1.currentToken.value v }
          .SEMICOLON ∧
      (∀ I5, I.statement = .ok I5 →
        find I5.store I1.currentToken.value = some v ∧
          ∀ k, k ≠ I1.currentToken.value → find I5.store k = find I.store k) ∧
      ∃ I6, run "int main() \x7b int x = 1; string x = \"a\"; println(x); \x7d".toList =
          some (.ok I6) ∧ I6.store = [("x".toList, "a".toList)] ∧
        I6.output = ["a".toList] := by
  obtain ⟨hty, _, _, d1, _, _⟩ := matchAnyType_step h1
  obtain ⟨_, _, _, d2, _, _⟩ := matchToken_step h2 (by simp)
  obtain ⟨_, _, _, d3, _, _⟩ := matchToken_step h3 (by simp)
  obtain ⟨_, _, _, d4, _, _⟩ := evaluateExpression_step h4
  have hst : J.store = I.store := by rw [d4, d3, d2, d1]
  have hnp : ¬ I.currentToken.type = .PRINTLN := by
    rcases hty with h | h | h | h <;> simp [h]
  have hchk : J.checkAndAssign I.currentToken.type I1.currentToken.value v =
      .ok { J with store := assign I.store I1.currentToken.value v } := by
    unfold Interpreter.checkAndAssign
    rw [if_neg, if_neg, if_neg, hst]
    · rintro ⟨hb, hb2⟩; rw [hB hb] at hb2; simp at hb2
    · rintro ⟨hb, hb2⟩; rw [hF hb] at hb2; simp at hb2
    · rintro ⟨hb, hb2⟩; rw [hI hb] at hb2; simp at hb2
  have key : I.statement =
      Interpreter.matchToken { J with store := assign I.store I1.currentToken.value v }
        .SEMICOLON := by
    unfold Interpreter.statement Interpreter.declarationStatement
    rw [if_neg hnp, h1, Outcome.bind_ok, h2, Outcome.bind_ok, if_pos heq, h3, Outcome.bind_ok, h4,
      Outcome.bind_ok]
    simp only
    rw [hchk, Outcome.bind_ok]
  refine ⟨key, ?_, ?_⟩
  swap
  · obtain ⟨I6, a1, _, _, a4, a5⟩ :=
      run_main (Lex.kw_int (NotStart.cons (by decide) _)) redeclare_body
    exact ⟨I6, a1, a4, a5⟩
  intro I5 h5
  rw [key] at h5
  obtain ⟨_, _, _, d5, _, _⟩ := matchToken_step h5 (by simp)
  simp only at d5
  rw [d5]
  exact ⟨find_assign_self _ _ _, fun k hk => find_assign_other _ _ _ k hk⟩

/-- Witness for C16: the statement `string x = "a";` in a store where `x` holds `1`. -/
theorem C16_store_update_witness :
    Interpreter.statement
        ⟨⟨"string x = \"a\";".toList, 6⟩, ⟨.STRING, "string".toList⟩,
          [("x".toList, "1".toList)], []⟩ =
      Interpreter.matchToken
        ⟨⟨"string x = \"a\";".toList, 15⟩, ⟨.SEMICOLON, ";".toList⟩,
          assign [("x".toList, "1".toList)] "x".toList "a".toList, []⟩ .SEMICOLON :=
  (C16_store_update
    ⟨⟨"string x = \"a\";".toList, 6⟩, ⟨.STRING, "string".toList⟩, [("x".toList, "1".toList)], []⟩
    ⟨⟨"string x = \"a\";".toList, 8⟩, ⟨.IDENTIFIER, "x".toList⟩, [("x".toList, "1".toList)], []⟩
    ⟨⟨"string x = \"a\";".toList, 10⟩, ⟨.EQUAL, "=".toList⟩, [("x".toList, "1".toList)], []⟩
    ⟨⟨"string x = \"a\";".toList, 14⟩, ⟨.STRING, "a".toList⟩, [("x".toList, "1".toList)], []⟩
    ⟨⟨"string x = \"a\";".toList, 15⟩, ⟨.SEMICOLON, ";".toList⟩, [("x".toList, "1".toList)], []⟩
    "a".toList rfl rfl rfl rfl rfl (fun h => absurd h (by decide)) (fun h => absurd h (by decide))
    (fun h => absurd h (by decide))).1

/-- Claim C17: a declaration without an initializer does not touch the store.
For every store, type keyword `T` and identifier `id`, executing the statement
`T id ;` leaves the store as it was and writes no output; so
`int main() { int x; println(x); }` ends in the "variable not defined"
fatal error. -/
theorem C17_declaration_without_initializer (I I1 I2 I3 : Interpreter)
    (h1 : I.matchAnyType = .ok I1) (h2 : I1.matchToken .IDENTIFIER = .ok I2)
    (hs : I2.currentToken.type = .SEMICOLON) (h3 : I2.matchToken .SEMICOLON = .ok I3) :
    I.statement = .ok I3 ∧ I3.store = I.store ∧ I3.output = I.output ∧
      run "int main() \x7b int x; println(x); \x7d".toList =
        some (.fatal (.notDefined "x".toList) [] []) := by
  obtain ⟨hty, _, _, d1, e1, _⟩ := matchAnyType_step h1
  obtain ⟨_, _, _, d2, e2, _⟩ := matchToken_step h2 (by simp)
  obtain ⟨_, _, _, d3, e3, _⟩ := matchToken_step h3 (by simp)
  have hnp : ¬ I.currentToken.type = .PRINTLN := by
    rcases hty with h | h | h | h <;> simp [h]
  have hne : ¬ I2.currentToken.type = .EQUAL := by rw [hs]; simp
  refine ⟨?_, by rw [d3, d2, d1], by rw [e3, e2, e1],
    run_main_fatal (Lex.kw_int (NotStart.cons (by decide) _)) undeclared_print_body⟩
  unfold Interpreter.statement Interpreter.declarationStatement
  rw [if_neg hnp, h1, Outcome.bind_ok, h2, Outcome.bind_ok, if_neg hne, Outcome.bind_ok, h3]

/-- Witness for C17: the statement `int x;`. -/
theorem C17_declaration_without_initializer_witness :
    Interpreter.statement ⟨⟨"int x;".toList, 3⟩, ⟨.INT, "int".toList⟩, [], []⟩ =
      .ok ⟨⟨"int x;".toList, 6⟩, ⟨.END, []⟩, [], []⟩ :=
  (C17_declaration_without_initializer
    ⟨⟨"int x;".toList, 3⟩, ⟨.INT, "int".toList⟩, [], []⟩
    ⟨⟨"int x;".toList, 5⟩, ⟨.IDENTIFIER, "x".toList⟩, [], []⟩
    ⟨⟨"int x;".toList, 6⟩, ⟨.SEMICOLON, ";".toList⟩, [], []⟩
    ⟨⟨"int x;".toList, 6⟩, ⟨.END, []⟩, [], []⟩ rfl rfl rfl rfl).1

/-! ## Progress and termination of the tokenizer -/

theorem getNextToken_END {l : Lexer} {t : Token} {l1 : Lexer}
    (h : getNextToken l = .ok (t, l1)) (ht : t.type = .END) :
    t = ⟨.END, []⟩ ∧ l1 = skipWhitespace l ∧ l1.input.length ≤ l1.position ∧
      getNextToken l1 = .ok (⟨.END, []⟩, l1) := by
  have hp := getNextToken_progress h
  obtain ⟨h1, h2⟩ := hp.2.2.1 ht
  have hnil : l1.rest = [] := (Lexer.rest_nil_iff _).2 h2
  refine ⟨h1, ?_, h2, getNextToken_of_rest_nil hnil⟩
  rw [getNextToken_eq] at h
  cases hr : (skipWhitespace l).rest with
  | nil =>
    rw [getNextTokenLoop_nil hr] at h
    simp only [Except.ok.injEq, Prod.mk.injEq] at h
    exact h.2.symm
  | cons c r =>
    exfalso
    have hc : isspace c = false := by
      rw [skipWhitespace_rest] at hr
      exact dropWhile_head_not _ _ _ _ hr
    have h3 : getNextToken (skipWhitespace l) = .ok (t, l1) := by
      rw [getNextToken_of_not_space hr hc]; exact h
    have hp3 := getNextToken_progress h3
    have h4 := (hp3.2.2.1 ht).2
    have h5 := Lexer.lt_of_rest_cons hr
    rw [hp3.1] at h4
    have h6 := hp3.2.1
    by_cases hne : t.type = .END
    · -- the token read at a non-space character is never END
      rw [getNextTokenLoop_one hr hc] at h
      split_ifs at h with a1 a2 a3 a4 a5 a6 a7 a8 a9
      · simp only [Except.ok.injEq] at h
        have := (readNumber_spec (skipWhitespace l)).2.2
        rw [h] at this
        simp only at this
        rcases this with h7 | h7 <;> rw [h7] at ht <;> simp at ht
      all_goals first
        | (simp only [Except.ok.injEq, Prod.mk.injEq] at h
           rw [← h.1] at ht
           simp at ht)
        | skip
      · rw [(readString_spec h).2.2] at ht
        simp at ht
      · simp only [Except.ok.injEq] at h
        have := (readIdentifier_spec (skipWhitespace l)).2.2
        rw [h] at this
        exact this ht
    · exact hne ht

/-- Repeated calls reach END or a lexical error after at most as many tokens
as there are unread characters. -/
theorem nextTokens_terminates (n : Nat) : ∀ l : Lexer, l.input.length - l.position ≤ n →
    ∃ (k : Nat) (ts : List Token) (l1 : Lexer), k ≤ l.input.length - l.position ∧
      nextTokens k l = .ok (ts, l1) ∧ ts.length = k ∧ (∀ t ∈ ts, t.type ≠ .END) ∧
      ((∃ e, getNextToken l1 = .error e) ∨ ∃ l2, getNextToken l1 = .ok (⟨.END, []⟩, l2)) := by
  induction n with
  | zero =>
    intro l hn
    have hnil : l.rest = [] := (Lexer.rest_nil_iff l).2 (by omega)
    exact ⟨0, [], l, Nat.zero_le _, rfl, rfl, by simp,
      Or.inr ⟨l, getNextToken_of_rest_nil hnil⟩⟩
  | succ n ih =>
    intro l hn
    cases hg : getNextToken l with
    | error e => exact ⟨0, [], l, Nat.zero_le _, rfl, rfl, by simp, Or.inl ⟨e, hg⟩⟩
    | ok p =>
      obtain ⟨t, l1⟩ := p
      by_cases ht : t.type = .END
      · rw [(getNextToken_END hg ht).1] at hg
        exact ⟨0, [], l, Nat.zero_le _, rfl, rfl, by simp, Or.inr ⟨l1, hg⟩⟩
      · have hp := getNextToken_progress hg
        have hs := hp.2.2.2 ht
        obtain ⟨k, ts, l2, hk, hnt, hlen, hall, hend⟩ := ih l1 (by rw [hp.1]; omega)
        refine ⟨k + 1, t :: ts, l2, ?_, ?_, by simp [hlen], ?_, hend⟩
        · rw [hp.1] at hk; omega
        · simp only [nextTokens, hg, hnt]
        · intro x hx
          rcases List.mem_cons.1 hx with rfl | hx
          · exact ht
          · exact hall x hx

/-- Counterexample to C18 as stated: on the input of one blank, the call
returns END and has moved the cursor from 0 to 1. -/
theorem C18_tokenizer_progress_counterexample :
    getNextToken ⟨" ".toList, 0⟩ = .ok (⟨.END, []⟩, ⟨" ".toList, 1⟩) ∧
      Lexer.position ⟨" ".toList, 1⟩ ≠ Lexer.position ⟨" ".toList, 0⟩ :=
  ⟨by rfl, by decide⟩

/-- Claim C18 (amended): tokenizer progress and termination. For every input
and every cursor position, a call that returns a token other than END leaves
the cursor strictly greater than before; a call that returns END leaves the
cursor at or past the end of the input, having moved it only over whitespace
(it is unchanged if it was already at or past the end). Hence repeated calls
reach END or a lexical error after at most as many tokens as the input has
characters, and every call after END returns END again without moving the
cursor. -/
theorem C18_tokenizer_progress (l : Lexer) :
    (∀ t l1, getNextToken l = .ok (t, l1) → t.type ≠ .END →
      l1.input = l.input ∧ l.position < l1.position) ∧
    (∀ t l1, getNextToken l = .ok (t, l1) → t.type = .END →
      l1 = skipWhitespace l ∧ l1.input = l.input ∧ l.position ≤ l1.position ∧
        l1.input.length ≤ l1.position ∧ (l.input.length ≤ l.position → l1 = l) ∧
        getNextToken l1 = .ok (⟨.END, []⟩, l1)) ∧
    (∃ (k : Nat) (ts : List Token) (l1 : Lexer), k ≤ l.input.length ∧
      nextTokens k l = .ok (ts, l1) ∧ ts.length = k ∧ (∀ t ∈ ts, t.type ≠ .END) ∧
      ((∃ e, getNextToken l1 = .error e) ∨ ∃ l2, getNextToken l1 = .ok (⟨.END, []⟩, l2))) := by
  refine ⟨?_, ?_, ?_⟩
  · intro t l1 h ht
    have hp := getNextToken_progress h
    exact ⟨hp.1, (hp.2.2.2 ht).2⟩
  · intro t l1 h ht
    have hp := getNextToken_progress h
    obtain ⟨_, h2, h3, h4⟩ := getNextToken_END h ht
    refine ⟨h2, hp.1, hp.2.1, h3, ?_, h4⟩
    intro hle
    rw [h2]
    exact skipWhitespace_of_nil ((Lexer.rest_nil_iff l).2 hle)
  · obtain ⟨k, ts, l1, hk, h1, h2, h3, h4⟩ := nextTokens_terminates _ l (Nat.le_refl _)
    exact ⟨k, ts, l1, by omega, h1, h2, h3, h4⟩

/-- Witness for C18: the identifier `ab` moves the cursor from 0 to 2. -/
theorem C18_tokenizer_progress_witness :
    Lexer.input ⟨"ab".toList, 2⟩ = Lexer.input ⟨"ab".toList, 0⟩ ∧
      Lexer.position ⟨"ab".toList, 0⟩ < Lexer.position ⟨"ab".toList, 2⟩ :=
  (C18_tokenizer_progress ⟨"ab".toList, 0⟩).1 ⟨.IDENTIFIER, "ab".toList⟩ ⟨"ab".toList, 2⟩
    (by rfl) (by decide)

/-! ## Lexical errors -/

theorem readStringLoop_error_kind {r acc : List Char} {p : Nat} {e : Error}
    (h : readStringLoop r acc p = .error e) : e = .incompleteEscape := by
  obtain ⟨b, hb, hr⟩ := (readStringLoop_error_iff r acc p).1 ⟨e, h⟩
  rw [hr, readStringLoop_backslash hb] at h
  simp only [Except.error.injEq] at h
  exact h.symm

theorem readString_error_iff {l : Lexer} {r : List Char} (h : l.rest = '"' :: r) (e : Error) :
    readString l = .error e ↔
      (∃ b, isLiteralBody b = true ∧ r = b ++ ['\\']) ∧ e = .incompleteEscape := by
  have hd : l.input.drop (l.position + 1) = r := rest_succ h
  unfold readString
  rw [hd]
  constructor
  · intro he
    cases hl : readStringLoop r [] (l.position + 1) with
    | error e1 =>
      rw [hl] at he
      simp only [Except.error.injEq] at he
      subst he
      exact ⟨(readStringLoop_error_iff r [] _).1 ⟨e1, hl⟩, readStringLoop_error_kind hl⟩
    | ok q =>
      rw [hl] at he
      simp at he
  · rintro ⟨⟨b, hb, rfl⟩, rfl⟩
    rw [readStringLoop_backslash hb]

/-- Claim C14: the tokenizer fails exactly on the two lexical errors. For every
input and cursor position, the call ends in a fatal error if and only if the
first character at or after the cursor that is not whitespace (in the sense
of `isspace`) exists and either (a) is none of: a decimal digit, `.`, `=`,
`;`, `{`, `}`, `(`, `)`, `"`, an alphabetic character (the error is "invalid
character"), or (b) is `"` and the scan of the literal reaches a backslash
that is the last character of the input (the error is "incomplete escape
sequence"); in every other case the call returns a token. So `_`, `+`, `-`
and `,` are rejected as invalid characters. -/
theorem C14_lexical_errors (l : Lexer) :
    (∀ e, getNextToken l = .error e ↔
      ∃ c r, l.rest.dropWhile isspace = c :: r ∧
        ((isdigit c = false ∧ c ≠ '.' ∧ c ≠ '=' ∧ c ≠ ';' ∧ c ≠ '{' ∧ c ≠ '}' ∧ c ≠ '(' ∧
            c ≠ ')' ∧ c ≠ '"' ∧ isalpha c = false ∧ e = .invalidCharacter c) ∨
          (c = '"' ∧ (∃ b, isLiteralBody b = true ∧ r = b ++ ['\\']) ∧
            e = .incompleteEscape))) ∧
    ((∀ e, getNextToken l ≠ .error e) → ∃ t l1, getNextToken l = .ok (t, l1)) ∧
    getNextToken ⟨"_".toList, 0⟩ = .error (.invalidCharacter '_') ∧
    getNextToken ⟨"+".toList, 0⟩ = .error (.invalidCharacter '+') ∧
    getNextToken ⟨"-".toList, 0⟩ = .error (.invalidCharacter '-') ∧
    getNextToken ⟨",".toList, 0⟩ = .error (.invalidCharacter ',') ∧
    getNextToken ⟨"\"ab\\".toList, 0⟩ = .error .incompleteEscape := by
  refine ⟨?_, ?_, by rfl, by rfl, by rfl, by rfl, by rfl⟩
  · intro e
    rw [getNextToken_eq, ← skipWhitespace_rest]
    cases hr : (skipWhitespace l).rest with
    | nil =>
      rw [getNextTokenLoop_nil hr]
      simp
    | cons c r =>
      have hc : isspace c = false := by
        rw [skipWhitespace_rest] at hr
        exact dropWhile_head_not _ _ _ _ hr
      rw [getNextTokenLoop_one hr hc]
      constructor
      · intro h
        refine ⟨c, r, rfl, ?_⟩
        split_ifs at h with a1 a2 a3 a4 a5 a6 a7 a8 a9
        · subst a8
          exact Or.inr ⟨rfl, (readString_error_iff hr e).1 h⟩
        · simp only [Bool.or_eq_true, beq_iff_eq, not_or, Bool.not_eq_true] at a1
          simp only [Bool.not_eq_true] at a9
          simp only [Except.error.injEq] at h
          exact Or.inl ⟨a1.1, a1.2, a2, a3, a4, a5, a6, a7, a8, a9, h.symm⟩
      · rintro ⟨c1, r1, hcr, hcase⟩
        simp only [List.cons.injEq] at hcr
        obtain ⟨rfl, rfl⟩ := hcr
        rcases hcase with ⟨b1, b2, b3, b4, b5, b6, b7, b8, b9, b10, rfl⟩ |
          ⟨hq, hb, rfl⟩
        · simp [b1, b2, b3, b4, b5, b6, b7, b8, b9, b10]
        · subst hq
          have : readString (skipWhitespace l) = .error .incompleteEscape :=
            (readString_error_iff hr _).2 ⟨hb, rfl⟩
          simpa using this
  · intro h
    cases hg : getNextToken l with
    | error e => exact absurd hg (h e)
    | ok p => exact ⟨p.1, p.2, rfl⟩

/-! ## The output in terms of the token stream -/

theorem pending_cases (I : Interpreter) :
    (I.currentToken.type = .END ∧ I.pending.tokens = [] ∧ I.pending.error.isSome = false) ∨
      (I.currentToken.type ≠ .END ∧ ∃ rest, I.pending.tokens = I.currentToken :: rest) := by
  unfold Interpreter.pending
  by_cases h : I.currentToken.type = .END
  · exact Or.inl ⟨h, by rw [if_pos h], by rw [if_pos h]; rfl⟩
  · exact Or.inr ⟨h, _, by rw [if_neg h]⟩

theorem pending_head {I : Interpreter} {t : Token} {rest : List Token}
    (h : I.pending.tokens = t :: rest) : I.currentToken = t ∧ I.currentToken.type ≠ .END := by
  rcases pending_cases I with ⟨_, h1, _⟩ | ⟨h1, r, h2⟩
  · rw [h1] at h; simp at h
  · rw [h2] at h
    simp only [List.cons.injEq] at h
    exact ⟨h.1, h1⟩

theorem pending_error_of_nil {I : Interpreter} (h : I.pending.tokens = []) :
    I.pending.error.isSome = false := by
  rcases pending_cases I with ⟨_, _, h1⟩ | ⟨_, r, h2⟩
  · exact h1
  · rw [h2] at h; simp at h

theorem advance_fatal_tokens {I : Interpreter} {e : Error} {v : Store} {o : List (List Char)}
    (h : I.advance = .fatal e v o) (hne : I.currentToken.type ≠ .END) :
    I.pending.tokens = [I.currentToken] ∧ I.pending.error.isSome = true := by
  unfold Interpreter.advance at h
  split at h
  · rename_i e1 hg
    unfold Interpreter.pending
    rw [if_neg hne, Lexer.tokens_eq, hg]
    simp
  · simp at h

/-- What a failed `match` says about the pending tokens: the lookahead is not
of the expected kind, or it is the last token before a lexical error. -/
theorem matchToken_fatal_tokens {I : Interpreter} {ty : TokenType} {e : Error} {v : Store}
    {o : List (List Char)} (h : I.matchToken ty = .fatal e v o) (hty : ty ≠ .END) :
    I.pending.tokens = [] ∨ (∃ t rest, I.pending.tokens = t :: rest ∧ t.type ≠ ty) ∨
      (∃ t, I.pending.tokens = [t] ∧ t.type = ty ∧ I.pending.error.isSome = true) := by
  unfold Interpreter.matchToken at h
  split_ifs at h with h1
  · obtain ⟨a, b⟩ := advance_fatal_tokens h (by rw [h1]; exact hty)
    exact Or.inr (Or.inr ⟨_, a, h1, b⟩)
  · rcases pending_cases I with ⟨_, h2, _⟩ | ⟨_, r, h2⟩
    · exact Or.inl h2
    · exact Or.inr (Or.inl ⟨_, _, h2, h1⟩)

theorem closing_of_fatal_tokens {ts : List Token} {p : Prop}
    (h : ts = [] ∨ (∃ t rest, ts = t :: rest ∧ t.type ≠ .RIGHT_PAREN) ∨
      (∃ t, ts = [t] ∧ t.type = .RIGHT_PAREN ∧ p)) : closing ts = none := by
  rcases h with rfl | ⟨t, rest, rfl, h⟩ | ⟨t, rfl, _⟩
  · rfl
  · cases rest with
    | nil => rfl
    | cons t4 rest => simp [closing, h]
  · rfl

/-- The closing `)` `;` of a println statement, read by the interpreter. -/
theorem closing_lines (I3 : Interpreter) :
    (∀ I5, ((I3.matchToken .RIGHT_PAREN).bind fun I4 => I4.matchToken .SEMICOLON) = .ok I5 →
      closing I3.pending.tokens = some I5.pending.tokens ∧ I5.store = I3.store ∧
        I5.output = I3.output ∧ I5.pending.error = I3.pending.error) ∧
    (∀ e v o, ((I3.matchToken .RIGHT_PAREN).bind fun I4 => I4.matchToken .SEMICOLON) =
        .fatal e v o →
      o = I3.output ∧ (closing I3.pending.tokens = none ∨ closing I3.pending.tokens = some [])) := by
  constructor
  · intro I5 h
    obtain ⟨I4, h4, h5⟩ := Outcome.bind_eq_ok h
    obtain ⟨a4, b4, c4, d4, e4, _⟩ := matchToken_step h4 (by simp)
    obtain ⟨a5, b5, c5, d5, e5, _⟩ := matchToken_step h5 (by simp)
    refine ⟨?_, by rw [d5, d4], by rw [e5, e4], by rw [c4, c5]⟩
    rw [b4, b5]
    simp [closing, a4, a5]
  · intro e v o h
    rcases Outcome.bind_eq_fatal h with h4 | ⟨I4, h4, h5⟩
    · refine ⟨(matchToken_fatal h4).2, Or.inl ?_⟩
      exact closing_of_fatal_tokens (matchToken_fatal_tokens h4 (by simp))
    · obtain ⟨a4, b4, c4, d4, e4, _⟩ := matchToken_step h4 (by simp)
      refine ⟨by rw [(matchToken_fatal h5).2, e4], ?_⟩
      rw [b4]
      rcases matchToken_fatal_tokens h5 (by simp) with h6 | ⟨t, rest, h6, h7⟩ | ⟨t, h6, h7, _⟩
      · rw [h6]; exact Or.inl rfl
      · rw [h6]; exact Or.inl (by simp [closing, h7])
      · rw [h6]; exact Or.inr (by simp [closing, a4, h7])

theorem argumentValue_of_evaluateExpression {I : Interpreter} {v : List Char} {I1 : Interpreter}
    (h : I.evaluateExpression = .ok (v, I1)) : argumentValue I.store I.currentToken = some v := by
  obtain ⟨_, h2⟩ := evaluateExpression_ok h
  unfold argumentValue
  rcases h2 with ⟨a, b⟩ | ⟨a, b⟩
  · rw [if_pos a, b]
  · have hni : ¬ I.currentToken.type = .IDENTIFIER := by
      rcases a with a | a | a | a <;> simp [a]
    have hl : I.currentToken.type = .STRING ∨ I.currentToken.type = .INT ∨
        I.currentToken.type = .FLOAT ∨ I.currentToken.type = .BOOL := by
      rcases a with a | a | a | a <;> simp [a]
    rw [if_neg hni, if_pos hl, b]

/-- What a failed evaluation says about the pending tokens: the lookahead has
no value, or it is the last token before a lexical error. -/
theorem evaluateExpression_fatal_tokens {I : Interpreter} {e : Error} {v : Store}
    {o : List (List Char)} (h : I.evaluateExpression = .fatal e v o) :
    I.pending.tokens = [] ∨
      ∃ t rest, I.pending.tokens = t :: rest ∧
        (argumentValue I.store t = none ∨ (rest = [] ∧ I.pending.error.isSome = true)) := by
  rcases pending_cases I with ⟨_, h2, _⟩ | ⟨hne, r, h2⟩
  · exact Or.inl h2
  refine Or.inr ⟨_, _, h2, ?_⟩
  have hadv : ∀ {e v o}, I.advance = .fatal e v o →
      r = [] ∧ I.pending.error.isSome = true := by
    intro e v o ha
    obtain ⟨a, b⟩ := advance_fatal_tokens ha hne
    rw [h2] at a
    simp only [List.cons.injEq, true_and] at a
    exact ⟨a, b⟩
  unfold Interpreter.evaluateExpression at h
  split_ifs at h with h1 h3
  · rcases Outcome.bind_eq_fatal h with h4 | ⟨a, _, h4⟩
    · exact Or.inr (hadv h4)
    · simp at h4
  · unfold Interpreter.evaluateVariable at h
    split_ifs at h with h5 h6
    · split at h
      · rcases Outcome.bind_eq_fatal h with h4 | ⟨a, _, h4⟩
        · exact Or.inr (hadv h4)
        · simp at h4
      · rename_i hf
        left
        unfold argumentValue
        rw [if_pos h5, hf]
    · rcases Outcome.bind_eq_fatal h with h4 | ⟨a, _, h4⟩
      · exact Or.inr (hadv h4)
      · simp at h4
    · exact absurd h3 (by
        intro hc
        rcases hc with hc | hc | hc | hc
        · exact h6 (Or.inl hc)
        · exact h6 (Or.inr (Or.inl hc))
        · exact h6 (Or.inr (Or.inr hc))
        · exact h5 hc)
  · left
    unfold argumentValue
    have hni : ¬ I.currentToken.type = .IDENTIFIER := fun hc => h3 (Or.inr (Or.inr (Or.inr hc)))
    have hnl : ¬ (I.currentToken.type = .STRING ∨ I.currentToken.type = .INT ∨
        I.currentToken.type = .FLOAT ∨ I.currentToken.type = .BOOL) := by
      intro hc
      rcases hc with hc | hc | hc | hc
      · exact h1 hc
      · exact h3 (Or.inl hc)
      · exact h3 (Or.inr (Or.inl hc))
      · exact h3 (Or.inr (Or.inr (Or.inl hc)))
    rw [if_neg hni, if_neg hnl]

/-- The argument of a println statement, read by the interpreter with the
argument as lookahead. -/
theorem argument_lines (I2 : Interpreter) :
    (∀ I3,
      (if I2.currentToken.type = .STRING then
        Interpreter.matchToken { I2 with output := I2.output ++ [I2.currentToken.value] } .STRING
      else
        I2.evaluateExpression.bind fun r =>
          .ok { r.2 with output := r.2.output ++ [r.1] }) = .ok I3 →
      ∃ v, argumentValue I2.store I2.currentToken = some v ∧
        I2.pending.tokens = I2.currentToken :: I3.pending.tokens ∧
        I3.output = I2.output ++ [v] ∧ I3.store = I2.store ∧
        I3.pending.error = I2.pending.error) ∧
    (∀ e s o,
      (if I2.currentToken.type = .STRING then
        Interpreter.matchToken { I2 with output := I2.output ++ [I2.currentToken.value] } .STRING
      else
        I2.evaluateExpression.bind fun r =>
          .ok { r.2 with output := r.2.output ++ [r.1] }) = .fatal e s o →
      (o = I2.output ∧ (I2.pending.tokens = [] ∨
        ∃ t rest, I2.pending.tokens = t :: rest ∧ t.type ≠ .STRING ∧
          (argumentValue I2.store t = none ∨
            (rest = [] ∧ I2.pending.error.isSome = true)))) ∨
      (∃ t, I2.pending.tokens = [t] ∧ t.type = .STRING ∧ o = I2.output ++ [t.value])) := by
  constructor
  · intro I3 h
    split_ifs at h with hs
    · obtain ⟨_, b, c, d, e, _⟩ := matchToken_step h (by simp)
      refine ⟨I2.currentToken.value, ?_, b, e, d, c.symm⟩
      unfold argumentValue
      rw [if_neg (by rw [hs]; simp), if_pos (Or.inl hs)]
    · obtain ⟨r, hr, hr2⟩ := Outcome.bind_eq_ok h
      obtain ⟨v, J⟩ := r
      obtain ⟨_, b, c, d, e, _⟩ := evaluateExpression_step hr
      simp only [Outcome.ok.injEq] at hr2
      subst hr2
      exact ⟨v, argumentValue_of_evaluateExpression hr, b, by simp [e], d, c.symm⟩
  · intro e s o h
    split_ifs at h with hs
    · right
      have ho := (matchToken_fatal h).2
      rcases matchToken_fatal_tokens h (by simp) with h1 | ⟨t, rest, h1, h2⟩ | ⟨t, h1, h2, _⟩
      · have h1 : I2.pending.tokens = [] := h1
        obtain ⟨hE, _, _⟩ | ⟨_, r, hr⟩ := pending_cases I2
        · rw [hs] at hE; simp at hE
        · rw [hr] at h1; simp at h1
      · have h1 : I2.pending.tokens = t :: rest := h1
        have := (pending_head h1).1
        exact absurd (by rw [← this]; exact hs) h2
      · have h1 : I2.pending.tokens = [t] := h1
        have := (pending_head h1).1
        exact ⟨t, h1, h2, by rw [ho, ← this]⟩
    · left
      rcases Outcome.bind_eq_fatal h with h4 | ⟨r, _, h4⟩
      · refine ⟨(evaluateExpression_fatal h4).2, ?_⟩
        rcases evaluateExpression_fatal_tokens h4 with h1 | ⟨t, rest, h1, h2⟩
        · exact Or.inl h1
        · refine Or.inr ⟨t, rest, h1, ?_, h2⟩
          rw [← (pending_head h1).1]
          exact hs
      · simp at h4

theorem readStatement_short {err : Bool} {s : Store} {ts : List Token} (h : ts.length < 3) :
    readStatement err s ts = ([], none) := by
  match ts, h with
  | [], _ => rfl
  | [_], _ => rfl
  | [_, _], _ => rfl

/-- The lines of a println statement, and what follows it. -/
theorem printlnStatement_lines (I : Interpreter) (hp : I.currentToken.type = .PRINTLN) :
    (∀ I5, I.printlnStatement = .ok I5 →
      ∃ v, readStatement I.pending.error.isSome I.store I.pending.tokens =
          ([v], some (I5.store, I5.pending.tokens)) ∧
        I5.output = I.output ++ [v] ∧ I5.pending.error = I.pending.error) ∧
    (∀ e s o, I.printlnStatement = .fatal e s o →
      o = I.output ++ (readStatement I.pending.error.isSome I.store I.pending.tokens).1 ∧
        ((readStatement I.pending.error.isSome I.store I.pending.tokens).2 = none ∨
          ∃ s1, (readStatement I.pending.error.isSome I.store I.pending.tokens).2 =
            some (s1, []))) := by
  constructor
  · intro I5 h
    unfold Interpreter.printlnStatement at h
    obtain ⟨I1, h1, h⟩ := Outcome.bind_eq_ok h
    obtain ⟨I2, h2, h⟩ := Outcome.bind_eq_ok h
    obtain ⟨I3, h3, h⟩ := Outcome.bind_eq_ok h
    obtain ⟨a1, b1, c1, d1, e1, _⟩ := matchToken_step h1 (by simp)
    obtain ⟨a2, b2, c2, d2, e2, _⟩ := matchToken_step h2 (by simp)
    obtain ⟨v, a3, b3, e3, d3, c3⟩ := (argument_lines I2).1 I3 h3
    obtain ⟨b5, d5, e5, c5⟩ := (closing_lines I3).1 I5 h
    have hcond : ¬ (I3.pending.tokens = [] ∧ I.pending.error.isSome = true) := by
      rintro ⟨hn, he⟩
      have := pending_error_of_nil hn
      rw [c3, ← c2, ← c1, he] at this
      simp at this
    refine ⟨v, ?_, by rw [e5, e3, e2, e1], by rw [c5, c3, ← c2, ← c1]⟩
    rw [b1, b2, b3]
    rw [d2, d1] at a3
    simp [readStatement, hp, a2, hcond, a3, b5, d5, d3, d2, d1]
  · intro e s o h
    unfold Interpreter.printlnStatement at h
    rcases Outcome.bind_eq_fatal h with h1 | ⟨I1, h1, h⟩
    · have ho := (matchToken_fatal h1).2
      rcases matchToken_fatal_tokens h1 (by simp) with h2 | ⟨t, rest, h2, h3⟩ | ⟨t, h2, _, _⟩
      · rw [h2, readStatement_short (by simp)]
        exact ⟨by simp [ho], Or.inl rfl⟩
      · exact absurd (by rw [← (pending_head h2).1]; exact hp) h3
      · rw [h2, readStatement_short (by simp)]
        exact ⟨by simp [ho], Or.inl rfl⟩
    obtain ⟨a1, b1, c1, d1, e1, _⟩ := matchToken_step h1 (by simp)
    rcases Outcome.bind_eq_fatal h with h2 | ⟨I2, h2, h⟩
    · have ho := (matchToken_fatal h2).2
      have hnone : readStatement I.pending.error.isSome I.store I.pending.tokens = ([], none) := by
        rw [b1]
        rcases matchToken_fatal_tokens h2 (by simp) with h3 | ⟨t, rest, h3, h4⟩ | ⟨t, h3, _, _⟩
        · rw [h3, readStatement_short (by simp)]
        · rw [h3]
          cases rest with
          | nil => rw [readStatement_short (by simp)]
          | cons t2 rest => simp [readStatement, hp, h4]
        · rw [h3, readStatement_short (by simp)]
      rw [hnone]
      exact ⟨by simp [ho, e1], Or.inl rfl⟩
    obtain ⟨a2, b2, c2, d2, e2, _⟩ := matchToken_step h2 (by simp)
    rcases Outcome.bind_eq_fatal h with h3 | ⟨I3, h3, h⟩
    · rcases (argument_lines I2).2 e s o h3 with ⟨ho, h4⟩ | ⟨t, h4, h5, ho⟩
      · have hnone : readStatement I.pending.error.isSome I.store I.pending.tokens =
            ([], none) := by
          rw [b1, b2]
          rcases h4 with h4 | ⟨t, rest, h4, h5, h6⟩
          · rw [h4, readStatement_short (by simp)]
          · rw [h4]
            rcases h6 with h6 | ⟨h6, h7⟩
            · rw [d2, d1] at h6
              simp [readStatement, hp, h6]
            · rw [← c2, ← c1] at h7
              simp [readStatement, hp, h5, h6, h7]
        rw [hnone]
        exact ⟨by simp [ho, e2, e1], Or.inl rfl⟩
      · have hval : argumentValue I.store t = some t.value := by
          unfold argumentValue
          rw [if_neg (by rw [h5]; simp), if_pos (Or.inl h5)]
        have hr : readStatement I.pending.error.isSome I.store I.pending.tokens =
            ([t.value], none) := by
          rw [b1, b2, h4]
          simp [readStatement, hp, a2, h5, hval, closing]
        rw [hr]
        exact ⟨by simp [ho, e2, e1], Or.inl rfl⟩
    obtain ⟨v, a3, b3, e3, d3, c3⟩ := (argument_lines I2).1 I3 h3
    obtain ⟨ho, hc⟩ := (closing_lines I3).2 e s o h
    have hcond : ¬ (I3.pending.tokens = [] ∧ I.pending.error.isSome = true) := by
      rintro ⟨hn, he⟩
      have := pending_error_of_nil hn
      rw [c3, ← c2, ← c1, he] at this
      simp at this
    rw [d2, d1] at a3
    have hr : readStatement I.pending.error.isSome I.store I.pending.tokens =
        ([v], (closing I3.pending.tokens).map fun ts => (I.store, ts)) := by
      rw [b1, b2, b3]
      simp [readStatement, hp, a2, hcond, a3]
    rw [hr]
    refine ⟨by simp [ho, e3, e2, e1], ?_⟩
    rcases hc with hc | hc
    · left; simp [hc]
    · right; exact ⟨I.store, by simp [hc]⟩

theorem accepts_of_checkAndAssign_ok {I I1 : Interpreter} {ty : TokenType}
    {identifier value : List Char} (h : I.checkAndAssign ty identifier value = .ok I1) :
    accepts ty value = true := by
  unfold Interpreter.checkAndAssign at h
  unfold accepts
  split_ifs at h with h1 h2 h3
  simp only [not_and, Bool.not_eq_false] at h1 h2 h3
  simp only [Bool.and_eq_true, Bool.or_eq_true, decide_eq_true_eq]
  refine ⟨⟨?_, ?_⟩, ?_⟩
  · by_cases hc : ty = .INT
    · exact Or.inr (h1 hc)
    · exact Or.inl hc
  · by_cases hc : ty = .FLOAT
    · exact Or.inr (h2 hc)
    · exact Or.inl hc
  · by_cases hc : ty = .BOOL
    · exact Or.inr (h3 hc)
    · exact Or.inl hc

theorem accepts_of_checkAndAssign_fatal {I : Interpreter} {ty : TokenType}
    {identifier value : List Char} {e : Error} {v : Store} {o : List (List Char)}
    (h : I.checkAndAssign ty identifier value = .fatal e v o) : accepts ty value = false := by
  unfold Interpreter.checkAndAssign at h
  unfold accepts
  split_ifs at h with h1 h2 h3
  · simp [h1.1, h1.2]
  · simp [h2.1, h2.2]
  · simp [h3.1, h3.2]

/-- What a failed `matchAnyType` says about the pending tokens. -/
theorem matchAnyType_fatal_tokens {I : Interpreter} {e : Error} {v : Store}
    {o : List (List Char)} (h : I.matchAnyType = .fatal e v o) :
    I.pending.tokens = [] ∨
      (∃ t rest, I.pending.tokens = t :: rest ∧
        ¬ (t.type = .INT ∨ t.type = .FLOAT ∨ t.type = .BOOL ∨ t.type = .STRING)) ∨
      (∃ t, I.pending.tokens = [t]) := by
  rcases pending_cases I with ⟨_, h2, _⟩ | ⟨hne, r, h2⟩
  · exact Or.inl h2
  unfold Interpreter.matchAnyType at h
  split_ifs at h with h1
  · refine Or.inr (Or.inl ⟨_, _, h2, ?_⟩)
    rintro (hc | hc | hc | hc)
    · exact h1.1 hc
    · exact h1.2.1 hc
    · exact h1.2.2.1 hc
    · exact h1.2.2.2 hc
  · exact Or.inr (Or.inr ⟨_, (advance_fatal_tokens h hne).1⟩)

theorem readStatement_not_type {err : Bool} {s : Store} {t : Token} {rest : List Token}
    (hp : t.type ≠ .PRINTLN)
    (h : ¬ (t.type = .INT ∨ t.type = .FLOAT ∨ t.type = .BOOL ∨ t.type = .STRING)) :
    readStatement err s (t :: rest) = ([], none) := by
  match rest with
  | [] => rfl
  | [_] => rfl
  | _ :: _ :: _ => simp [readStatement, hp, h]

theorem readStatement_not_identifier {err : Bool} {s : Store} {t0 t : Token} {rest : List Token}
    (hp : t0.type ≠ .PRINTLN) (h : t.type ≠ .IDENTIFIER) :
    readStatement err s (t0 :: t :: rest) = ([], none) := by
  match rest with
  | [] => rfl
  | _ :: _ => simp [readStatement, hp, h]

/-- A declaration statement writes no line; what follows it. -/
theorem declarationStatement_lines (I : Interpreter) (hp : I.currentToken.type ≠ .PRINTLN) :
    (∀ I5, I.declarationStatement = .ok I5 →
      readStatement I.pending.error.isSome I.store I.pending.tokens =
          ([], some (I5.store, I5.pending.tokens)) ∧
        I5.output = I.output ∧ I5.pending.error = I.pending.error) ∧
    (∀ e s o, I.declarationStatement = .fatal e s o →
      o = I.output ∧
        (readStatement I.pending.error.isSome I.store I.pending.tokens = ([], none) ∨
          ∃ s1, readStatement I.pending.error.isSome I.store I.pending.tokens =
            ([], some (s1, [])))) := by
  constructor
  · intro I5 h
    have hout : I5.output = I.output := by
      obtain ⟨_, _, _, _, _, ho⟩ := declarationStatement_ok h
      exact ho
    unfold Interpreter.declarationStatement at h
    obtain ⟨I1, h1, h⟩ := Outcome.bind_eq_ok h
    obtain ⟨I2, h2, h⟩ := Outcome.bind_eq_ok h
    obtain ⟨I4, h3, h5⟩ := Outcome.bind_eq_ok h
    obtain ⟨a1, b1, c1, d1, e1, _⟩ := matchAnyType_step h1
    obtain ⟨a2, b2, c2, d2, e2, _⟩ := matchToken_step h2 (by simp)
    obtain ⟨a5, b5, c5, d5, e5, _⟩ := matchToken_step h5 (by simp)
    split_ifs at h3 with hs
    · obtain ⟨I3, h31, h3⟩ := Outcome.bind_eq_ok h3
      obtain ⟨r, h32, h33⟩ := Outcome.bind_eq_ok h3
      obtain ⟨v, J⟩ := r
      obtain ⟨a3, b3, c3, d3, e3, _⟩ := matchToken_step h31 (by simp)
      obtain ⟨a4, b4, c4, d4, e4, _⟩ := evaluateExpression_step h32
      have hval := argumentValue_of_evaluateExpression h32
      have hadm := accepts_of_checkAndAssign_ok h33
      have hJ := checkAndAssign_ok h33
      simp only at hJ hadm
      have hp4 : I4.pending = J.pending := by rw [hJ]; rfl
      have hs4 : I4.store = assign J.store I1.currentToken.value v := by rw [hJ]
      refine ⟨?_, hout, by rw [c1, c2, c3, c4, ← hp4, c5]⟩
      rw [b1, b2, b3, b4, ← hp4, b5]
      rw [d3, d2, d1] at hval
      rw [d5, hs4, d4, d3, d2, d1]
      simp [readStatement, hp, a1, a2, a3, hval, hadm, a5]
    · simp only [Outcome.ok.injEq] at h3
      subst h3
      refine ⟨?_, hout, by rw [c1, c2, c5]⟩
      rw [b1, b2, b5, d5, d2, d1]
      simp [readStatement, hp, a1, a2, hs, a5]
  · intro e s o h
    refine ⟨declarationStatement_fatal h, ?_⟩
    unfold Interpreter.declarationStatement at h
    rcases Outcome.bind_eq_fatal h with h1 | ⟨I1, h1, h⟩
    · left
      rcases matchAnyType_fatal_tokens h1 with h2 | ⟨t, rest, h2, h3⟩ | ⟨t, h2⟩
      · rw [h2, readStatement_short (by simp)]
      · rw [h2]
        exact readStatement_not_type (by rw [← (pending_head h2).1]; exact hp) h3
      · rw [h2, readStatement_short (by simp)]
    obtain ⟨a1, b1, c1, d1, e1, _⟩ := matchAnyType_step h1
    rcases Outcome.bind_eq_fatal h with h2 | ⟨I2, h2, h⟩
    · left
      rw [b1]
      rcases matchToken_fatal_tokens h2 (by simp) with h3 | ⟨t, rest, h3, h4⟩ | ⟨t, h3, _, _⟩
      · rw [h3, readStatement_short (by simp)]
      · rw [h3]
        exact readStatement_not_identifier hp h4
      · rw [h3, readStatement_short (by simp)]
    obtain ⟨a2, b2, c2, d2, e2, _⟩ := matchToken_step h2 (by simp)
    have herr : I2.pending.error = I.pending.error := by rw [c1, c2]
    rw [b1, b2]
    rcases Outcome.bind_eq_fatal h with h3 | ⟨I4, h3, h5⟩
    · left
      split_ifs at h3 with hs
      have hne : I2.currentToken.type ≠ .END := by rw [hs]; simp
      rcases Outcome.bind_eq_fatal h3 with h4 | ⟨I3, h4, h3⟩
      · rcases matchToken_fatal_tokens h4 (by simp) with h6 | ⟨t, rest, h6, h7⟩ | ⟨t, h6, _, _⟩
        · rw [h6, readStatement_short (by simp)]
        · exact absurd (by rw [← (pending_head h6).1]; exact hs) h7
        · rw [h6]
          have ht := (pending_head h6).1
          simp [readStatement, hp, a1, a2, ← ht, hs]
      obtain ⟨a3, b3, c3, d3, e3, _⟩ := matchToken_step h4 (by simp)
      rw [b3]
      rcases Outcome.bind_eq_fatal h3 with h6 | ⟨r, h6, h7⟩
      · rcases evaluateExpression_fatal_tokens h6 with h8 | ⟨t, rest, h8, h9⟩
        · rw [h8]
          simp [readStatement, hp, a1, a2, a3]
        · rw [h8]
          rcases h9 with h9 | ⟨h9, _⟩
          · rw [d3, d2, d1] at h9
            cases rest with
            | nil => simp [readStatement, hp, a1, a2, a3]
            | cons t4 rest => simp [readStatement, hp, a1, a2, a3, h9]
          · rw [h9]
            simp [readStatement, hp, a1, a2, a3]
      obtain ⟨v, J⟩ := r
      obtain ⟨a4, b4, c4, d4, e4, _⟩ := evaluateExpression_step h6
      have hval := argumentValue_of_evaluateExpression h6
      rw [d3, d2, d1] at hval
      have hadm := accepts_of_checkAndAssign_fatal h7
      simp only at hadm
      rw [b4]
      rcases pending_cases J with ⟨_, h8, _⟩ | ⟨_, rest, h8⟩
      · rw [h8]
        simp [readStatement, hp, a1, a2, a3]
      · rw [h8]
        simp [readStatement, hp, a1, a2, a3, hval, hadm]
    · split_ifs at h3 with hs
      · obtain ⟨I3, h4, h3⟩ := Outcome.bind_eq_ok h3
        obtain ⟨r, h6, h7⟩ := Outcome.bind_eq_ok h3
        obtain ⟨v, J⟩ := r
        obtain ⟨a3, b3, c3, d3, e3, _⟩ := matchToken_step h4 (by simp)
        obtain ⟨a4, b4, c4, d4, e4, _⟩ := evaluateExpression_step h6
        have hval := argumentValue_of_evaluateExpression h6
        rw [d3, d2, d1] at hval
        have hadm := accepts_of_checkAndAssign_ok h7
        have hJ := checkAndAssign_ok h7
        simp only at hJ hadm
        have hp4 : I4.pending = J.pending := by rw [hJ]; rfl
        rw [b3, b4, ← hp4]
        rcases matchToken_fatal_tokens h5 (by simp) with h8 | ⟨t, rest, h8, h9⟩ | ⟨t, h8, h9, _⟩
        · left
          rw [h8]
          simp [readStatement, hp, a1, a2, a3]
        · left
          rw [h8]
          simp [readStatement, hp, a1, a2, a3, hval, h9]
        · right
          rw [h8]
          exact ⟨assign I.store I1.currentToken.value v,
            by simp [readStatement, hp, a1, a2, a3, hval, hadm, h9]⟩
      · simp only [Outcome.ok.injEq] at h3
        subst h3
        rcases matchToken_fatal_tokens h5 (by simp) with h8 | ⟨t, rest, h8, h9⟩ | ⟨t, h8, h9, _⟩
        · left
          rw [h8, readStatement_short (by simp)]
        · left
          rw [h8]
          have ht := (pending_head h8).1
          have hs2 : ¬ t.type = .EQUAL := by rw [← ht]; exact hs
          simp [readStatement, hp, a1, a2, hs2, h9]
        · right
          rw [h8]
          exact ⟨I.store, by simp [readStatement, hp, a1, a2, h9]⟩

/-- The lines of one statement of the loop, and what follows it. -/
theorem statement_lines (I : Interpreter) :
    (∀ I1, I.statement = .ok I1 →
      ∃ lines, readStatement I.pending.error.isSome I.store I.pending.tokens =
          (lines, some (I1.store, I1.pending.tokens)) ∧
        I1.output = I.output ++ lines ∧ I1.pending.error = I.pending.error) ∧
    (∀ e s o, I.statement = .fatal e s o →
      ∃ lines next, readStatement I.pending.error.isSome I.store I.pending.tokens =
          (lines, next) ∧
        o = I.output ++ lines ∧ (next = none ∨ ∃ s1, next = some (s1, []))) := by
  unfold Interpreter.statement
  by_cases hp : I.currentToken.type = .PRINTLN
  · rw [if_pos hp]
    constructor
    · intro I1 h
      obtain ⟨v, a, b, c⟩ := (printlnStatement_lines I hp).1 I1 h
      exact ⟨[v], a, b, c⟩
    · intro e s o h
      obtain ⟨a, b⟩ := (printlnStatement_lines I hp).2 e s o h
      exact ⟨_, _, rfl, a, b⟩
  · rw [if_neg hp]
    constructor
    · intro I1 h
      obtain ⟨a, b, c⟩ := (declarationStatement_lines I hp).1 I1 h
      exact ⟨[], a, by simp [b], c⟩
    · intro e s o h
      obtain ⟨a, b⟩ := (declarationStatement_lines I hp).2 e s o h
      rcases b with b | ⟨s1, b⟩
      · exact ⟨[], none, b, by simp [a], Or.inl rfl⟩
      · exact ⟨[], some (s1, []), b, by simp [a], Or.inr ⟨s1, rfl⟩⟩

theorem writtenLines_nil (err : Bool) (n : Nat) (s : Store) : writtenLines err n s [] = [] := by
  cases n with
  | zero => rfl
  | succ n => rfl

theorem writtenLines_of_none {err : Bool} {s : Store} {ts : List Token}
    {lines : List (List Char)} {next : Option (Store × List Token)}
    (h : readStatement err s ts = (lines, next)) (hn : next = none ∨ ∃ s1, next = some (s1, []))
    (m : Nat) (hm : ts.length ≤ m) : writtenLines err m s ts = lines := by
  cases m with
  | zero =>
    have hts : ts = [] := List.length_eq_zero.1 (Nat.le_zero.1 hm)
    subst hts
    rw [readStatement_short (by simp)] at h
    simp only [Prod.mk.injEq] at h
    rw [← h.1]
    rfl
  | succ m =>
    unfold writtenLines
    rw [h]
    rcases hn with rfl | ⟨s1, rfl⟩
    · rfl
    · simp [writtenLines_nil]

/-- The output of the statement loop is the output before it followed by the
lines of the statements in the pending tokens. -/
theorem statements_lines (n : Nat) : ∀ (I : Interpreter) (r : Outcome Interpreter),
    Interpreter.statements n I = some r → ∀ m, I.pending.tokens.length ≤ m →
      (∀ I1, r = .ok I1 →
        I1.output =
          I.output ++ writtenLines I.pending.error.isSome m I.store I.pending.tokens) ∧
      (∀ e s o, r = .fatal e s o →
        o = I.output ++ writtenLines I.pending.error.isSome m I.store I.pending.tokens) := by
  induction n with
  | zero => intro I r h; simp [Interpreter.statements] at h
  | succ n ih =>
    intro I r h m hm
    unfold Interpreter.statements at h
    split_ifs at h with hb
    · cases hs : I.statement with
      | fatal e1 v1 o1 =>
        simp only [hs, Option.some.injEq] at h
        subst h
        obtain ⟨lines, next, a, b, c⟩ := (statement_lines I).2 e1 v1 o1 hs
        rw [writtenLines_of_none a c m hm]
        constructor
        · intro I1 h1; simp at h1
        · intro e s o h1
          simp only [Outcome.fatal.injEq] at h1
          rw [← h1.2.2]
          exact b
      | ok I2 =>
        simp only [hs] at h
        obtain ⟨lines, a, b, c⟩ := (statement_lines I).1 I2 hs
        obtain ⟨pre, p1, p2, _⟩ := statement_ok hs
        have hlen : 0 < pre.length := List.length_pos.2 p1.statement_facts.1
        have hlt : I2.pending.tokens.length < I.pending.tokens.length := by
          rw [p2, List.length_append]; omega
        cases m with
        | zero => omega
        | succ m =>
          have := ih I2 r h m (by omega)
          have hw : writtenLines I.pending.error.isSome (m + 1) I.store I.pending.tokens =
              lines ++ writtenLines I2.pending.error.isSome m I2.store I2.pending.tokens := by
            conv_lhs => unfold writtenLines
            rw [a, c]
          rw [hw, ← List.append_assoc, ← b]
          exact this
    · simp only [Option.some.injEq] at h
      subst h
      have hb : I.currentToken.type = .RIGHT_BRACE := by simpa using hb
      have hw : writtenLines I.pending.error.isSome m I.store I.pending.tokens = [] := by
        rcases pending_cases I with ⟨hE, _, _⟩ | ⟨_, rest, hr⟩
        · rw [hb] at hE; simp at hE
        · rw [hr]
          have hrs : readStatement I.pending.error.isSome I.store (I.currentToken :: rest) =
              ([], none) := readStatement_not_type (by rw [hb]; simp) (by rw [hb]; simp)
          cases m with
          | zero => rfl
          | succ m =>
            unfold writtenLines
            rw [hrs]
      rw [hw]
      constructor
      · intro I1 h1
        simp only [Outcome.ok.injEq] at h1
        rw [← h1]; simp
      · intro e s o h1; simp at h1

theorem expectedOutput_short {ts : TokenStream} (h : ts.tokens.length < 5) :
    expectedOutput ts = [] := by
  unfold expectedOutput
  match hts : ts.tokens, h with
  | [], _ => rfl
  | [_], _ => rfl
  | [_, _], _ => rfl
  | [_, _, _], _ => rfl
  | [_, _, _, _], _ => rfl

theorem expectedOutput_of_not_header {ts : TokenStream} {t1 t2 t3 t4 t5 : Token}
    {body : List Token} (h : ts.tokens = t1 :: t2 :: t3 :: t4 :: t5 :: body)
    (hn : ¬ (t1.type = .INT ∧ t2.type = .IDENTIFIER ∧ t3.type = .LEFT_PAREN ∧
      t4.type = .RIGHT_PAREN ∧ t5.type = .LEFT_BRACE)) : expectedOutput ts = [] := by
  unfold expectedOutput
  rw [h]
  simp only
  rw [if_neg hn]

theorem expectedOutput_of_header {ts : TokenStream} {t1 t2 t3 t4 t5 : Token}
    {body : List Token} (h : ts.tokens = t1 :: t2 :: t3 :: t4 :: t5 :: body)
    (hn : t1.type = .INT ∧ t2.type = .IDENTIFIER ∧ t3.type = .LEFT_PAREN ∧
      t4.type = .RIGHT_PAREN ∧ t5.type = .LEFT_BRACE) :
    expectedOutput ts = writtenLines ts.error.isSome body.length [] body := by
  unfold expectedOutput
  rw [h]
  simp only
  rw [if_pos hn]

/-- A failed `match` makes the pending tokens differ from every list that has
a token of the expected kind followed by another token. -/
theorem matchToken_fatal_cons {I : Interpreter} {ty : TokenType} {e : Error} {v : Store}
    {o : List (List Char)} (h : I.matchToken ty = .fatal e v o) (hty : ty ≠ .END)
    {t t1 : Token} {rest : List Token} (ht : I.pending.tokens = t :: t1 :: rest) :
    t.type ≠ ty := by
  rcases matchToken_fatal_tokens h hty with h1 | ⟨u, r, h1, h2⟩ | ⟨u, h1, _, _⟩
  · rw [h1] at ht; simp at ht
  · rw [h1] at ht
    simp only [List.cons.injEq] at ht
    rw [← ht.1]; exact h2
  · rw [h1] at ht; simp at ht

theorem header_fatal_tokens {I : Interpreter} {e : Error} {v : Store} {o : List (List Char)}
    (h : I.header = .fatal e v o) : expectedOutput I.pending = [] := by
  by_cases hlen : I.pending.tokens.length < 5
  · exact expectedOutput_short hlen
  obtain ⟨t1, t2, t3, t4, t5, body, hts⟩ :
      ∃ t1 t2 t3 t4 t5 body, I.pending.tokens = t1 :: t2 :: t3 :: t4 :: t5 :: body := by
    match hts : I.pending.tokens, hlen with
    | t1 :: t2 :: t3 :: t4 :: t5 :: body, _ => exact ⟨t1, t2, t3, t4, t5, body, rfl⟩
    | [], hl => simp at hl
    | [_], hl => simp at hl
    | [_, _], hl => simp at hl
    | [_, _, _], hl => simp at hl
    | [_, _, _, _], hl => simp at hl
  apply expectedOutput_of_not_header hts
  rintro ⟨k1, k2, k3, k4, _⟩
  unfold Interpreter.header at h
  rcases Outcome.bind_eq_fatal h with h1 | ⟨I1, h1, h⟩
  · exact matchToken_fatal_cons h1 (by simp) hts k1
  obtain ⟨_, b1, _⟩ := matchToken_step h1 (by simp)
  rw [hts] at b1
  simp only [List.cons.injEq] at b1
  rcases Outcome.bind_eq_fatal h with h2 | ⟨I2, h2, h⟩
  · exact matchToken_fatal_cons h2 (by simp) b1.2.symm k2
  obtain ⟨_, b2, _⟩ := matchToken_step h2 (by simp)
  rw [← b1.2] at b2
  simp only [List.cons.injEq] at b2
  rcases Outcome.bind_eq_fatal h with h3 | ⟨I3, h3, h4⟩
  · exact matchToken_fatal_cons h3 (by simp) b2.2.symm k3
  obtain ⟨_, b3, _⟩ := matchToken_step h3 (by simp)
  rw [← b2.2] at b3
  simp only [List.cons.injEq] at b3
  exact matchToken_fatal_cons h4 (by simp) b3.2.symm k4

/-- The output of `parse` from the initial store is the expected output of the
pending tokens, whether `parse` returns or exits. -/
theorem parse_lines {I : Interpreter} {r : Outcome Interpreter} (h : I.parse = some r)
    (hs : I.store = []) :
    (∀ I1, r = .ok I1 → I1.output = I.output ++ expectedOutput I.pending) ∧
    (∀ e s o, r = .fatal e s o → o = I.output ++ expectedOutput I.pending) := by
  unfold Interpreter.parse at h
  cases hh : I.header with
  | fatal e1 v1 o1 =>
    simp only [hh, Option.some.injEq] at h
    subst h
    rw [header_fatal_tokens hh]
    constructor
    · intro I1 h1; simp at h1
    · intro e s o h1
      simp only [Outcome.fatal.injEq] at h1
      rw [← h1.2.2, (header_fatal hh).2]; simp
  | ok I1 =>
    simp only [hh] at h
    obtain ⟨t1, t2, t3, t4, a1, a2, a3, a4, hp, he, hst, ho, _⟩ := header_ok hh
    split_ifs at h with hb
    · cases hm : I1.matchToken .LEFT_BRACE with
      | fatal e1 v1 o1 =>
        simp only [hm, Option.map_some', Option.some.injEq, Outcome.bind_fatal] at h
        subst h
        have hx : expectedOutput I.pending = [] := by
          rcases matchToken_fatal_tokens hm (by simp) with h1 | ⟨u, r, h1, h2⟩ | ⟨u, h1, h2, _⟩
          · exact expectedOutput_short (by rw [hp, h1]; simp)
          · exact absurd (by rw [← (pending_head h1).1]; exact hb) h2
          · have hts : I.pending.tokens = t1 :: t2 :: t3 :: t4 :: u :: [] := by rw [hp, h1]
            rw [expectedOutput_of_header hts ⟨a1, a2, a3, a4, h2⟩]
            rfl
        rw [hx]
        constructor
        · intro I1 h1; simp at h1
        · intro e s o h1
          simp only [Outcome.fatal.injEq] at h1
          rw [← h1.2.2, (matchToken_fatal hm).2, ho]; simp
      | ok I2 =>
        simp only [hm] at h
        obtain ⟨b1, b2, b3, b4, b5, _⟩ := matchToken_step hm (by simp)
        have hx : expectedOutput I.pending =
            writtenLines I2.pending.error.isSome I2.pending.tokens.length I2.store
              I2.pending.tokens := by
          have hts : I.pending.tokens =
              t1 :: t2 :: t3 :: t4 :: I1.currentToken :: I2.pending.tokens := by rw [hp, b2]
          rw [expectedOutput_of_header hts ⟨a1, a2, a3, a4, b1⟩, he, b3, b4, hst, hs]
        rw [hx]
        cases hst2 : Interpreter.statements (I2.lexer.input.length + 1) I2 with
        | none => simp [hst2] at h
        | some r1 =>
          simp only [hst2, Option.map_some', Option.some.injEq] at h
          obtain ⟨c1, c2⟩ := statements_lines _ I2 r1 hst2 _ (Nat.le_refl _)
          rw [b5, ho] at c1 c2
          cases r1 with
          | fatal e1 v1 o1 =>
            simp only [Outcome.bind_fatal] at h
            subst h
            constructor
            · intro I1 h1; simp at h1
            · intro e s o h1
              simp only [Outcome.fatal.injEq] at h1
              rw [← h1.2.2]
              exact c2 e1 v1 o1 rfl
          | ok I3 =>
            have c3 := c1 I3 rfl
            simp only [Outcome.bind_ok] at h
            cases h4 : I3.matchToken .RIGHT_BRACE with
            | fatal e1 v1 o1 =>
              rw [h4] at h
              simp only [Outcome.bind_fatal] at h
              subst h
              constructor
              · intro I1 h1; simp at h1
              · intro e s o h1
                simp only [Outcome.fatal.injEq] at h1
                rw [← h1.2.2, (matchToken_fatal h4).2]
                exact c3
            | ok I4 =>
              rw [h4] at h
              simp only [Outcome.bind_ok] at h
              obtain ⟨_, _, _, _, d5, _⟩ := matchToken_step h4 (by simp)
              constructor
              · intro I5 h1
                rw [h1] at h
                have := (advance_ok (matchToken_ok h).2).2.2
                rw [this, d5]
                exact c3
              · intro e s o h1
                rw [h1] at h
                rw [(matchToken_fatal h).2, d5]
                exact c3
    · simp only [Option.map_some', Option.some.injEq] at h
      have hx : expectedOutput I.pending = [] := by
        rcases pending_cases I1 with ⟨_, h1, _⟩ | ⟨_, rest, h1⟩
        · exact expectedOutput_short (by rw [hp, h1]; simp)
        · apply expectedOutput_of_not_header (by rw [hp, h1])
          rintro ⟨_, _, _, _, k5⟩
          exact hb k5
      rw [hx]
      cases h2 : I1.matchToken .SEMICOLON with
      | fatal e1 v1 o1 =>
        rw [h2] at h
        simp only [Outcome.bind_fatal] at h
        subst h
        constructor
        · intro I1 h1; simp at h1
        · intro e s o h1
          simp only [Outcome.fatal.injEq] at h1
          rw [← h1.2.2, (matchToken_fatal h2).2, ho]; simp
      | ok I2 =>
        rw [h2] at h
        simp only [Outcome.bind_ok] at h
        obtain ⟨_, _, _, _, d5, _⟩ := matchToken_step h2 (by simp)
        constructor
        · intro I5 h1
          rw [h1] at h
          have := (advance_ok (matchToken_ok h).2).2.2
          rw [this, d5, ho]; simp
        · intro e s o h1
          rw [h1] at h
          rw [(matchToken_fatal h).2, d5, ho]; simp

/-- The output of a run is the expected output of the token stream of the
source, whether the run succeeds or ends in a fatal error. -/
theorem run_lines {input : List Char} {r : Outcome Interpreter} (h : run input = some r) :
    (∀ I1, r = .ok I1 → I1.output = expectedOutput (tokenStream input)) ∧
    (∀ e s o, r = .fatal e s o → o = expectedOutput (tokenStream input)) := by
  unfold run at h
  cases hi : Interpreter.init input with
  | fatal e1 v1 o1 =>
    simp only [hi, Option.some.injEq] at h
    subst h
    have hx : expectedOutput (tokenStream input) = [] := by
      apply expectedOutput_short
      unfold Interpreter.init at hi
      split at hi
      · rename_i e2 hg
        unfold tokenStream
        rw [Lexer.tokens_eq, hg]
        simp
      · simp at hi
    rw [hx]
    constructor
    · intro I1 h1; simp at h1
    · intro e s o h1
      simp only [Outcome.fatal.injEq] at h1
      rw [← h1.2.2, (init_fatal hi).2]
  | ok I0 =>
    simp only [hi] at h
    obtain ⟨a1, a2, a3, _⟩ := init_ok hi
    have := parse_lines h a2
    rw [a1, a3] at this
    simpa using this

/-- Counterexample to C6 as stated: the run ends in a fatal error after the
line `a` has been written. -/
theorem C6_output_on_error_counterexample :
    run "int main() \x7b println(\"a\"); x \x7d".toList =
      some (.fatal (.expectedVariableType "x".toList) [] ["a".toList]) := by
  rfl

/-- Claim C6 (amended): when the run ends in a fatal error, the output is exactly
the lines written before the error, in order, as `expectedOutput` reads them
off the token stream of the source. Nothing is written unless the tokens start
with the header `INT IDENTIFIER ( ) {`. After the header, every statement
accepted before the error writes one line if it is a println statement (the
text of a string, integer, float or boolean argument, the stored value of an
identifier argument) and nothing if it is a declaration; the statement in which
the error occurs writes the line of its argument if it is a println statement
whose argument was evaluated before the error, and nothing otherwise; what
comes after the error writes nothing. So the output is empty when the header
is not read, it has at most one line per `println` token, and

* `int main() { int x = 1.5; println("a"); println("b"); }` and
  `float main() { println("a"); }` fail with empty output;
* `int main() { println("a"); println(x); println("b"); }` fails with the one
  line `a`;
* a string-literal argument is written even if the token after it cannot be
  read, any other argument is not. -/
theorem C6_output_on_error (input : List Char) (e : Error) (s : Store)
    (o : List (List Char)) (h : run input = some (.fatal e s o)) :
    o = expectedOutput (tokenStream input) ∧
      ((∀ t1 t2 t3 t4 t5 body, (tokenStream input).tokens = t1 :: t2 :: t3 :: t4 :: t5 :: body →
          ¬ (t1.type = .INT ∧ t2.type = .IDENTIFIER ∧ t3.type = .LEFT_PAREN ∧
            t4.type = .RIGHT_PAREN ∧ t5.type = .LEFT_BRACE)) → o = []) ∧
      o.length ≤ countPrintln (tokenStream input).tokens ∧
      run "int main() \x7b int x = 1.5; println(\"a\"); println(\"b\"); \x7d".toList =
        some (.fatal .nonInteger [] []) ∧
      run "float main() \x7b println(\"a\"); \x7d".toList =
        some (.fatal (.unexpectedToken .FLOAT .INT "float".toList) [] []) ∧
      run "int main() \x7b println(\"a\"); println(x); println(\"b\"); \x7d".toList =
        some (.fatal (.notDefined "x".toList) [] ["a".toList]) ∧
      run "int main() \x7b println(\"a\"@".toList =
        some (.fatal (.invalidCharacter '@') [] ["a".toList]) ∧
      run "int main() \x7b println(1@".toList =
        some (.fatal (.invalidCharacter '@') [] []) := by
  have hx := (run_lines h).2 e s o rfl
  refine ⟨hx, ?_, run_fatal h, by rfl, by rfl, by rfl, by rfl, by rfl⟩
  intro hn
  rw [hx]
  by_cases hlen : (tokenStream input).tokens.length < 5
  · exact expectedOutput_short hlen
  · match hts : (tokenStream input).tokens, hlen with
    | t1 :: t2 :: t3 :: t4 :: t5 :: body, _ =>
      exact expectedOutput_of_not_header hts (hn t1 t2 t3 t4 t5 body hts)
    | [], hl => simp at hl
    | [_], hl => simp at hl
    | [_, _], hl => simp at hl
    | [_, _, _], hl => simp at hl
    | [_, _, _, _], hl => simp at hl

/-- Witness for C6: a fatal error after one `println`; the output is the
expected output of the source. -/
theorem C6_output_on_error_witness :
    ["a".toList] =
      expectedOutput (tokenStream "int main() \x7b println(\"a\"); x \x7d".toList) :=
  (C6_output_on_error "int main() \x7b println(\"a\"); x \x7d".toList
    (.expectedVariableType "x".toList) [] ["a".toList] (by rfl)).1

end MLang
